import Mathlib

/-!
# The miner game: step engine and level generator

A shallow embedding of `src/procgen/src/games/miner.cpp` (class `MinerGame`).

Conventions of the embedding.

* Cell types are the `int` codes of the source.
* `Grid` is the `Grid<int>` of the base framework: a width, a height and the
  row-major cell vector.  The game's `main_width` / `main_height` are the
  dimensions of its grid.
* Entity coordinates are floats in the source; the game is grid-stepped and
  every entity sits on a cell centre `k + 0.5`.  The model stores the cell
  coordinate `k`, which is what each `int(ent->x)` of the source reads.
* `step_data.reward` is a float to which the source only adds the constants
  `1.0` and `10.0`; the model keeps it as an integer.
* `BasicAbstractGame::game_step()` (movement of the entities, collision
  dispatch) is not part of the sources.  `game_step` below is the code of
  `MinerGame::game_step` that follows that call, run on the state the call
  leaves; `game_step_full` takes the base step as a parameter.
-/

set_option autoImplicit false
set_option maxRecDepth 10000

namespace Miner

/-! ## Constants (miner.cpp, lines 9-22) -/

def COMPLETION_BONUS : Int := 10
def DIAMOND_REWARD : Int := 1

def BOULDER : Int := 1
def DIAMOND : Int := 2
def MOVING_BOULDER : Int := 3
def MOVING_DIAMOND : Int := 4
def ENEMY : Int := 5
def EXIT : Int := 6
def DIRT : Int := 9
def MUD : Int := 11
def DEAD_PLAYER : Int := 12

def OOB_WALL : Int := 10

/-- Modelled from the spec: the code of the empty cell (`Space`), a constant of
the base framework header that is not among the sources.  The spec's closed
enumeration of cell types only fixes that it differs from every other code. -/
def SPACE : Int := 100

/-! ## Data model -/

/-- Modelled from the spec: the grid buffer `Grid<int>` of the base framework,
"a fixed-size 2-D array of integer cell-type codes", row-major, flattened
index `y*width+x`. -/
structure Grid where
  w : Nat
  h : Nat
  data : List Int
deriving DecidableEq, Repr

/-- Number of cells, `w * h`, as an `int`. -/
def Grid.area (g : Grid) : Int := (g.w : Int) * (g.h : Int)

/-- The vector holds one code per cell. -/
def Grid.wf (g : Grid) : Prop := g.data.length = g.w * g.h

instance (g : Grid) : Decidable g.wf := by unfold Grid.wf; infer_instance

/-- Modelled from the spec: `Grid::contains(x, y)`. -/
def Grid.contains (g : Grid) (x y : Int) : Bool :=
  decide (0 ≤ x ∧ x < (g.w : Int) ∧ 0 ≤ y ∧ y < (g.h : Int))

/-- Modelled from the spec: a flat index addresses a cell of the grid. -/
def Grid.contains_index (g : Grid) (idx : Int) : Bool :=
  decide (0 ≤ idx ∧ idx < g.area)

/-- Modelled from the spec: bounds-checked read by flat index; "grid cells
outside the playable area read as `OutOfBoundsWall`". -/
def Grid.get_index (g : Grid) (idx : Int) : Int :=
  if g.contains_index idx then g.data.getD idx.toNat OOB_WALL else OOB_WALL

/-- Modelled from the spec: bounds-checked write by flat index.  A write
outside the grid stores nothing. -/
def Grid.set_index (g : Grid) (idx : Int) (v : Int) : Grid :=
  if g.contains_index idx then { g with data := g.data.set idx.toNat v } else g

/-- Modelled from the spec: bounds-checked read by coordinates. -/
def Grid.get (g : Grid) (x y : Int) : Int :=
  if g.contains x y then g.get_index (y * (g.w : Int) + x) else OOB_WALL

/-- Modelled from the spec: bounds-checked write by coordinates. -/
def Grid.set (g : Grid) (x y : Int) (v : Int) : Grid :=
  if g.contains x y then g.set_index (y * (g.w : Int) + x) v else g

/-- An entity of the base framework: type code, cell coordinates, velocity and
the reflection flag. -/
structure Entity where
  type : Int
  x : Int
  y : Int
  vx : Int
  vy : Int
  is_reflected : Bool
deriving DecidableEq, Repr

/-- The per-step outputs `step_data`. -/
structure StepData where
  reward : Int
  done : Bool
  level_complete : Bool
deriving DecidableEq, Repr

/-- Modelled from the spec: the random draw facade, "seeded generator exposing
uniform integer in [0,n), boolean"; the state is the sequence of raw draws
still to be consumed (an exhausted sequence yields 0). -/
structure RandGen where
  draws : List Nat
deriving DecidableEq, Repr

/-- Modelled from the spec: `rand_gen.randn(n)`, a value in `[0, n)`. -/
def RandGen.randn (r : RandGen) (n : Nat) : Int × RandGen :=
  (((r.draws.headD 0 % n : Nat) : Int), { draws := r.draws.tail })

/-- Modelled from the spec: `rand_gen.randbool()`. -/
def RandGen.randbool (r : RandGen) : Bool × RandGen :=
  (decide (r.draws.headD 0 % 2 = 1), { draws := r.draws.tail })

/-- The fields of the base class that `MinerGame` reads and writes.  `agent` is
the object behind the `agent` pointer; `entities` is the entity vector, whose
first slot is that same pointer while the agent is alive. -/
structure BasicAbstractGame where
  grid : Grid
  agent : Entity
  entities : List Entity
  action_vx : Int
  action_vy : Int
  step_data : StepData
  rand_gen : RandGen
deriving DecidableEq, Repr

/-- The game object: the base class and the two fields of lines 26-27. -/
structure MinerGame extends BasicAbstractGame where
  diamonds_remaining : Int
  died : Bool
deriving DecidableEq, Repr

def MinerGame.main_width (s : MinerGame) : Int := (s.grid.w : Int)
def MinerGame.main_height (s : MinerGame) : Int := (s.grid.h : Int)

/-- Modelled from the spec: `get_obj(idx)` of the base class, with
`out_of_bounds_object = OOB_WALL` (line 38). -/
def get_obj (s : MinerGame) (idx : Int) : Int := s.grid.get_index idx

/-- Modelled from the spec: `get_obj(x, y)` of the base class. -/
def get_obj_xy (s : MinerGame) (x y : Int) : Int := s.grid.get x y

/-- Modelled from the spec: `set_obj(idx, v)` of the base class. -/
def set_obj (s : MinerGame) (idx : Int) (v : Int) : MinerGame :=
  { s with grid := s.grid.set_index idx v }

/-- Modelled from the spec: `set_obj(x, y, v)` of the base class. -/
def set_obj_xy (s : MinerGame) (x y : Int) (v : Int) : MinerGame :=
  { s with grid := s.grid.set x y v }

/-! ## Classification (lines 219-247) -/

/-- Lines 103-105. -/
def get_agent_index (s : MinerGame) : Int :=
  s.agent.y * s.main_width + s.agent.x

/-- Lines 219-226. -/
def get_moving_type (type : Int) : Int :=
  if type = DIAMOND then MOVING_DIAMOND
  else if type = BOULDER then MOVING_BOULDER
  else type

/-- Lines 228-230. -/
def is_moving (type : Int) : Bool :=
  type = MOVING_BOULDER || type = MOVING_DIAMOND

/-- Lines 232-239. -/
def get_stationary_type (type : Int) : Int :=
  if type = MOVING_DIAMOND then DIAMOND
  else if type = MOVING_BOULDER then BOULDER
  else type

/-- Lines 241-243. -/
def is_free (s : MinerGame) (idx : Int) : Bool :=
  get_obj s idx = SPACE && get_agent_index s != idx

/-- Lines 245-247. -/
def is_round (type : Int) : Bool :=
  type = BOULDER || type = MOVING_BOULDER || type = DIAMOND || type = MOVING_DIAMOND

/-! ## Collision handler (lines 79-91) -/

/-- Lines 79-91.  `base` is `BasicAbstractGame::handle_agent_collision`, which
is not among the sources; it acts on the base class only. -/
def handle_agent_collision (base : BasicAbstractGame → Entity → BasicAbstractGame)
    (s : MinerGame) (obj : Entity) : MinerGame :=
  let s : MinerGame := { s with toBasicAbstractGame := base s.toBasicAbstractGame obj }
  if obj.type = ENEMY then
    { s with step_data := { s.step_data with done := true } }
  else if obj.type = EXIT then
    if s.diamonds_remaining = 0 then
      { s with step_data :=
          { reward := s.step_data.reward + COMPLETION_BONUS
            level_complete := true
            done := true } }
    else s
  else s

/-! ## Push (lines 249-264) -/

/-- Lines 249-264.  `%` is the truncating remainder of C++. -/
def handle_push (s : MinerGame) (next_grid : Grid) : MinerGame × Grid :=
  let agent_idx := get_agent_index s
  let agentx := Int.tmod agent_idx s.main_width
  if s.action_vx = 1 ∧ s.agent.vx = 0 ∧ agentx < s.main_width - 2
      ∧ get_obj s (agent_idx + 1) = BOULDER ∧ get_obj s (agent_idx + 2) = SPACE then
    let next_grid := next_grid.set_index (agent_idx + 1) SPACE
    let s := set_obj s (agent_idx + 1) SPACE
    let next_grid := next_grid.set_index (agent_idx + 2) BOULDER
    ({ s with agent := { s.agent with x := s.agent.x + 1 } }, next_grid)
  else if s.action_vx = -1 ∧ s.agent.vx = 0 ∧ agentx > 1
      ∧ get_obj s (agent_idx - 1) = BOULDER ∧ get_obj s (agent_idx - 2) = SPACE then
    let next_grid := next_grid.set_index (agent_idx - 1) SPACE
    let s := set_obj s (agent_idx - 1) SPACE
    let next_grid := next_grid.set_index (agent_idx - 2) BOULDER
    ({ s with agent := { s.agent with x := s.agent.x - 1 } }, next_grid)
  else (s, next_grid)

/-! ## Step (lines 266-348) -/

/-- Lines 276-279: the facing flag follows the horizontal action. -/
def set_facing (s : MinerGame) : MinerGame :=
  let s : MinerGame :=
    if s.action_vx > 0 then { s with agent := { s.agent with is_reflected := false } } else s
  if s.action_vx < 0 then { s with agent := { s.agent with is_reflected := true } } else s

/-- Lines 283-292: reward for a diamond under the agent, and clearing of the
agent's cell in the live grid and in the next grid. -/
def pickup (s : MinerGame) (next_grid : Grid) : MinerGame × Grid :=
  let agent_obj := get_obj_xy s s.agent.x s.agent.y
  let s : MinerGame :=
    if agent_obj = DIAMOND then
      { s with step_data := { s.step_data with reward := s.step_data.reward + DIAMOND_REWARD } }
    else s
  if agent_obj = DIRT ∨ agent_obj = MUD ∨ agent_obj = DIAMOND then
    (set_obj_xy s s.agent.x s.agent.y SPACE, next_grid.set s.agent.x s.agent.y SPACE)
  else (s, next_grid)

/-- The variables the physics loop of lines 297-334 updates: the game object
(its `died` flag and entity vector), the local `next_grid` and the local
`diamonds_count`. -/
structure ScanState where
  game : MinerGame
  next_grid : Grid
  diamonds_count : Int
deriving DecidableEq, Repr

/-- Lines 298-333: the body of the physics loop for one index. -/
def scan_cell (st : ScanState) (idx : Int) : ScanState :=
  let s := st.game
  let obj := get_obj s idx
  let obj_x := Int.tmod idx s.main_width
  let stat_type := get_stationary_type obj
  let agent_idx := get_agent_index s
  let st : ScanState :=
    if stat_type = DIAMOND then { st with diamonds_count := st.diamonds_count + 1 } else st
  if obj = BOULDER ∨ obj = MOVING_BOULDER ∨ obj = DIAMOND ∨ obj = MOVING_DIAMOND then
    let below_idx := idx - s.main_width
    let below_object := get_obj s below_idx
    let agent_is_below : Bool := decide (agent_idx = below_idx)
    if below_object = SPACE ∧ agent_is_below = false then
      let next_grid := st.next_grid.set_index idx SPACE
      let two_below_idx := below_idx - s.main_width
      let two_below_obj := get_obj s two_below_idx
      let obj_type := if two_below_obj = SPACE then get_moving_type obj else stat_type
      { st with next_grid := next_grid.set_index below_idx obj_type }
    else if agent_is_below = true ∧ is_moving obj = true then
      { st with
        game := { s with died := true, entities := s.entities.tail }
        next_grid := st.next_grid.set_index below_idx DEAD_PLAYER }
    else if is_round below_object = true ∧ obj_x > 0 ∧ is_free s (idx - 1) = true
        ∧ is_free s (idx - s.main_width - 1) = true then
      let next_grid := st.next_grid.set_index idx SPACE
      { st with next_grid := next_grid.set_index (idx - 1) stat_type }
    else if is_round below_object = true ∧ obj_x < s.main_width - 1 ∧ is_free s (idx + 1) = true
        ∧ is_free s (idx - s.main_width + 1) = true then
      let next_grid := st.next_grid.set_index idx SPACE
      { st with next_grid := next_grid.set_index (idx + 1) stat_type }
    else
      { st with next_grid := st.next_grid.set_index idx stat_type }
  else st

/-- The indices `0, 1, ..., n-1` of a `for (int idx = 0; idx < n; idx++)`. -/
def indices (n : Int) : List Int := (List.range n.toNat).map (fun (i : Nat) => (i : Int))

/-- The physics loop run over a given sequence of indices. -/
def scan_over (order : List Int) (st : ScanState) : ScanState :=
  order.foldl scan_cell st

/-- Lines 294-334: the physics loop, `idx` from `0` to `main_area - 1`. -/
def physics_scan (s : MinerGame) (next_grid : Grid) : ScanState :=
  let main_area := s.main_width * s.main_height
  scan_over (indices main_area) { game := s, next_grid := next_grid, diamonds_count := 0 }

/-- Lines 335-337: the next grid is copied back cell by cell. -/
def commit (s : MinerGame) (next_grid : Grid) : MinerGame :=
  (indices (s.main_width * s.main_height)).foldl
    (fun (t : MinerGame) (idx : Int) => set_obj t idx (next_grid.get_index idx)) s

/-- Lines 113-123. -/
def choose_new_vel (r : RandGen) (ent : Entity) : Entity × RandGen :=
  let hb := r.randbool
  let is_horizontal := hb.1
  let hv := hb.2.randn 2
  let vel := hv.1 * 2 - 1
  if is_horizontal then ({ ent with vx := vel, vy := 0 }, hv.2)
  else ({ ent with vx := 0, vy := vel }, hv.2)

/-- Lines 341-347: one entity of the re-roll loop. -/
def reroll_entity (acc : List Entity × RandGen) (ent : Entity) : List Entity × RandGen :=
  if ent.type = ENEMY then
    let d := acc.2.randn 6
    if d.1 = 0 then
      let c := choose_new_vel d.2 ent
      (acc.1 ++ [c.1], c.2)
    else (acc.1 ++ [ent], d.2)
  else (acc.1 ++ [ent], acc.2)

/-- Lines 341-347: every enemy re-rolls its velocity with probability 1/6. -/
def reroll_enemies (s : MinerGame) : MinerGame :=
  let r := s.entities.foldl reroll_entity ([], s.rand_gen)
  { s with entities := r.1, rand_gen := r.2 }

/-- The game and the next grid once the push is resolved (lines 269-281): the
next grid is the copy of the live grid taken at line 269. -/
def after_push (s : MinerGame) : MinerGame × Grid :=
  handle_push (set_facing s) s.grid

/-- The state in which the physics loop starts: push and pickup done (lines
269-292). -/
def pre_scan (s : MinerGame) : MinerGame × Grid :=
  let p := after_push s
  pickup p.1 p.2

/-- Lines 269-348: `MinerGame::game_step` after the call of the base step. -/
def game_step (s : MinerGame) : MinerGame :=
  if s.died then
    { s with step_data := { s.step_data with done := true } }
  else
    let p := pre_scan s
    let st := physics_scan p.1 p.2
    let t := commit st.game st.next_grid
    reroll_enemies { t with diamonds_remaining := st.diamonds_count }

/-- Lines 266-348 with `BasicAbstractGame::game_step` as a parameter; the base
class has no access to the fields of `MinerGame`. -/
def game_step_full (base : BasicAbstractGame → BasicAbstractGame) (s : MinerGame) : MinerGame :=
  game_step { s with toBasicAbstractGame := base s.toBasicAbstractGame }


/-! ## Level generator (lines 125-217) -/

/-- Modelled from the spec: the difficulty mode, "an enumerated value (`Easy`,
`Hard`, `Memory`) selected externally". -/
inductive DistributionMode where
  | EasyMode
  | HardMode
  | MemoryMode
deriving DecidableEq, Repr

/-- Lines 125-138: width and height of the grid for a mode. -/
def choose_world_dim (mode : DistributionMode) : Nat × Nat :=
  match mode with
  | .EasyMode => (10, 10)
  | .HardMode => (20, 20)
  | .MemoryMode => (35, 35)

/-- Lines 153-159: `(int)(pct * grid_size)` for `pct = per400 / 400.0f`.  The
percentages are the floats 12/400 and 80/400; for the grid sizes 100, 400 and
1225 of `choose_world_dim` the truncated float product is this integer
quotient. -/
def object_count (per400 grid_size : Nat) : Nat := per400 * grid_size / 400

def num_diamonds (grid_size : Nat) : Nat := object_count 12 grid_size
def num_boulders (grid_size : Nat) : Nat := object_count 80 grid_size
def num_mud (grid_size : Nat) : Nat := object_count 12 grid_size

/-- The integer part `int(k + 0.5)` of the centre of cell `k`, with the
truncation toward zero of C++. -/
def int_of_centre (k : Int) : Int := if 0 ≤ k then k else k + 1

/-- Lines 169-171: every cell is set to DIRT. -/
def fill_dirt (s : MinerGame) : MinerGame :=
  (indices (s.main_height * s.main_width)).foldl
    (fun (t : MinerGame) (i : Int) => set_obj t i DIRT) s

/-- Lines 173-186: one placement loop, `set_obj(obj_idxs[i + first], type)` for
`i` from `0` to `n - 1`. -/
def place_objects (s : MinerGame) (obj_idxs : List Int) (first n : Nat) (type : Int) :
    MinerGame :=
  (List.range n).foldl
    (fun (t : MinerGame) (i : Nat) => set_obj t (obj_idxs.getD (i + first) 0) type) s

/-- Lines 157-186: the grid filled with dirt and the drawn objects. -/
def populate (s : MinerGame) (obj_idxs : List Int) : MinerGame :=
  let grid_size := s.grid.w * s.grid.h
  let s := fill_dirt s
  let s := place_objects s obj_idxs 1 (num_diamonds grid_size) DIAMOND
  let s := place_objects s obj_idxs (1 + num_diamonds grid_size) (num_boulders grid_size) BOULDER
  place_objects s obj_idxs (1 + num_diamonds grid_size + num_boulders grid_size)
    (num_mud grid_size) MUD

/-- Modelled from the spec: `get_cells_with_type` of the base class, the flat
indices of the cells holding a type, in increasing order. -/
def get_cells_with_type (s : MinerGame) (type : Int) : List Int :=
  (indices (s.main_width * s.main_height)).filter (fun i => get_obj s i = type)

/-- Lines 196-198: a boulder at `(ox, oy)` becomes dirt. -/
def demote_boulder (s : MinerGame) (ox oy : Int) : MinerGame :=
  if get_obj_xy s ox oy = BOULDER then set_obj_xy s ox oy DIRT else s

/-- Lines 190-200: the agent's cell is emptied and the boulders of the 3x3
block around `(agent_x, agent_y)` are demoted. -/
def clear_spawn (s : MinerGame) (agent_x agent_y : Int) : MinerGame :=
  let s := set_obj_xy s s.agent.x s.agent.y SPACE
  [-1, 0, 1].foldl
    (fun (t : MinerGame) (i : Int) =>
      [-1, 0, 1].foldl
        (fun (u : MinerGame) (j : Int) => demote_boulder u (agent_x + i) (agent_y + j)) t) s

/-- Lines 143 and 166-167: the death flag is cleared and the agent is put on
the centre of cell `(agent_x, agent_y)`. -/
def place_agent (s : MinerGame) (agent_x agent_y : Int) : MinerGame :=
  { s with
    died := false
    agent := { s.agent with x := int_of_centre agent_x, y := int_of_centre agent_y } }

/-- Lines 143-200: the game after the spawn clearing, and the list
`dirt_cells` taken at line 188.  `s` is the state left by
`BasicAbstractGame::game_reset()`, which is not among the sources and sizes the
grid by `choose_world_dim`; `obj_idxs` is the result of
`rand_gen.simple_choose`.  `diamonds_remaining` is not assigned. -/
def reset_cleared (s : MinerGame) (obj_idxs : List Int) : MinerGame × List Int :=
  let agent_x := Int.tmod (obj_idxs.getD 0 0) s.main_width
  let agent_y := Int.tdiv (obj_idxs.getD 0 0) s.main_width
  let s := place_agent s agent_x agent_y
  let s := populate s obj_idxs
  let dirt_cells := get_cells_with_type s DIRT
  (clear_spawn s agent_x agent_y, dirt_cells)

/-- Lines 143-186: the game when `dirt_cells` is taken at line 188, with the
agent placed and the objects drawn, before the spawn clearing. -/
def reset_populated (s : MinerGame) (obj_idxs : List Int) : MinerGame :=
  populate
    (place_agent s (Int.tmod (obj_idxs.getD 0 0) s.main_width)
      (Int.tdiv (obj_idxs.getD 0 0) s.main_width)) obj_idxs

/-- Lines 202-209: the dirt cells whose cell above reads DIRT or the
out-of-bounds object once the spawn is cleared. -/
def exit_candidates (s : MinerGame) (obj_idxs : List Int) : List Int :=
  let r := reset_cleared s obj_idxs
  r.2.filter (fun cell =>
    get_obj r.1 (cell + r.1.main_width) = DIRT ∨ get_obj r.1 (cell + r.1.main_width) = OOB_WALL)

/-- Line 213: the chosen exit cell; `rg` is the generator after
`simple_choose`. -/
def exit_cell (s : MinerGame) (obj_idxs : List Int) (rg : RandGen) : Int :=
  (exit_candidates s obj_idxs).getD
    (rg.randn (exit_candidates s obj_idxs).length).1.toNat 0

/-- Lines 140-217: `MinerGame::game_reset` after the call of the base reset.
The result is `none` when the assertion of line 211 fails. -/
def game_reset (s : MinerGame) (obj_idxs : List Int) (rg : RandGen) : Option MinerGame :=
  let r := reset_cleared s obj_idxs
  if (exit_candidates s obj_idxs).length > 0 then
    let cell := exit_cell s obj_idxs rg
    let t := set_obj r.1 cell SPACE
    let exit : Entity :=
      { type := EXIT
        x := int_of_centre (Int.tmod cell t.main_width)
        y := int_of_centre (Int.tdiv cell t.main_width)
        vx := 0, vy := 0, is_reflected := false }
    some { t with
      entities := t.entities ++ [exit]
      rand_gen := (rg.randn (exit_candidates s obj_idxs).length).2 }
  else none

/-! ## The physics loop as a sequence of writes -/

/-- The writes `(cell, value)` to the next grid that the loop body of lines
298-333 issues for one index, in program order.  They are computed from the
live grid and the agent only. -/
def cell_writes (s : MinerGame) (idx : Int) : List (Int × Int) :=
  let obj := get_obj s idx
  let obj_x := Int.tmod idx s.main_width
  let stat_type := get_stationary_type obj
  let agent_idx := get_agent_index s
  if obj = BOULDER ∨ obj = MOVING_BOULDER ∨ obj = DIAMOND ∨ obj = MOVING_DIAMOND then
    let below_idx := idx - s.main_width
    let below_object := get_obj s below_idx
    let agent_is_below : Bool := decide (agent_idx = below_idx)
    if below_object = SPACE ∧ agent_is_below = false then
      let two_below_obj := get_obj s (below_idx - s.main_width)
      let obj_type := if two_below_obj = SPACE then get_moving_type obj else stat_type
      [(idx, SPACE), (below_idx, obj_type)]
    else if agent_is_below = true ∧ is_moving obj = true then
      [(below_idx, DEAD_PLAYER)]
    else if is_round below_object = true ∧ obj_x > 0 ∧ is_free s (idx - 1) = true
        ∧ is_free s (idx - s.main_width - 1) = true then
      [(idx, SPACE), (idx - 1, stat_type)]
    else if is_round below_object = true ∧ obj_x < s.main_width - 1 ∧ is_free s (idx + 1) = true
        ∧ is_free s (idx - s.main_width + 1) = true then
      [(idx, SPACE), (idx + 1, stat_type)]
    else
      [(idx, stat_type)]
  else []

/-- The crush branch of lines 319-323 is taken at this index. -/
def cell_kills (s : MinerGame) (idx : Int) : Bool :=
  let obj := get_obj s idx
  let below_idx := idx - s.main_width
  decide ((obj = BOULDER ∨ obj = MOVING_BOULDER ∨ obj = DIAMOND ∨ obj = MOVING_DIAMOND)
    ∧ ¬ (get_obj s below_idx = SPACE ∧ decide (get_agent_index s = below_idx) = false)
    ∧ decide (get_agent_index s = below_idx) = true ∧ is_moving obj = true)

/-- Writes applied to a grid one after the other. -/
def apply_writes (ws : List (Int × Int)) (g : Grid) : Grid :=
  ws.foldl (fun (a : Grid) (p : Int × Int) => a.set_index p.1 p.2) g

/-! ## Notions used to state the properties of the physics loop -/

/-- The number of cells of the game's grid whose stationary classification
(`get_stationary_type`) is DIAMOND: DIAMOND and MOVING_DIAMOND cells. -/
def diamond_cells (s : MinerGame) : Nat :=
  (indices (s.main_width * s.main_height)).countP
    (fun i => get_stationary_type (get_obj s i) = DIAMOND)

/-- The grid that lines 294-337 commit when the loop body is applied over the
indices in a given order: the loop of `physics_scan` run over `order`, followed
by the copy-back. -/
def committed_grid_in_order (s : MinerGame) (order : List Int) : Grid :=
  let p := pre_scan s
  let st := scan_over order { game := p.1, next_grid := p.2, diamonds_count := 0 }
  (commit st.game st.next_grid).grid

/-- No cell of the next grid receives different values from two different
indices of the loop. -/
def writes_agree (s : MinerGame) : Prop :=
  ∀ i ∈ indices (s.main_width * s.main_height),
    ∀ j ∈ indices (s.main_width * s.main_height), i ≠ j →
      ∀ p ∈ cell_writes s i, ∀ q ∈ cell_writes s j, p.1 = q.1 → p.2 = q.2

instance (s : MinerGame) : Decidable (writes_agree s) := by
  unfold writes_agree; infer_instance

/-- No cell into which one index of the loop writes a diamond (DIAMOND or
MOVING_DIAMOND) is written by another index of the loop. -/
def diamond_writes_alone (s : MinerGame) : Prop :=
  ∀ i ∈ indices (s.main_width * s.main_height),
    ∀ j ∈ indices (s.main_width * s.main_height), i ≠ j →
      ∀ p ∈ cell_writes s i, ∀ q ∈ cell_writes s j,
        get_stationary_type p.2 = DIAMOND → p.1 ≠ q.1

instance (s : MinerGame) : Decidable (diamond_writes_alone s) := by
  unfold diamond_writes_alone; infer_instance

/-! ## The writes of the push and the branch of the loop body -/

/-- The calls `next_grid.set_index(index, value)` of `handle_push` (lines 254,
256, 259 and 261), in program order. -/
def push_writes (s : MinerGame) : List (Int × Int) :=
  let agent_idx := get_agent_index s
  let agentx := Int.tmod agent_idx s.main_width
  if s.action_vx = 1 ∧ s.agent.vx = 0 ∧ agentx < s.main_width - 2
      ∧ get_obj s (agent_idx + 1) = BOULDER ∧ get_obj s (agent_idx + 2) = SPACE then
    [(agent_idx + 1, SPACE), (agent_idx + 2, BOULDER)]
  else if s.action_vx = -1 ∧ s.agent.vx = 0 ∧ agentx > 1
      ∧ get_obj s (agent_idx - 1) = BOULDER ∧ get_obj s (agent_idx - 2) = SPACE then
    [(agent_idx - 1, SPACE), (agent_idx - 2, BOULDER)]
  else []

/-- The calls `set_obj(index, value)` of `handle_push` (lines 255 and 260). -/
def push_live_writes (s : MinerGame) : List (Int × Int) :=
  let agent_idx := get_agent_index s
  let agentx := Int.tmod agent_idx s.main_width
  if s.action_vx = 1 ∧ s.agent.vx = 0 ∧ agentx < s.main_width - 2
      ∧ get_obj s (agent_idx + 1) = BOULDER ∧ get_obj s (agent_idx + 2) = SPACE then
    [(agent_idx + 1, SPACE)]
  else if s.action_vx = -1 ∧ s.agent.vx = 0 ∧ agentx > 1
      ∧ get_obj s (agent_idx - 1) = BOULDER ∧ get_obj s (agent_idx - 2) = SPACE then
    [(agent_idx - 1, SPACE)]
  else []

/-- The branches of the loop body of lines 308-333: no round object at the
index, fall (313-318), crush (319-323), roll to the left (324-326), roll to the
right (327-329), and the final `else` (330-332). -/
inductive ScanBranch where
  | skip
  | fall
  | crush
  | roll_left
  | roll_right
  | stay
deriving DecidableEq, Repr

/-- The branch of the loop body of lines 308-333 that is taken at an index. -/
def scan_branch (s : MinerGame) (idx : Int) : ScanBranch :=
  let obj := get_obj s idx
  let obj_x := Int.tmod idx s.main_width
  let agent_idx := get_agent_index s
  if obj = BOULDER ∨ obj = MOVING_BOULDER ∨ obj = DIAMOND ∨ obj = MOVING_DIAMOND then
    let below_idx := idx - s.main_width
    let below_object := get_obj s below_idx
    let agent_is_below : Bool := decide (agent_idx = below_idx)
    if below_object = SPACE ∧ agent_is_below = false then ScanBranch.fall
    else if agent_is_below = true ∧ is_moving obj = true then ScanBranch.crush
    else if is_round below_object = true ∧ obj_x > 0 ∧ is_free s (idx - 1) = true
        ∧ is_free s (idx - s.main_width - 1) = true then ScanBranch.roll_left
    else if is_round below_object = true ∧ obj_x < s.main_width - 1 ∧ is_free s (idx + 1) = true
        ∧ is_free s (idx - s.main_width + 1) = true then ScanBranch.roll_right
    else ScanBranch.stay
  else ScanBranch.skip

/-! ## Action decoding (lines 107-111) -/

/-- Lines 107-111.  `base` is `BasicAbstractGame::set_action_xy`, the decoding of
the move action into `action_vx` and `action_vy`, which is not among the
sources; it acts on the base class only. -/
def set_action_xy (base : BasicAbstractGame → Int → BasicAbstractGame)
    (s : MinerGame) (move_action : Int) : MinerGame :=
  let s : MinerGame := { s with toBasicAbstractGame := base s.toBasicAbstractGame move_action }
  if s.action_vx ≠ 0 then { s with action_vy := 0 } else s

/-- A cell is free in the words of the roll rule: it holds SPACE and is not the
agent's cell. -/
def free_cell (s : MinerGame) (c : Int) : Prop :=
  get_obj s c = SPACE ∧ get_agent_index s ≠ c

instance (s : MinerGame) (c : Int) : Decidable (free_cell s c) := by
  unfold free_cell; infer_instance

/-- The left roll is possible for `idx`: it is not in column 0 and the left cell
and the below-left cell are free. -/
def roll_left_possible (s : MinerGame) (idx : Int) : Prop :=
  idx % s.main_width ≠ 0 ∧ free_cell s (idx - 1) ∧ free_cell s (idx - s.main_width - 1)

/-- The right roll is possible for `idx`: it is not in the last column and the
right cell and the below-right cell are free. -/
def roll_right_possible (s : MinerGame) (idx : Int) : Prop :=
  idx % s.main_width ≠ s.main_width - 1 ∧ free_cell s (idx + 1)
    ∧ free_cell s (idx - s.main_width + 1)

instance (s : MinerGame) (idx : Int) : Decidable (roll_left_possible s idx) := by
  unfold roll_left_possible; infer_instance

instance (s : MinerGame) (idx : Int) : Decidable (roll_right_possible s idx) := by
  unfold roll_right_possible; infer_instance

/-- How the grid of `t` may differ from the grid of `s0` once the spawn around
the cell with flat index `a` has been cleared: a cell is unchanged, or it is
cell `a` and holds SPACE, or it held BOULDER and holds DIRT. -/
def cleared_from (s0 t : MinerGame) (a : Int) : Prop :=
  t.grid.wf ∧ t.grid.w = s0.grid.w ∧ t.grid.h = s0.grid.h
    ∧ ∀ c : Int, get_obj t c = get_obj s0 c
        ∨ (get_obj t c = SPACE ∧ c = a)
        ∨ (get_obj t c = DIRT ∧ get_obj s0 c = BOULDER)

/-- The offsets `(i, j)` of the 3x3 block in the order of the loops of lines
192-193. -/
def block_offsets : List (Int × Int) :=
  [(-1, -1), (-1, 0), (-1, 1), (0, -1), (0, 0), (0, 1), (1, -1), (1, 0), (1, 1)]

/-- The cells written by one placement loop of lines 173-186:
`obj_idxs[first], ..., obj_idxs[first + n - 1]`. -/
def placed (obj_idxs : List Int) (first n : Nat) : List Int :=
  (List.range n).map (fun (i : Nat) => obj_idxs.getD (i + first) 0)

/-- The number of cells of the game's grid that hold a type. -/
def count_cells (s : MinerGame) (type : Int) : Nat :=
  (get_cells_with_type s type).length

/-! ## State codec (lines 350-430) -/

/-- Modelled from the spec: the save buffer, "the generic per-episode state"
written by the base-class codec, which is not among the sources and is taken to
store and restore the base-class fields exactly, followed by the integers that
the subclass appends. -/
structure SaveBuffer where
  base : BasicAbstractGame
  ints : List Int
deriving DecidableEq, Repr

/-- Lines 350-353. -/
def serialize (s : MinerGame) : SaveBuffer :=
  { base := s.toBasicAbstractGame, ints := [s.diamonds_remaining] }

/-- Lines 355-358, run on the game object `target`; a field that is not read
back keeps the value it has in `target`. -/
def deserialize (target : MinerGame) (b : SaveBuffer) : MinerGame :=
  { target with toBasicAbstractGame := b.base, diamonds_remaining := b.ints.headD 0 }

/-- Lines 360-368 and `client::MinerState` of state.h: the observation. -/
structure MinerState where
  grid_width : Int
  grid_height : Int
  grid : List Int
  agent_x : Int
  agent_y : Int
  exit_x : Int
  exit_y : Int
deriving DecidableEq, Repr

/-- The first entity of type EXIT, as found by the `std::find_if` of lines 382
and 426; `none` when there is none (the source then dereferences `end()`). -/
def find_exit (entities : List Entity) : Option Entity :=
  entities.find? (fun e => decide (e.type = EXIT))

/-- Lines 370-388.  `int(agent->x)` is the stored cell coordinate. -/
def get_latent_state (s : MinerGame) : Option MinerState :=
  match find_exit s.entities with
  | some exit_entity =>
    some { grid_width := (s.grid.w : Int)
           grid_height := (s.grid.h : Int)
           grid := s.grid.data
           agent_x := s.agent.x
           agent_y := s.agent.y
           exit_x := exit_entity.x
           exit_y := exit_entity.y }
  | none => none

/-- The entity vector with the first entity of type EXIT moved to the centre of
cell `(ex, ey)` (lines 426-429). -/
def move_exit (ex ey : Int) : List Entity → List Entity
  | [] => []
  | e :: es =>
    if e.type = EXIT then
      { e with x := int_of_centre ex, y := int_of_centre ey } :: es
    else e :: move_exit ex ey es

/-- Lines 415-430.  The agent object is kept apart from the entity vector, so
the exit found in the vector is never the agent itself. -/
def game_set_state (s : MinerGame) (st : MinerState) : Option MinerGame :=
  let s : MinerGame :=
    (indices (st.grid_width * st.grid_height)).foldl
      (fun (t : MinerGame) (idx : Int) => set_obj t idx (st.grid.getD idx.toNat 0)) s
  let s : MinerGame :=
    { s with agent :=
        { s.agent with x := int_of_centre st.agent_x, y := int_of_centre st.agent_y } }
  match find_exit s.entities with
  | some _ => some { s with entities := move_exit st.exit_x st.exit_y s.entities }
  | none => none

/-! ## Concrete states used to exercise the theorems -/

/-- An entity at a cell, at rest. -/
def entity_at (type x y : Int) : Entity :=
  { type := type, x := x, y := y, vx := 0, vy := 0, is_reflected := false }

/-- A live game on a given grid with the agent (type code 0) at `(x, y)`, an
exit entity at `(ex, ey)`, no pending action and fresh step data. -/
def game_on (g : Grid) (x y ex ey : Int) : MinerGame :=
  { grid := g
    agent := entity_at 0 x y
    entities := [entity_at 0 x y, entity_at EXIT ex ey]
    action_vx := 0
    action_vy := 0
    step_data := { reward := 0, done := false, level_complete := false }
    rand_gen := { draws := [] }
    diamonds_remaining := 0
    died := false }

/-- A 2x3 cave: a diamond rests on a boulder with a free cell to its left, and a
boulder hangs over that free cell.  Row 0 is the bottom row. -/
def cave_2x3 : Grid :=
  { w := 2, h := 3, data := [SPACE, BOULDER, SPACE, DIAMOND, BOULDER, SPACE] }

/-- The push condition in the words of the push rule, for direction `d`
(`1` right, `-1` left): no residual horizontal velocity, the action points in
direction `d`, the neighbouring cell of the agent's row holds a stationary
boulder, and the cell two away in that row is inside the grid and empty. -/
def push_applies (s : MinerGame) (d : Int) : Prop :=
  s.agent.vx = 0 ∧ s.action_vx = d
    ∧ get_obj_xy s (s.agent.x + d) s.agent.y = BOULDER
    ∧ s.grid.contains (s.agent.x + 2 * d) s.agent.y = true
    ∧ get_obj_xy s (s.agent.x + 2 * d) s.agent.y = SPACE

instance (s : MinerGame) (d : Int) : Decidable (push_applies s d) := by
  unfold push_applies; infer_instance

/-- A 4x1 corridor: the agent's cell, a boulder, two empty cells. -/
def corridor_4x1 : Grid :=
  { w := 4, h := 1, data := [SPACE, BOULDER, SPACE, SPACE] }

/-- A 2x2 cave with a diamond in the bottom-left cell. -/
def cave_2x2 : Grid :=
  { w := 2, h := 2, data := [DIAMOND, DIRT, DIRT, DIRT] }

/-- A 1x3 shaft: the agent's cell at the bottom, a falling boulder directly
above it, and an empty cell at the top. -/
def shaft_1x3 : Grid :=
  { w := 1, h := 3, data := [SPACE, MOVING_BOULDER, SPACE] }

/-- A 2x3 cave with a boulder in the top-right cell and empty cells everywhere
else; the agent stands in the bottom-left cell. -/
def shaft_fall : Grid :=
  { w := 2, h := 3, data := [SPACE, SPACE, SPACE, SPACE, SPACE, BOULDER] }

/-- A freshly sized game for a mode: a grid of the mode's size with arbitrary
(here empty) content. -/
def blank_game (mode : DistributionMode) : MinerGame :=
  game_on
    { w := (choose_world_dim mode).1, h := (choose_world_dim mode).2,
      data := List.replicate ((choose_world_dim mode).1 * (choose_world_dim mode).2) SPACE }
    0 0 0 0

/-- A draw of 27 distinct cells of the 10x10 grid: the three bottom rows with
three cells left out. -/
def draw_easy : List Int :=
  [0, 1, 2, 3, 4, 5, 6, 7, 8, 9, 10, 11, 12, 13, 14, 15, 16, 17, 18, 19,
   20, 21, 22, 23, 24, 25, 26]

/-- A 3x3 cave: a diamond rests on a boulder in the middle column, with free
cells on both sides of the two; the agent stands in the top-left cell. -/
def cave_3x3 : Grid :=
  { w := 3, h := 3, data := [SPACE, BOULDER, SPACE, SPACE, DIAMOND, SPACE, SPACE, SPACE, SPACE] }

/-- The loop state in which index 4 of the 3x3 cave is visited. -/
def cave_3x3_scan : ScanState :=
  { game := game_on cave_3x3 0 2 2 2, next_grid := cave_3x3, diamonds_count := 0 }

/-- A draw of 27 distinct cells of the 10x10 grid: the agent in cell 0, a
boulder in cell 10 directly above it, and no object in cell 20. -/
def draw_gap : List Int :=
  [0, 1, 2, 3, 10, 4, 5, 6, 7, 8, 9, 11, 12, 13, 14, 15, 16, 17, 18, 19,
   30, 31, 32, 33, 40, 41, 42]

/-- A 10x10 game as `MinerGame()` and a first reset leave its own fields:
`diamonds_remaining = -1`, `died = false`. -/
def fresh_game : MinerGame :=
  { blank_game .EasyMode with diamonds_remaining := -1 }

/-- A 10x10 game before a reset, at the end of an episode in which every
diamond was collected and the agent was crushed. -/
def finished_dead_game : MinerGame :=
  { blank_game .EasyMode with diamonds_remaining := 0, died := true }

/-- A 10x10 game before a reset, at the end of an episode with five diamonds
left and the agent alive. -/
def finished_alive_game : MinerGame :=
  { blank_game .EasyMode with diamonds_remaining := 5, died := false }

/-- A 10x10 game right after a crush: dirt everywhere, the dead player in cell 0
with the falling boulder that killed it in cell 10, the agent erased from the
entity vector, `died` set. -/
def crushed_game : MinerGame :=
  { grid :=
      { w := 10, h := 10,
        data := ((List.replicate 100 DIRT).set 0 DEAD_PLAYER).set 10 MOVING_BOULDER }
    agent := entity_at 0 0 0
    entities := [entity_at EXIT 5 5]
    action_vx := 0
    action_vy := 0
    step_data := { reward := 0, done := false, level_complete := false }
    rand_gen := { draws := [] }
    diamonds_remaining := 0
    died := true }

/-- An observation of a 2x2 grid with the agent in the top-right cell and the
exit in the bottom-left cell. -/
def observation_2x2 : MinerState :=
  { grid_width := 2, grid_height := 2, grid := [SPACE, DIAMOND, BOULDER, SPACE],
    agent_x := 1, agent_y := 1, exit_x := 0, exit_y := 0 }

/-- A 3x3 cave: two columns of two boulders with an empty column between them,
and an empty top row, where the agent stands.  Both upper boulders roll into the
middle cell of row 1. -/
def cave_3x3_pair : Grid :=
  { w := 3, h := 3,
    data := [BOULDER, SPACE, BOULDER, BOULDER, SPACE, BOULDER, SPACE, SPACE, SPACE] }

/-! ## Grid lemmas -/

theorem Grid.set_index_w (g : Grid) (i v : Int) : (g.set_index i v).w = g.w := by
  unfold Grid.set_index; split <;> rfl

theorem Grid.set_index_h (g : Grid) (i v : Int) : (g.set_index i v).h = g.h := by
  unfold Grid.set_index; split <;> rfl

theorem Grid.set_index_area (g : Grid) (i v : Int) : (g.set_index i v).area = g.area := by
  unfold Grid.area; rw [Grid.set_index_w, Grid.set_index_h]

theorem Grid.set_index_length (g : Grid) (i v : Int) :
    (g.set_index i v).data.length = g.data.length := by
  unfold Grid.set_index; split <;> simp

theorem Grid.set_index_wf (g : Grid) (i v : Int) (hg : g.wf) : (g.set_index i v).wf := by
  unfold Grid.wf at *
  rw [Grid.set_index_length, Grid.set_index_w, Grid.set_index_h]; exact hg

theorem Grid.set_index_contains_index (g : Grid) (i v j : Int) :
    (g.set_index i v).contains_index j = g.contains_index j := by
  unfold Grid.contains_index; rw [Grid.set_index_area]

theorem Grid.wf_length (g : Grid) (hg : g.wf) : (g.data.length : Int) = g.area := by
  unfold Grid.wf at hg; unfold Grid.area; rw [hg]; push_cast; rfl

theorem Grid.contains_index_iff (g : Grid) (i : Int) :
    g.contains_index i = true ↔ 0 ≤ i ∧ i < g.area := by
  unfold Grid.contains_index; simp

theorem Grid.get_index_of_not_contains (g : Grid) (i : Int)
    (h : ¬ (0 ≤ i ∧ i < g.area)) : g.get_index i = OOB_WALL := by
  unfold Grid.get_index
  rw [if_neg]
  rw [Grid.contains_index_iff]; exact h

/-- Reading a cell after a write: the written value at the written cell (when
it is in the grid), the old value elsewhere. -/
theorem Grid.get_index_set_index (g : Grid) (hg : g.wf) (i v j : Int) :
    (g.set_index i v).get_index j
      = if i = j ∧ 0 ≤ i ∧ i < g.area then v else g.get_index j := by
  have hlen := g.wf_length hg
  by_cases hi : 0 ≤ i ∧ i < g.area
  · have hci : g.contains_index i = true := (g.contains_index_iff i).2 hi
    by_cases hij : i = j
    · subst hij
      rw [if_pos ⟨rfl, hi⟩]
      unfold Grid.get_index
      rw [Grid.set_index_contains_index, if_pos hci]
      unfold Grid.set_index
      rw [if_pos hci]
      have : i.toNat < g.data.length := by omega
      simp [List.getD_eq_getElem?_getD, List.getElem?_set, this]
    · rw [if_neg (fun h => hij h.1)]
      unfold Grid.get_index
      rw [Grid.set_index_contains_index]
      by_cases hcj : g.contains_index j = true
      · rw [if_pos hcj, if_pos hcj]
        have hj := (g.contains_index_iff j).1 hcj
        unfold Grid.set_index
        rw [if_pos hci]
        have hne : i.toNat ≠ j.toNat := by omega
        simp [List.getD_eq_getElem?_getD, List.getElem?_set, hne]
      · rw [if_neg hcj, if_neg hcj]
  · rw [if_neg (fun h => hi h.2)]
    have hci : ¬ g.contains_index i = true := fun h => hi ((g.contains_index_iff i).1 h)
    unfold Grid.set_index
    rw [if_neg hci]

theorem Grid.get_index_set_index_ne (g : Grid) (hg : g.wf) (i v j : Int) (h : i ≠ j) :
    (g.set_index i v).get_index j = g.get_index j := by
  rw [Grid.get_index_set_index g hg, if_neg (fun c => h c.1)]

theorem Grid.get_index_set_index_same (g : Grid) (hg : g.wf) (i v : Int)
    (h0 : 0 ≤ i) (h1 : i < g.area) :
    (g.set_index i v).get_index i = v := by
  rw [Grid.get_index_set_index g hg, if_pos ⟨rfl, h0, h1⟩]

/-! ## Collision contract -/

/-- C4: with a base-class handler that leaves `step_data` (reward, done,
level_complete) untouched, `handle_agent_collision` on an EXIT entity adds
exactly `COMPLETION_BONUS = 10` to the reward and sets `level_complete` and
`done` when `diamonds_remaining = 0`, and leaves the three fields unchanged
when `diamonds_remaining ≠ 0`; on an ENEMY entity it sets `done` and leaves
reward and `level_complete` unchanged. -/
theorem handle_agent_collision_contract
    (base : BasicAbstractGame → Entity → BasicAbstractGame)
    (hbase : ∀ (b : BasicAbstractGame) (e : Entity), (base b e).step_data = b.step_data)
    (s : MinerGame) (obj : Entity) :
    COMPLETION_BONUS = 10
    ∧ (obj.type = EXIT → s.diamonds_remaining = 0 →
        (handle_agent_collision base s obj).step_data
          = { reward := s.step_data.reward + 10, level_complete := true, done := true })
    ∧ (obj.type = EXIT → s.diamonds_remaining ≠ 0 →
        (handle_agent_collision base s obj).step_data = s.step_data)
    ∧ (obj.type = ENEMY →
        (handle_agent_collision base s obj).step_data
          = { s.step_data with done := true }) := by
  refine ⟨rfl, ?_, ?_, ?_⟩
  · intro ht hd
    have hne : ¬ obj.type = ENEMY := by rw [ht]; decide
    simp only [handle_agent_collision, if_neg hne, if_pos ht, if_pos hd, hbase]
    rfl
  · intro ht hd
    have hne : ¬ obj.type = ENEMY := by rw [ht]; decide
    simp only [handle_agent_collision, if_neg hne, if_pos ht, if_neg hd, hbase]
  · intro ht
    simp only [handle_agent_collision, if_pos ht, hbase]

theorem handle_agent_collision_contract_witness :
    (handle_agent_collision (fun b _ => b) (game_on cave_2x3 1 2 0 0)
        (entity_at EXIT 0 0)).step_data
      = { reward := 10, level_complete := true, done := true }
    ∧ (handle_agent_collision (fun b _ => b) (game_on cave_2x3 1 2 0 0)
        (entity_at ENEMY 0 0)).step_data
      = { reward := 0, level_complete := false, done := true } :=
  ⟨(handle_agent_collision_contract (fun b _ => b) (fun _ _ => rfl)
      (game_on cave_2x3 1 2 0 0) (entity_at EXIT 0 0)).2.1 rfl rfl,
   (handle_agent_collision_contract (fun b _ => b) (fun _ _ => rfl)
      (game_on cave_2x3 1 2 0 0) (entity_at ENEMY 0 0)).2.2.2 rfl⟩

/-! ## Death is sticky -/

theorem game_step_of_died (s : MinerGame) (hd : s.died = true) :
    game_step s = { s with step_data := { s.step_data with done := true } } := by
  unfold game_step; rw [if_pos hd]

theorem game_step_full_of_died (base : BasicAbstractGame → BasicAbstractGame)
    (s : MinerGame) (hd : s.died = true) :
    game_step_full base s
      = { toBasicAbstractGame :=
            { base s.toBasicAbstractGame with
              step_data := { (base s.toBasicAbstractGame).step_data with done := true } }
          diamonds_remaining := s.diamonds_remaining
          died := true } := by
  unfold game_step_full
  rw [game_step_of_died { s with toBasicAbstractGame := base s.toBasicAbstractGame } hd]
  simp only [hd]

theorem game_step_full_iterate_died (base : BasicAbstractGame → BasicAbstractGame)
    (n : Nat) (s : MinerGame) (hd : s.died = true) :
    ((game_step_full base)^[n + 1] s).died = true
      ∧ ((game_step_full base)^[n + 1] s).step_data.done = true := by
  induction n generalizing s with
  | zero =>
    simp only [Function.iterate_succ, Function.iterate_zero, Function.comp, id]
    rw [game_step_full_of_died base s hd]
    exact ⟨rfl, rfl⟩
  | succ k ih =>
    rw [Function.iterate_succ_apply]
    apply ih
    rw [game_step_full_of_died base s hd]

/-- C7: on a state with `died = true` the code of `MinerGame::game_step` only
sets `step_data.done`: the grid, `diamonds_remaining`, `died`, the agent, the
entities, the reward and the random generator are as they were.  Whatever the
base-class step does (it has no access to `died`), the flag stays set and
`done` is reported on every later step. -/
theorem game_step_dead_is_frozen (s : MinerGame) (hd : s.died = true) :
    game_step s = { s with step_data := { s.step_data with done := true } }
    ∧ (game_step s).step_data.done = true
    ∧ (game_step s).step_data.reward = s.step_data.reward
    ∧ (game_step s).grid = s.grid
    ∧ (game_step s).diamonds_remaining = s.diamonds_remaining
    ∧ (game_step s).died = true
    ∧ (game_step s).agent = s.agent
    ∧ (game_step s).entities = s.entities
    ∧ (game_step s).rand_gen = s.rand_gen
    ∧ (∀ (base : BasicAbstractGame → BasicAbstractGame),
        game_step_full base s
          = { toBasicAbstractGame :=
                { base s.toBasicAbstractGame with
                  step_data := { (base s.toBasicAbstractGame).step_data with done := true } }
              diamonds_remaining := s.diamonds_remaining
              died := true })
    ∧ (∀ (base : BasicAbstractGame → BasicAbstractGame) (n : Nat),
        ((game_step_full base)^[n + 1] s).died = true
          ∧ ((game_step_full base)^[n + 1] s).step_data.done = true) := by
  have h := game_step_of_died s hd
  refine ⟨h, ?_, ?_, ?_, ?_, ?_, ?_, ?_, ?_, ?_, ?_⟩
  · rw [h]
  · rw [h]
  · rw [h]
  · rw [h]
  · rw [h]; exact hd
  · rw [h]
  · rw [h]
  · rw [h]
  · intro base
    exact game_step_full_of_died base s hd
  · intro base n
    exact game_step_full_iterate_died base n s hd

theorem game_step_dead_is_frozen_witness :
    ({ game_on cave_2x3 1 2 0 0 with died := true } : MinerGame).died = true
    ∧ game_step { game_on cave_2x3 1 2 0 0 with died := true }
      = { game_on cave_2x3 1 2 0 0 with
          died := true
          step_data := { reward := 0, done := true, level_complete := false } } :=
  ⟨rfl, (game_step_dead_is_frozen { game_on cave_2x3 1 2 0 0 with died := true } rfl).1⟩

/-! ## Coordinates and flat indices -/

theorem emod_cell (w x y : Int) (hx : 0 ≤ x) (hxw : x < w) : (y * w + x) % w = x := by
  rw [Int.add_comm, Int.add_mul_emod_self, Int.emod_eq_of_lt hx hxw]

theorem cell_index_nonneg (w x y : Int) (hx : 0 ≤ x) (hxw : x < w) (hy : 0 ≤ y) :
    0 ≤ y * w + x := by
  have hw : 0 ≤ w := by omega
  have := Int.mul_nonneg hy hw
  omega

theorem cell_index_lt (w h x y : Int) (hx : 0 ≤ x) (hxw : x < w) (hyh : y < h) :
    y * w + x < w * h := by
  have hw : 0 ≤ w := by omega
  have h1 : (y + 1) * w ≤ h * w := Int.mul_le_mul_of_nonneg_right (by omega) hw
  have h2 : (y + 1) * w = y * w + w := by ring
  have h3 : h * w = w * h := Int.mul_comm h w
  omega

theorem tmod_cell (w x y : Int) (hx : 0 ≤ x) (hxw : x < w) (hy : 0 ≤ y) :
    Int.tmod (y * w + x) w = x := by
  rw [Int.tmod_eq_emod (cell_index_nonneg w x y hx hxw hy) (by omega)]
  exact emod_cell w x y hx hxw

theorem cell_index_inj (w x y cx cy : Int) (hx : 0 ≤ x) (hxw : x < w)
    (hcx : 0 ≤ cx) (hcxw : cx < w) (h : y * w + x = cy * w + cx) : x = cx ∧ y = cy := by
  have e1 := emod_cell w x y hx hxw
  have e2 := emod_cell w cx cy hcx hcxw
  rw [h, e2] at e1
  subst e1
  refine ⟨rfl, ?_⟩
  have h3 : y * w = cy * w := by omega
  exact Int.eq_of_mul_eq_mul_right (by omega) h3

theorem Grid.contains_iff (g : Grid) (x y : Int) :
    g.contains x y = true ↔ 0 ≤ x ∧ x < (g.w : Int) ∧ 0 ≤ y ∧ y < (g.h : Int) := by
  unfold Grid.contains; simp

theorem Grid.contains_index_of_contains (g : Grid) (x y : Int) (h : g.contains x y = true) :
    0 ≤ y * (g.w : Int) + x ∧ y * (g.w : Int) + x < g.area := by
  obtain ⟨h1, h2, h3, h4⟩ := (g.contains_iff x y).1 h
  exact ⟨cell_index_nonneg _ x y h1 h2 h3, cell_index_lt _ _ x y h1 h2 h4⟩

theorem Grid.set_w (g : Grid) (x y v : Int) : (g.set x y v).w = g.w := by
  unfold Grid.set; split
  · exact g.set_index_w _ _
  · rfl

theorem Grid.set_h (g : Grid) (x y v : Int) : (g.set x y v).h = g.h := by
  unfold Grid.set; split
  · exact g.set_index_h _ _
  · rfl

theorem Grid.set_wf (g : Grid) (x y v : Int) (hg : g.wf) : (g.set x y v).wf := by
  unfold Grid.set; split
  · exact g.set_index_wf _ _ hg
  · exact hg

theorem Grid.set_contains (g : Grid) (x y v cx cy : Int) :
    (g.set x y v).contains cx cy = g.contains cx cy := by
  unfold Grid.contains; rw [Grid.set_w, Grid.set_h]

theorem Grid.set_index_contains (g : Grid) (i v cx cy : Int) :
    (g.set_index i v).contains cx cy = g.contains cx cy := by
  unfold Grid.contains; rw [Grid.set_index_w, Grid.set_index_h]

theorem Grid.contains_congr (g g2 : Grid) (hw : g2.w = g.w) (hh : g2.h = g.h) (x y : Int) :
    g2.contains x y = g.contains x y := by
  unfold Grid.contains; rw [hw, hh]

/-- Reading by coordinates after a write by coordinates. -/
theorem Grid.get_set (g : Grid) (hg : g.wf) (x y v cx cy : Int) :
    (g.set x y v).get cx cy
      = if x = cx ∧ y = cy ∧ g.contains x y = true then v else g.get cx cy := by
  by_cases hc : g.contains x y = true
  · have hi := g.contains_index_of_contains x y hc
    obtain ⟨h1, h2, _, _⟩ := (g.contains_iff x y).1 hc
    unfold Grid.get
    rw [Grid.set_contains]
    by_cases hcc : g.contains cx cy = true
    · obtain ⟨c1, c2, _, _⟩ := (g.contains_iff cx cy).1 hcc
      rw [if_pos hcc, if_pos hcc, Grid.set_w]
      unfold Grid.set
      rw [if_pos hc, Grid.get_index_set_index g hg]
      by_cases he : x = cx ∧ y = cy
      · obtain ⟨rfl, rfl⟩ := he
        rw [if_pos ⟨rfl, hi.1, hi.2⟩, if_pos ⟨rfl, rfl, hc⟩]
      · rw [if_neg, if_neg (fun c => he ⟨c.1, c.2.1⟩)]
        intro c
        exact he (cell_index_inj _ x y cx cy h1 h2 c1 c2 c.1)
    · rw [if_neg hcc, if_neg hcc, if_neg]
      rintro ⟨rfl, rfl, c⟩
      exact hcc c
  · unfold Grid.set
    rw [if_neg hc, if_neg (fun c => hc c.2.2)]

/-! ## Push rule -/

theorem get_agent_index_eq (s : MinerGame) :
    get_agent_index s = s.agent.y * (s.grid.w : Int) + s.agent.x := rfl

theorem handle_push_right (s : MinerGame) (ng : Grid)
    (hw : ng.w = s.grid.w) (hh : ng.h = s.grid.h)
    (hin : s.grid.contains s.agent.x s.agent.y = true) (hp : push_applies s 1) :
    handle_push s ng
      = ({ set_obj_xy s (s.agent.x + 1) s.agent.y SPACE with
            agent := { s.agent with x := s.agent.x + 1 } },
          (ng.set (s.agent.x + 1) s.agent.y SPACE).set (s.agent.x + 2) s.agent.y BOULDER) := by
  obtain ⟨hvx, hact, hb, hc2, hsp⟩ := hp
  obtain ⟨a1, a2, a3, a4⟩ := (s.grid.contains_iff _ _).1 hin
  obtain ⟨b1, b2, _, _⟩ := (s.grid.contains_iff _ _).1 hc2
  have hc1 : s.grid.contains (s.agent.x + 1) s.agent.y = true :=
    (s.grid.contains_iff _ _).2 ⟨by omega, by omega, a3, a4⟩
  have hc2' : s.grid.contains (s.agent.x + 2) s.agent.y = true := by
    simpa using hc2
  have e1 : get_agent_index s + 1 = s.agent.y * (s.grid.w : Int) + (s.agent.x + 1) := by
    rw [get_agent_index_eq]; ring
  have e2 : get_agent_index s + 2 = s.agent.y * (s.grid.w : Int) + (s.agent.x + 2) := by
    rw [get_agent_index_eq]; ring
  have hb' : get_obj s (get_agent_index s + 1) = BOULDER := by
    rw [e1]; simpa [get_obj_xy, Grid.get, hc1] using hb
  have hsp' : get_obj s (get_agent_index s + 2) = SPACE := by
    rw [e2]
    have := hsp
    simp only [get_obj_xy, Grid.get, Int.mul_one, hc2', if_true] at this
    exact this
  have hx : Int.tmod (get_agent_index s) s.main_width < s.main_width - 2 := by
    rw [get_agent_index_eq]
    unfold MinerGame.main_width
    rw [tmod_cell _ _ _ a1 a2 a3]; omega
  unfold handle_push
  simp only []
  rw [if_pos ⟨hact, hvx, hx, hb', hsp'⟩]
  have n1 : ng.contains (s.agent.x + 1) s.agent.y = true := by
    rw [Grid.contains_congr s.grid ng hw hh]; exact hc1
  have n2 : (ng.set (s.agent.x + 1) s.agent.y SPACE).contains (s.agent.x + 2) s.agent.y = true := by
    rw [Grid.set_contains, Grid.contains_congr s.grid ng hw hh]; exact hc2'
  simp only [set_obj, set_obj_xy, Grid.set, hc1, n1, if_true, e1, e2, hw]
  have n3 : (ng.set_index (s.agent.y * (s.grid.w : Int) + (s.agent.x + 1)) SPACE).contains
      (s.agent.x + 2) s.agent.y = true := by
    rw [Grid.set_index_contains, Grid.contains_congr s.grid ng hw hh]; exact hc2'
  simp only [n3, if_true, Grid.set_index_w, hw]

theorem handle_push_left (s : MinerGame) (ng : Grid)
    (hw : ng.w = s.grid.w) (hh : ng.h = s.grid.h)
    (hin : s.grid.contains s.agent.x s.agent.y = true) (hp : push_applies s (-1)) :
    handle_push s ng
      = ({ set_obj_xy s (s.agent.x - 1) s.agent.y SPACE with
            agent := { s.agent with x := s.agent.x - 1 } },
          (ng.set (s.agent.x - 1) s.agent.y SPACE).set (s.agent.x - 2) s.agent.y BOULDER) := by
  obtain ⟨hvx, hact, hb, hc2, hsp⟩ := hp
  have x1 : s.agent.x + -1 = s.agent.x - 1 := by ring
  have x2 : s.agent.x + 2 * -1 = s.agent.x - 2 := by ring
  rw [x1] at hb
  rw [x2] at hc2 hsp
  obtain ⟨a1, a2, a3, a4⟩ := (s.grid.contains_iff _ _).1 hin
  obtain ⟨b1, b2, _, _⟩ := (s.grid.contains_iff _ _).1 hc2
  have hc1 : s.grid.contains (s.agent.x - 1) s.agent.y = true :=
    (s.grid.contains_iff _ _).2 ⟨by omega, by omega, a3, a4⟩
  have e1 : get_agent_index s - 1 = s.agent.y * (s.grid.w : Int) + (s.agent.x - 1) := by
    rw [get_agent_index_eq]; ring
  have e2 : get_agent_index s - 2 = s.agent.y * (s.grid.w : Int) + (s.agent.x - 2) := by
    rw [get_agent_index_eq]; ring
  have hb' : get_obj s (get_agent_index s - 1) = BOULDER := by
    rw [e1]; simpa [get_obj_xy, Grid.get, hc1] using hb
  have hsp' : get_obj s (get_agent_index s - 2) = SPACE := by
    rw [e2]
    have := hsp
    simp only [get_obj_xy, Grid.get, hc2, if_true] at this
    exact this
  have hx : Int.tmod (get_agent_index s) s.main_width > 1 := by
    rw [get_agent_index_eq]
    unfold MinerGame.main_width
    rw [tmod_cell _ _ _ a1 a2 a3]; omega
  have hnr : ¬ (s.action_vx = 1 ∧ s.agent.vx = 0
      ∧ Int.tmod (get_agent_index s) s.main_width < s.main_width - 2
      ∧ get_obj s (get_agent_index s + 1) = BOULDER
      ∧ get_obj s (get_agent_index s + 2) = SPACE) := by
    intro c; rw [hact] at c; exact absurd c.1 (by decide)
  unfold handle_push
  simp only []
  rw [if_neg hnr, if_pos ⟨hact, hvx, hx, hb', hsp'⟩]
  have n1 : ng.contains (s.agent.x - 1) s.agent.y = true := by
    rw [Grid.contains_congr s.grid ng hw hh]; exact hc1
  simp only [set_obj, set_obj_xy, Grid.set, hc1, n1, if_true, e1, e2, hw]
  have n3 : (ng.set_index (s.agent.y * (s.grid.w : Int) + (s.agent.x - 1)) SPACE).contains
      (s.agent.x - 2) s.agent.y = true := by
    rw [Grid.set_index_contains, Grid.contains_congr s.grid ng hw hh]; exact hc2
  simp only [n3, if_true, Grid.set_index_w, hw]

theorem handle_push_none (s : MinerGame) (ng : Grid)
    (hin : s.grid.contains s.agent.x s.agent.y = true)
    (hr : ¬ push_applies s 1) (hl : ¬ push_applies s (-1)) :
    handle_push s ng = (s, ng) := by
  obtain ⟨a1, a2, a3, a4⟩ := (s.grid.contains_iff _ _).1 hin
  have hx : Int.tmod (get_agent_index s) s.main_width = s.agent.x := by
    rw [get_agent_index_eq]
    unfold MinerGame.main_width
    exact tmod_cell _ _ _ a1 a2 a3
  have hnr : ¬ (s.action_vx = 1 ∧ s.agent.vx = 0
      ∧ Int.tmod (get_agent_index s) s.main_width < s.main_width - 2
      ∧ get_obj s (get_agent_index s + 1) = BOULDER
      ∧ get_obj s (get_agent_index s + 2) = SPACE) := by
    rintro ⟨c1, c2, c3, c4, c5⟩
    rw [hx] at c3
    unfold MinerGame.main_width at c3
    apply hr
    have hc1 : s.grid.contains (s.agent.x + 1) s.agent.y = true :=
      (s.grid.contains_iff _ _).2 ⟨by omega, by omega, a3, a4⟩
    have hc2 : s.grid.contains (s.agent.x + 2 * 1) s.agent.y = true :=
      (s.grid.contains_iff _ _).2 ⟨by omega, by omega, a3, a4⟩
    have e1 : s.agent.y * (s.grid.w : Int) + (s.agent.x + 1) = get_agent_index s + 1 := by
      rw [get_agent_index_eq]; ring
    have e2 : s.agent.y * (s.grid.w : Int) + (s.agent.x + 2 * 1) = get_agent_index s + 2 := by
      rw [get_agent_index_eq]; ring
    refine ⟨c2, c1, ?_, hc2, ?_⟩
    · simp only [get_obj_xy, Grid.get, hc1, if_true, e1]; exact c4
    · simp only [get_obj_xy, Grid.get, hc2, if_true, e2]; exact c5
  have hnl : ¬ (s.action_vx = -1 ∧ s.agent.vx = 0
      ∧ Int.tmod (get_agent_index s) s.main_width > 1
      ∧ get_obj s (get_agent_index s - 1) = BOULDER
      ∧ get_obj s (get_agent_index s - 2) = SPACE) := by
    rintro ⟨c1, c2, c3, c4, c5⟩
    rw [hx] at c3
    apply hl
    have hc1 : s.grid.contains (s.agent.x + -1) s.agent.y = true :=
      (s.grid.contains_iff _ _).2 ⟨by omega, by omega, a3, a4⟩
    have hc2 : s.grid.contains (s.agent.x + 2 * -1) s.agent.y = true :=
      (s.grid.contains_iff _ _).2 ⟨by omega, by omega, a3, a4⟩
    have e1 : s.agent.y * (s.grid.w : Int) + (s.agent.x + -1) = get_agent_index s - 1 := by
      rw [get_agent_index_eq]; ring
    have e2 : s.agent.y * (s.grid.w : Int) + (s.agent.x + 2 * -1) = get_agent_index s - 2 := by
      rw [get_agent_index_eq]; ring
    refine ⟨c2, c1, ?_, hc2, ?_⟩
    · simp only [get_obj_xy, Grid.get, hc1, if_true, e1]; exact c4
    · simp only [get_obj_xy, Grid.get, hc2, if_true, e2]; exact c5
  unfold handle_push
  simp only []
  rw [if_neg hnr, if_neg hnl]

/-- A push writes only in the agent's row and keeps the agent in its row. -/
theorem handle_push_row (s : MinerGame) (ng : Grid)
    (hgw : s.grid.wf) (hnw : ng.wf)
    (hw : ng.w = s.grid.w) (hh : ng.h = s.grid.h)
    (hin : s.grid.contains s.agent.x s.agent.y = true)
    (cx cy : Int) (hrow : cy ≠ s.agent.y) :
    (handle_push s ng).1.grid.get cx cy = s.grid.get cx cy
      ∧ (handle_push s ng).2.get cx cy = ng.get cx cy
      ∧ (handle_push s ng).1.agent.y = s.agent.y := by
  have hne : ∀ (x : Int) (c : Prop), ¬ (x = cx ∧ s.agent.y = cy ∧ c) :=
    fun _ _ c => hrow c.2.1.symm
  by_cases hr : push_applies s 1
  · rw [handle_push_right s ng hw hh hin hr]
    refine ⟨?_, ?_, rfl⟩
    · simp only [set_obj_xy]
      rw [Grid.get_set _ hgw, if_neg (hne _ _)]
    · rw [Grid.get_set _ (Grid.set_wf _ _ _ _ hnw), if_neg (hne _ _),
        Grid.get_set _ hnw, if_neg (hne _ _)]
  · by_cases hl : push_applies s (-1)
    · rw [handle_push_left s ng hw hh hin hl]
      refine ⟨?_, ?_, rfl⟩
      · simp only [set_obj_xy]
        rw [Grid.get_set _ hgw, if_neg (hne _ _)]
      · rw [Grid.get_set _ (Grid.set_wf _ _ _ _ hnw), if_neg (hne _ _),
          Grid.get_set _ hnw, if_neg (hne _ _)]
    · rw [handle_push_none s ng hin hr hl]
      exact ⟨rfl, rfl, rfl⟩

/-- C5: push rule.  With the agent on a cell `(x, y)` of the grid: when the push
condition holds to the right (no residual `vx`, `action_vx = 1`, BOULDER at
`(x+1, y)`, `(x+2, y)` in the grid and SPACE), `handle_push` writes SPACE at
`(x+1, y)` in the live grid and in the next grid, BOULDER at `(x+2, y)` in the
next grid, and adds 1 to the agent's x; symmetrically to the left; in every
other case neither grid nor the agent changes.  No cell of another row is
written and the agent keeps its row. -/
theorem handle_push_rule (s : MinerGame) (ng : Grid)
    (hgw : s.grid.wf) (hnw : ng.wf)
    (hw : ng.w = s.grid.w) (hh : ng.h = s.grid.h)
    (hin : s.grid.contains s.agent.x s.agent.y = true) :
    (push_applies s 1 →
      handle_push s ng
        = ({ set_obj_xy s (s.agent.x + 1) s.agent.y SPACE with
              agent := { s.agent with x := s.agent.x + 1 } },
            (ng.set (s.agent.x + 1) s.agent.y SPACE).set (s.agent.x + 2) s.agent.y BOULDER))
    ∧ (push_applies s (-1) →
      handle_push s ng
        = ({ set_obj_xy s (s.agent.x - 1) s.agent.y SPACE with
              agent := { s.agent with x := s.agent.x - 1 } },
            (ng.set (s.agent.x - 1) s.agent.y SPACE).set (s.agent.x - 2) s.agent.y BOULDER))
    ∧ (¬ push_applies s 1 → ¬ push_applies s (-1) → handle_push s ng = (s, ng))
    ∧ (∀ (cx cy : Int), cy ≠ s.agent.y →
        (handle_push s ng).1.grid.get cx cy = s.grid.get cx cy
          ∧ (handle_push s ng).2.get cx cy = ng.get cx cy
          ∧ (handle_push s ng).1.agent.y = s.agent.y) :=
  ⟨handle_push_right s ng hw hh hin, handle_push_left s ng hw hh hin,
   handle_push_none s ng hin,
   fun cx cy hrow => handle_push_row s ng hgw hnw hw hh hin cx cy hrow⟩

theorem handle_push_rule_witness :
    (corridor_4x1.wf ∧ corridor_4x1.contains 0 0 = true
      ∧ push_applies { game_on corridor_4x1 0 0 3 0 with action_vx := 1 } 1)
    ∧ (handle_push { game_on corridor_4x1 0 0 3 0 with action_vx := 1 } corridor_4x1).1.grid.data
        = [SPACE, SPACE, SPACE, SPACE]
    ∧ (handle_push { game_on corridor_4x1 0 0 3 0 with action_vx := 1 } corridor_4x1).2.data
        = [SPACE, SPACE, BOULDER, SPACE]
    ∧ (handle_push { game_on corridor_4x1 0 0 3 0 with action_vx := 1 } corridor_4x1).1.agent.x
        = 1 := by
  have h := (handle_push_rule { game_on corridor_4x1 0 0 3 0 with action_vx := 1 } corridor_4x1
    (by decide) (by decide) rfl rfl (by decide)).1 (by decide)
  refine ⟨by decide, ?_, ?_, ?_⟩
  · rw [h]; decide
  · rw [h]; decide
  · rw [h]; decide

/-! ## The physics loop: frame and write lemmas -/

theorem scan_cell_grid (st : ScanState) (idx : Int) :
    (scan_cell st idx).game.grid = st.game.grid := by
  unfold scan_cell; simp only []; split_ifs <;> rfl

theorem scan_cell_agent (st : ScanState) (idx : Int) :
    (scan_cell st idx).game.agent = st.game.agent := by
  unfold scan_cell; simp only []; split_ifs <;> rfl

theorem scan_cell_step_data (st : ScanState) (idx : Int) :
    (scan_cell st idx).game.step_data = st.game.step_data := by
  unfold scan_cell; simp only []; split_ifs <;> rfl

theorem scan_cell_next_grid (st : ScanState) (idx : Int) :
    (scan_cell st idx).next_grid = apply_writes (cell_writes st.game idx) st.next_grid := by
  unfold scan_cell cell_writes apply_writes; simp only []; split_ifs <;> rfl

theorem scan_cell_died (st : ScanState) (idx : Int) :
    (scan_cell st idx).game.died = (st.game.died || cell_kills st.game idx) := by
  unfold scan_cell cell_kills; simp only []
  split_ifs <;> simp_all

theorem scan_cell_count (st : ScanState) (idx : Int) :
    (scan_cell st idx).diamonds_count
      = st.diamonds_count
        + (if get_stationary_type (get_obj st.game idx) = DIAMOND then 1 else 0) := by
  unfold scan_cell; simp only []; split_ifs <;> simp

theorem cell_writes_congr (s t : MinerGame) (hg : t.grid = s.grid) (ha : t.agent = s.agent)
    (idx : Int) : cell_writes t idx = cell_writes s idx := by
  simp only [cell_writes, get_obj, is_free, get_agent_index, MinerGame.main_width, hg, ha]

theorem cell_kills_congr (s t : MinerGame) (hg : t.grid = s.grid) (ha : t.agent = s.agent)
    (idx : Int) : cell_kills t idx = cell_kills s idx := by
  simp only [cell_kills, get_obj, get_agent_index, MinerGame.main_width, hg, ha]

theorem get_obj_congr (s t : MinerGame) (hg : t.grid = s.grid) (idx : Int) :
    get_obj t idx = get_obj s idx := by
  simp only [get_obj, hg]

theorem apply_writes_append (ws vs : List (Int × Int)) (g : Grid) :
    apply_writes (ws ++ vs) g = apply_writes vs (apply_writes ws g) := by
  unfold apply_writes; rw [List.foldl_append]

theorem apply_writes_w (ws : List (Int × Int)) (g : Grid) : (apply_writes ws g).w = g.w := by
  induction ws generalizing g with
  | nil => rfl
  | cons p ws ih =>
    have : apply_writes (p :: ws) g = apply_writes ws (g.set_index p.1 p.2) := rfl
    rw [this, ih, Grid.set_index_w]

theorem apply_writes_h (ws : List (Int × Int)) (g : Grid) : (apply_writes ws g).h = g.h := by
  induction ws generalizing g with
  | nil => rfl
  | cons p ws ih =>
    have : apply_writes (p :: ws) g = apply_writes ws (g.set_index p.1 p.2) := rfl
    rw [this, ih, Grid.set_index_h]

theorem apply_writes_wf (ws : List (Int × Int)) (g : Grid) (hg : g.wf) :
    (apply_writes ws g).wf := by
  induction ws generalizing g with
  | nil => exact hg
  | cons p ws ih =>
    have : apply_writes (p :: ws) g = apply_writes ws (g.set_index p.1 p.2) := rfl
    rw [this]; exact ih _ (g.set_index_wf _ _ hg)

/-- A cell that no write of the list targets keeps its value. -/
theorem apply_writes_get_of_not_target (ws : List (Int × Int)) (g : Grid) (hg : g.wf) (c : Int)
    (h : ∀ p ∈ ws, p.1 ≠ c) : (apply_writes ws g).get_index c = g.get_index c := by
  induction ws generalizing g with
  | nil => rfl
  | cons p ws ih =>
    have e : apply_writes (p :: ws) g = apply_writes ws (g.set_index p.1 p.2) := rfl
    rw [e, ih _ (g.set_index_wf _ _ hg) (fun q hq => h q (List.mem_cons_of_mem _ hq)),
      Grid.get_index_set_index_ne g hg _ _ _ (h p (List.mem_cons_self _ _))]

/-- The loop over any sequence of indices: the live grid, the agent and the step
data are not touched; the next grid receives the writes of the visited indices
in the order of the visit; `died` is set when a visited index takes the crush
branch; the counter counts the visited cells classified as DIAMOND. -/
theorem scan_over_spec (order : List Int) (st : ScanState) :
    (scan_over order st).game.grid = st.game.grid
    ∧ (scan_over order st).game.agent = st.game.agent
    ∧ (scan_over order st).game.step_data = st.game.step_data
    ∧ (scan_over order st).next_grid
        = apply_writes (order.flatMap (cell_writes st.game)) st.next_grid
    ∧ (scan_over order st).game.died = (st.game.died || order.any (cell_kills st.game))
    ∧ (scan_over order st).diamonds_count
        = st.diamonds_count
          + (order.countP (fun i => get_stationary_type (get_obj st.game i) = DIAMOND) : Nat) := by
  induction order generalizing st with
  | nil => simp [scan_over, apply_writes]
  | cons i rest ih =>
    have e : scan_over (i :: rest) st = scan_over rest (scan_cell st i) := rfl
    obtain ⟨h1, h2, h3, h4, h5, h6⟩ := ih (scan_cell st i)
    have hg := scan_cell_grid st i
    have ha := scan_cell_agent st i
    rw [e]
    refine ⟨h1.trans hg, h2.trans ha, h3.trans (scan_cell_step_data st i), ?_, ?_, ?_⟩
    · rw [h4, scan_cell_next_grid, List.flatMap_cons, apply_writes_append]
      congr 1
      apply congrArg
      funext j
      exact cell_writes_congr st.game _ hg ha j
    · rw [h5, scan_cell_died, List.any_cons, Bool.or_assoc]
      congr 2
      apply congrArg (fun f => rest.any f)
      funext j
      exact cell_kills_congr st.game _ hg ha j
    · rw [h6, scan_cell_count, List.countP_cons]
      have : (fun j => decide (get_stationary_type (get_obj (scan_cell st i).game j) = DIAMOND))
          = (fun j => decide (get_stationary_type (get_obj st.game j) = DIAMOND)) := by
        funext j; rw [get_obj_congr st.game _ hg j]
      rw [this]
      by_cases hd : get_stationary_type (get_obj st.game i) = DIAMOND
      · simp [hd]; ring
      · simp [hd]

/-! ## Commit of the next grid -/

theorem mem_indices (n c : Int) : c ∈ indices n ↔ 0 ≤ c ∧ c < n := by
  unfold indices
  rw [List.mem_map]
  constructor
  · rintro ⟨i, hi, rfl⟩
    rw [List.mem_range] at hi
    omega
  · rintro ⟨h0, h1⟩
    refine ⟨c.toNat, ?_, ?_⟩
    · rw [List.mem_range]; omega
    · omega

theorem Grid.get_index_of_lt (g : Grid) (hg : g.wf) (n : Nat) (hn : n < g.data.length) :
    g.get_index (n : Int) = g.data[n] := by
  have hlen := g.wf_length hg
  unfold Grid.get_index
  rw [if_pos ((g.contains_index_iff _).2 ⟨by omega, by omega⟩)]
  simp [List.getD_eq_getElem?_getD, hn]

/-- Two well-formed grids of the same size that read alike are equal. -/
theorem Grid.ext_of_get_index (g1 g2 : Grid) (h1 : g1.wf) (h2 : g2.wf)
    (hw : g1.w = g2.w) (hh : g1.h = g2.h)
    (h : ∀ c : Int, g1.get_index c = g2.get_index c) : g1 = g2 := by
  have hl : g1.data.length = g2.data.length := by
    unfold Grid.wf at h1 h2; rw [h1, h2, hw, hh]
  have hd : g1.data = g2.data := by
    apply List.ext_getElem hl
    intro n n1 n2
    have := h (n : Int)
    rw [g1.get_index_of_lt h1 n n1, g2.get_index_of_lt h2 n n2] at this
    exact this
  cases g1; cases g2
  simp only [Grid.mk.injEq]
  exact ⟨hw, hh, hd⟩

theorem set_obj_fold_frame (val : Int → Int) (L : List Int) (t : MinerGame) :
    L.foldl (fun (t : MinerGame) (idx : Int) => set_obj t idx (val idx)) t
      = { t with grid :=
            (L.foldl (fun (t : MinerGame) (idx : Int) => set_obj t idx (val idx)) t).grid }
    ∧ (L.foldl (fun (t : MinerGame) (idx : Int) => set_obj t idx (val idx)) t).grid.w
        = t.grid.w
    ∧ (L.foldl (fun (t : MinerGame) (idx : Int) => set_obj t idx (val idx)) t).grid.h
        = t.grid.h
    ∧ (t.grid.wf →
        (L.foldl (fun (t : MinerGame) (idx : Int) => set_obj t idx (val idx)) t).grid.wf) := by
  induction L generalizing t with
  | nil => exact ⟨rfl, rfl, rfl, id⟩
  | cons i L ih =>
    simp only [List.foldl_cons]
    obtain ⟨e1, e2, e3, e4⟩ := ih (set_obj t i (val i))
    refine ⟨?_, ?_, ?_, ?_⟩
    · rw [e1]; rfl
    · rw [e2]; exact Grid.set_index_w _ _ _
    · rw [e3]; exact Grid.set_index_h _ _ _
    · intro ht; exact e4 (Grid.set_index_wf _ _ _ ht)

/-- A loop of `set_obj(idx, val idx)` over a list of indices: a visited cell of
the grid holds `val` of its index, every other cell is unchanged. -/
theorem set_obj_fold_get (val : Int → Int) (L : List Int) (t : MinerGame) (ht : t.grid.wf)
    (c : Int) :
    (L.foldl (fun (t : MinerGame) (idx : Int) => set_obj t idx (val idx)) t).grid.get_index c
      = if c ∈ L ∧ 0 ≤ c ∧ c < t.grid.area then val c else t.grid.get_index c := by
  induction L generalizing t with
  | nil => simp
  | cons i L ih =>
    simp only [List.foldl_cons]
    have hw : (set_obj t i (val i)).grid.wf := Grid.set_index_wf _ _ _ ht
    have ha : (set_obj t i (val i)).grid.area = t.grid.area := Grid.set_index_area _ _ _
    rw [ih _ hw, ha]
    by_cases hr : 0 ≤ c ∧ c < t.grid.area
    · by_cases hL : c ∈ L
      · rw [if_pos ⟨hL, hr⟩, if_pos ⟨List.mem_cons_of_mem _ hL, hr⟩]
      · rw [if_neg (fun h => hL h.1)]
        simp only [set_obj]
        rw [Grid.get_index_set_index _ ht]
        by_cases hi : i = c
        · subst hi
          rw [if_pos ⟨rfl, hr⟩, if_pos ⟨List.mem_cons_self _ _, hr⟩]
        · rw [if_neg (fun h => hi h.1), if_neg]
          rintro ⟨hm, _⟩
          rcases List.mem_cons.1 hm with h | h
          · exact hi h.symm
          · exact hL h
    · rw [if_neg (fun h => hr h.2), if_neg (fun h => hr h.2)]
      simp only [set_obj]
      rw [Grid.get_index_of_not_contains _ c (by rw [Grid.set_index_area]; exact hr),
        Grid.get_index_of_not_contains _ c hr]

/-- After the copy-back of lines 335-337 the live grid is the next grid, and no
other field has changed. -/
theorem commit_eq (t : MinerGame) (ng : Grid) (ht : t.grid.wf) (hn : ng.wf)
    (hw : ng.w = t.grid.w) (hh : ng.h = t.grid.h) :
    commit t ng = { t with grid := ng } := by
  unfold commit
  obtain ⟨e1, e2, e3, e4⟩ :=
    set_obj_fold_frame ng.get_index (indices (t.main_width * t.main_height)) t
  rw [e1]
  have : (List.foldl (fun (t : MinerGame) (idx : Int) => set_obj t idx (ng.get_index idx)) t
      (indices (t.main_width * t.main_height))).grid = ng := by
    apply Grid.ext_of_get_index _ _ (e4 ht) hn (e2.trans hw.symm) (e3.trans hh.symm)
    intro c
    rw [set_obj_fold_get ng.get_index _ t ht c]
    have harea : t.grid.area = ng.area := by unfold Grid.area; rw [hw, hh]
    by_cases hr : 0 ≤ c ∧ c < t.grid.area
    · rw [if_pos ⟨(mem_indices _ c).2 hr, hr⟩]
    · rw [if_neg (fun h => hr h.2), Grid.get_index_of_not_contains _ c hr,
        Grid.get_index_of_not_contains _ c (by rw [← harea]; exact hr)]
  rw [this]

/-! ## The state at the start of the physics loop -/

theorem handle_push_frame (s : MinerGame) (ng : Grid) :
    (handle_push s ng).1.grid.w = s.grid.w ∧ (handle_push s ng).1.grid.h = s.grid.h
    ∧ (handle_push s ng).2.w = ng.w ∧ (handle_push s ng).2.h = ng.h
    ∧ (s.grid.wf → (handle_push s ng).1.grid.wf) ∧ (ng.wf → (handle_push s ng).2.wf)
    ∧ (handle_push s ng).1.died = s.died
    ∧ (handle_push s ng).1.step_data = s.step_data := by
  unfold handle_push; simp only []
  split_ifs
  · exact ⟨Grid.set_index_w _ _ _, Grid.set_index_h _ _ _,
      (Grid.set_index_w _ _ _).trans (Grid.set_index_w _ _ _),
      (Grid.set_index_h _ _ _).trans (Grid.set_index_h _ _ _),
      fun h => Grid.set_index_wf _ _ _ h,
      fun h => Grid.set_index_wf _ _ _ (Grid.set_index_wf _ _ _ h), rfl, rfl⟩
  · exact ⟨Grid.set_index_w _ _ _, Grid.set_index_h _ _ _,
      (Grid.set_index_w _ _ _).trans (Grid.set_index_w _ _ _),
      (Grid.set_index_h _ _ _).trans (Grid.set_index_h _ _ _),
      fun h => Grid.set_index_wf _ _ _ h,
      fun h => Grid.set_index_wf _ _ _ (Grid.set_index_wf _ _ _ h), rfl, rfl⟩
  · exact ⟨rfl, rfl, rfl, rfl, id, id, rfl, rfl⟩

theorem set_facing_frame (s : MinerGame) :
    (set_facing s).grid = s.grid ∧ (set_facing s).died = s.died
    ∧ (set_facing s).step_data = s.step_data := by
  unfold set_facing; simp only []; split_ifs <;> exact ⟨rfl, rfl, rfl⟩

theorem pickup_frame (s : MinerGame) (ng : Grid) :
    (pickup s ng).1.grid.w = s.grid.w ∧ (pickup s ng).1.grid.h = s.grid.h
    ∧ (pickup s ng).2.w = ng.w ∧ (pickup s ng).2.h = ng.h
    ∧ (s.grid.wf → (pickup s ng).1.grid.wf) ∧ (ng.wf → (pickup s ng).2.wf)
    ∧ (pickup s ng).1.died = s.died
    ∧ (pickup s ng).1.agent = s.agent := by
  unfold pickup; simp only []
  split_ifs <;>
    first
      | exact ⟨Grid.set_w _ _ _ _, Grid.set_h _ _ _ _, Grid.set_w _ _ _ _, Grid.set_h _ _ _ _,
          fun h => Grid.set_wf _ _ _ _ h, fun h => Grid.set_wf _ _ _ _ h, rfl, rfl⟩
      | exact ⟨rfl, rfl, rfl, rfl, id, id, rfl, rfl⟩

theorem pre_scan_frame (s : MinerGame) (hg : s.grid.wf) :
    (pre_scan s).1.grid.wf ∧ (pre_scan s).2.wf
    ∧ (pre_scan s).2.w = (pre_scan s).1.grid.w ∧ (pre_scan s).2.h = (pre_scan s).1.grid.h
    ∧ (pre_scan s).1.grid.w = s.grid.w ∧ (pre_scan s).1.grid.h = s.grid.h
    ∧ (pre_scan s).1.died = s.died := by
  unfold pre_scan after_push; simp only []
  obtain ⟨f1, f2, _⟩ := set_facing_frame s
  obtain ⟨a1, a2, a3, a4, a5, a6, a7, _⟩ := handle_push_frame (set_facing s) s.grid
  obtain ⟨b1, b2, b3, b4, b5, b6, b7, _⟩ :=
    pickup_frame (handle_push (set_facing s) s.grid).1 (handle_push (set_facing s) s.grid).2
  rw [f1] at a1 a2 a5
  refine ⟨b5 (a5 hg), b6 (a6 hg), ?_, ?_, ?_, ?_, ?_⟩
  · rw [b3, b1, a3, a1]
  · rw [b4, b2, a4, a2]
  · rw [b1, a1]
  · rw [b2, a2]
  · rw [b7, a7, f2]

/-- A step on a live game, in terms of the state at the start of the physics
loop: the committed grid is the next grid with the writes of all indices
applied in increasing order; `died` is set when some index takes the crush
branch; `diamonds_remaining` is the number of cells of the live grid read by the
loop that are classified DIAMOND; the step data are those left by the pickup. -/
theorem game_step_alive (s : MinerGame) (hg : s.grid.wf) (hd : s.died = false) :
    (game_step s).grid
        = apply_writes
            ((indices ((pre_scan s).1.main_width * (pre_scan s).1.main_height)).flatMap
              (cell_writes (pre_scan s).1)) (pre_scan s).2
    ∧ (game_step s).died
        = (indices ((pre_scan s).1.main_width * (pre_scan s).1.main_height)).any
            (cell_kills (pre_scan s).1)
    ∧ (game_step s).diamonds_remaining
        = (((indices ((pre_scan s).1.main_width * (pre_scan s).1.main_height)).countP
            (fun i => get_stationary_type (get_obj (pre_scan s).1 i) = DIAMOND) : Nat) : Int)
    ∧ (game_step s).step_data = (pre_scan s).1.step_data
    ∧ (game_step s).agent = (pre_scan s).1.agent := by
  obtain ⟨p1, p2, p3, p4, _, _, p7⟩ := pre_scan_frame s hg
  have hd' : ¬ (s.died = true) := by rw [hd]; decide
  obtain ⟨h1, h2, h3, h4, h5, h6⟩ :=
    scan_over_spec (indices ((pre_scan s).1.main_width * (pre_scan s).1.main_height))
      { game := (pre_scan s).1, next_grid := (pre_scan s).2, diamonds_count := 0 }
  simp only [] at h1 h2 h3 h4 h5 h6
  have hwf : (physics_scan (pre_scan s).1 (pre_scan s).2).next_grid.wf := by
    unfold physics_scan; simp only []
    rw [h4]; exact apply_writes_wf _ _ p2
  have hc := commit_eq (physics_scan (pre_scan s).1 (pre_scan s).2).game
    (physics_scan (pre_scan s).1 (pre_scan s).2).next_grid
    (by unfold physics_scan; simp only []; rw [h1]; exact p1) hwf
    (by unfold physics_scan; simp only []; rw [h1, h4, apply_writes_w]; exact p3)
    (by unfold physics_scan; simp only []; rw [h1, h4, apply_writes_h]; exact p4)
  unfold game_step
  rw [if_neg hd']
  simp only []
  rw [hc]
  unfold reroll_enemies physics_scan
  simp only []
  refine ⟨h4, ?_, ?_, h3, h2⟩
  · rw [h5, p7, hd]; rfl
  · rw [h6]; simp

/-! ## Pickup rule -/

theorem Grid.contains_of_get_ne (g : Grid) (x y : Int) (h : g.get x y ≠ OOB_WALL) :
    g.contains x y = true := by
  by_contra hc
  apply h
  unfold Grid.get
  rw [if_neg hc]

theorem pickup_clears (t : MinerGame) (ng : Grid)
    (h : get_obj_xy t t.agent.x t.agent.y = DIRT ∨ get_obj_xy t t.agent.x t.agent.y = MUD
      ∨ get_obj_xy t t.agent.x t.agent.y = DIAMOND) :
    (pickup t ng).1.grid = t.grid.set t.agent.x t.agent.y SPACE
      ∧ (pickup t ng).2 = ng.set t.agent.x t.agent.y SPACE := by
  unfold pickup; simp only []
  rw [if_pos h]
  split_ifs <;> exact ⟨rfl, rfl⟩

theorem pickup_keeps (t : MinerGame) (ng : Grid)
    (h : ¬ (get_obj_xy t t.agent.x t.agent.y = DIRT ∨ get_obj_xy t t.agent.x t.agent.y = MUD
      ∨ get_obj_xy t t.agent.x t.agent.y = DIAMOND)) :
    (pickup t ng).1.grid = t.grid ∧ (pickup t ng).2 = ng := by
  unfold pickup; simp only []
  rw [if_neg h]
  split_ifs <;> exact ⟨rfl, rfl⟩

theorem pickup_reward (t : MinerGame) (ng : Grid) :
    (pickup t ng).1.step_data.reward
      = t.step_data.reward + (if get_obj_xy t t.agent.x t.agent.y = DIAMOND then 1 else 0) := by
  unfold pickup; simp only []
  split_ifs <;> simp_all [set_obj_xy, DIAMOND_REWARD]

/-- C6: pickup rule.  On a live game the reward added by the code of
`game_step` is exactly `DIAMOND_REWARD = 1` when the agent's cell, read once the
push is resolved, holds DIAMOND, and exactly 0 otherwise.  When that cell holds
DIRT, MUD or DIAMOND, the grids with which the physics loop starts are the live
grid and the next grid with SPACE written at the agent's cell (and both read
SPACE there); for any other content both grids are left as they are. -/
theorem pickup_rule (s : MinerGame) (hg : s.grid.wf) (hd : s.died = false) :
    DIAMOND_REWARD = 1
    ∧ (game_step s).step_data.reward
        = s.step_data.reward
          + (if get_obj_xy (after_push s).1 (after_push s).1.agent.x (after_push s).1.agent.y
                = DIAMOND then 1 else 0)
    ∧ ((get_obj_xy (after_push s).1 (after_push s).1.agent.x (after_push s).1.agent.y = DIRT
          ∨ get_obj_xy (after_push s).1 (after_push s).1.agent.x (after_push s).1.agent.y = MUD
          ∨ get_obj_xy (after_push s).1 (after_push s).1.agent.x (after_push s).1.agent.y
              = DIAMOND) →
        (pre_scan s).1.grid
            = (after_push s).1.grid.set (after_push s).1.agent.x (after_push s).1.agent.y SPACE
          ∧ (pre_scan s).2
            = (after_push s).2.set (after_push s).1.agent.x (after_push s).1.agent.y SPACE
          ∧ (pre_scan s).1.grid.get (after_push s).1.agent.x (after_push s).1.agent.y = SPACE
          ∧ (pre_scan s).2.get (after_push s).1.agent.x (after_push s).1.agent.y = SPACE)
    ∧ (¬ (get_obj_xy (after_push s).1 (after_push s).1.agent.x (after_push s).1.agent.y = DIRT
          ∨ get_obj_xy (after_push s).1 (after_push s).1.agent.x (after_push s).1.agent.y = MUD
          ∨ get_obj_xy (after_push s).1 (after_push s).1.agent.x (after_push s).1.agent.y
              = DIAMOND) →
        (pre_scan s).1.grid = (after_push s).1.grid ∧ (pre_scan s).2 = (after_push s).2) := by
  obtain ⟨f1, _, f3⟩ := set_facing_frame s
  obtain ⟨a1, a2, a3, a4, a5, a6, _, a8⟩ := handle_push_frame (set_facing s) s.grid
  rw [f1] at a1 a2 a5
  refine ⟨rfl, ?_, ?_, ?_⟩
  · rw [(game_step_alive s hg hd).2.2.2.1]
    unfold pre_scan; simp only []
    rw [pickup_reward]
    unfold after_push
    rw [a8, f3]
  · intro h
    have hc : (after_push s).1.grid.contains (after_push s).1.agent.x (after_push s).1.agent.y
        = true := by
      apply Grid.contains_of_get_ne
      intro c
      unfold get_obj_xy at h
      rw [c] at h
      revert h; decide
    obtain ⟨e1, e2⟩ := pickup_clears (after_push s).1 (after_push s).2 h
    have hc2 : (after_push s).2.contains (after_push s).1.agent.x (after_push s).1.agent.y
        = true := by
      rw [← hc]
      exact Grid.contains_congr _ _ (by unfold after_push; rw [a3, a1])
        (by unfold after_push; rw [a4, a2]) _ _
    unfold pre_scan; simp only []
    refine ⟨e1, e2, ?_, ?_⟩
    · rw [e1, Grid.get_set _ (by unfold after_push; exact a5 hg), if_pos ⟨rfl, rfl, hc⟩]
    · rw [e2, Grid.get_set _ (by unfold after_push; exact a6 hg), if_pos ⟨rfl, rfl, hc2⟩]
  · intro h
    exact pickup_keeps (after_push s).1 (after_push s).2 h

theorem pickup_rule_witness :
    (cave_2x2.wf ∧ (game_on cave_2x2 0 0 1 1).died = false)
    ∧ (game_step (game_on cave_2x2 0 0 1 1)).step_data.reward = 1
    ∧ (pre_scan (game_on cave_2x2 0 0 1 1)).1.grid.data = [SPACE, DIRT, DIRT, DIRT]
    ∧ (pre_scan (game_on cave_2x2 0 0 1 1)).2.data = [SPACE, DIRT, DIRT, DIRT] := by
  have h := pickup_rule (game_on cave_2x2 0 0 1 1) (by decide) rfl
  refine ⟨by decide, ?_, ?_, ?_⟩
  · rw [h.2.1]; decide
  · rw [(h.2.2.1 (by decide)).1]; decide
  · rw [(h.2.2.1 (by decide)).2.1]; decide

/-! ## Crush rule -/

theorem is_moving_iff (t : Int) :
    is_moving t = true ↔ t = MOVING_BOULDER ∨ t = MOVING_DIAMOND := by
  unfold is_moving; simp

theorem cell_kills_iff (s : MinerGame) (i : Int) :
    cell_kills s i = true
      ↔ i = get_agent_index s + s.main_width ∧ is_moving (get_obj s i) = true := by
  unfold cell_kills
  simp only [decide_eq_true_eq, decide_eq_false_iff_not]
  constructor
  · rintro ⟨_, _, h3, h4⟩
    exact ⟨by omega, h4⟩
  · rintro ⟨h1, h2⟩
    have hb : get_agent_index s = i - s.main_width := by omega
    refine ⟨?_, fun c => c.2 hb, hb, h2⟩
    rcases (is_moving_iff _).1 h2 with h | h
    · exact Or.inr (Or.inl h)
    · exact Or.inr (Or.inr (Or.inr h))

theorem any_cell_kills_iff (s : MinerGame) :
    (indices (s.main_width * s.main_height)).any (cell_kills s) = true
      ↔ is_moving (get_obj s (get_agent_index s + s.main_width)) = true := by
  rw [List.any_eq_true]
  constructor
  · rintro ⟨i, _, hi⟩
    obtain ⟨h1, h2⟩ := (cell_kills_iff s i).1 hi
    rw [← h1]; exact h2
  · intro h
    refine ⟨get_agent_index s + s.main_width, ?_, (cell_kills_iff s _).2 ⟨rfl, h⟩⟩
    rw [mem_indices]
    by_contra hc
    have : get_obj s (get_agent_index s + s.main_width) = OOB_WALL :=
      Grid.get_index_of_not_contains _ _ hc
    rw [this] at h
    revert h; decide

theorem set_facing_agent (s : MinerGame) :
    (set_facing s).agent.x = s.agent.x ∧ (set_facing s).agent.y = s.agent.y
    ∧ (set_facing s).agent.vx = s.agent.vx ∧ (set_facing s).action_vx = s.action_vx := by
  unfold set_facing; simp only []; split_ifs <;> exact ⟨rfl, rfl, rfl, rfl⟩

/-- The push and the pickup leave an agent that is on a cell of the grid on a
cell of the grid. -/
theorem pre_scan_agent_in_grid (s : MinerGame)
    (hin : s.grid.contains s.agent.x s.agent.y = true) :
    (pre_scan s).1.grid.contains (pre_scan s).1.agent.x (pre_scan s).1.agent.y = true := by
  obtain ⟨f1, _, _⟩ := set_facing_frame s
  obtain ⟨g1, g2, _, _⟩ := set_facing_agent s
  have hin' : (set_facing s).grid.contains (set_facing s).agent.x (set_facing s).agent.y
      = true := by rw [f1, g1, g2]; exact hin
  obtain ⟨a1, a2, a3, a4⟩ := (Grid.contains_iff _ _ _).1 hin'
  obtain ⟨b1, b2, _, _, _, _, _, b8⟩ := pickup_frame (after_push s).1 (after_push s).2
  unfold pre_scan; simp only []
  rw [b8, Grid.contains_iff, b1, b2]
  unfold after_push
  have hw : s.grid.w = (set_facing s).grid.w := by rw [f1]
  have hh : s.grid.h = (set_facing s).grid.h := by rw [f1]
  by_cases hr : push_applies (set_facing s) 1
  · rw [handle_push_right _ _ hw hh hin' hr]
    obtain ⟨_, _, _, hc, _⟩ := hr
    obtain ⟨c1, c2, _, _⟩ := (Grid.contains_iff _ _ _).1 hc
    simp only [set_obj_xy, Grid.set_w, Grid.set_h]
    omega
  · by_cases hl : push_applies (set_facing s) (-1)
    · rw [handle_push_left _ _ hw hh hin' hl]
      obtain ⟨_, _, _, hc, _⟩ := hl
      obtain ⟨c1, c2, _, _⟩ := (Grid.contains_iff _ _ _).1 hc
      simp only [set_obj_xy, Grid.set_w, Grid.set_h]
      omega
    · rw [handle_push_none _ _ hin' hr hl]
      exact ⟨a1, a2, a3, a4⟩

/-- C2: crush rule.  On a live game with the agent on a cell of the grid, the
step ends with `died = true` exactly when, at the start of the physics loop, the
cell directly above the agent's cell (agent index + `main_width`) holds
MOVING_BOULDER or MOVING_DIAMOND.  A stationary BOULDER or DIAMOND there does
not set `died`, and an agent in the top row is not crushed. -/
theorem crush_iff (s : MinerGame) (hg : s.grid.wf) (hd : s.died = false)
    (hin : s.grid.contains s.agent.x s.agent.y = true) :
    ((game_step s).died = true
      ↔ (get_obj (pre_scan s).1 (get_agent_index (pre_scan s).1 + (pre_scan s).1.main_width)
            = MOVING_BOULDER
          ∨ get_obj (pre_scan s).1 (get_agent_index (pre_scan s).1 + (pre_scan s).1.main_width)
            = MOVING_DIAMOND))
    ∧ ((get_obj (pre_scan s).1 (get_agent_index (pre_scan s).1 + (pre_scan s).1.main_width)
            = BOULDER
          ∨ get_obj (pre_scan s).1 (get_agent_index (pre_scan s).1 + (pre_scan s).1.main_width)
            = DIAMOND) → (game_step s).died = false)
    ∧ ((pre_scan s).1.agent.y = (pre_scan s).1.main_height - 1 → (game_step s).died = false) := by
  have hiff : (game_step s).died = true
      ↔ (get_obj (pre_scan s).1 (get_agent_index (pre_scan s).1 + (pre_scan s).1.main_width)
            = MOVING_BOULDER
          ∨ get_obj (pre_scan s).1 (get_agent_index (pre_scan s).1 + (pre_scan s).1.main_width)
            = MOVING_DIAMOND) := by
    rw [(game_step_alive s hg hd).2.1, any_cell_kills_iff, is_moving_iff]
  refine ⟨hiff, ?_, ?_⟩
  · intro h
    rw [← Bool.not_eq_true, hiff]
    rcases h with h | h <;> rw [h] <;> decide
  · intro hy
    rw [← Bool.not_eq_true, hiff]
    obtain ⟨c1, c2, c3, c4⟩ := (Grid.contains_iff _ _ _).1 (pre_scan_agent_in_grid s hin)
    have : get_obj (pre_scan s).1 (get_agent_index (pre_scan s).1 + (pre_scan s).1.main_width)
        = OOB_WALL := by
      apply Grid.get_index_of_not_contains
      rw [get_agent_index_eq, hy]
      unfold MinerGame.main_width MinerGame.main_height Grid.area
      intro c
      have e : ((pre_scan s).1.grid.h - 1 : Int) * ((pre_scan s).1.grid.w : Int)
          + (pre_scan s).1.agent.x + ((pre_scan s).1.grid.w : Int)
          = ((pre_scan s).1.grid.w : Int) * ((pre_scan s).1.grid.h : Int)
            + (pre_scan s).1.agent.x := by ring
      omega
    rw [this]; decide

theorem crush_iff_witness :
    (shaft_1x3.wf ∧ (game_on shaft_1x3 0 0 0 2).died = false
      ∧ shaft_1x3.contains 0 0 = true)
    ∧ (game_step (game_on shaft_1x3 0 0 0 2)).died = true := by
  have h := crush_iff (game_on shaft_1x3 0 0 0 2) (by decide) rfl (by decide)
  exact ⟨by decide, h.1.2 (by decide)⟩

/-! ## Fall rule -/

theorem indices_split (n idx : Int) (h0 : 0 ≤ idx) (h1 : idx < n) :
    ∃ post : List Int, indices n = indices idx ++ idx :: post ∧ ∀ i ∈ post, idx < i ∧ i < n := by
  obtain ⟨m, hm⟩ : ∃ m : Nat, n.toNat = idx.toNat + (m + 1) :=
    ⟨n.toNat - idx.toNat - 1, by omega⟩
  refine ⟨(((List.range m).map Nat.succ).map (idx.toNat + ·)).map
    (fun (i : Nat) => (i : Int)), ?_, ?_⟩
  · unfold indices
    rw [hm, List.range_add, List.map_append, List.range_succ_eq_map, List.map_cons,
      List.map_cons]
    congr 2
    simp only [Nat.add_zero]
    omega
  · intro i hi
    simp only [List.mem_map, List.mem_range] at hi
    obtain ⟨a, ⟨b, ⟨c, hc, rfl⟩, rfl⟩, rfl⟩ := hi
    simp only [Nat.succ_eq_add_one]
    omega

theorem apply_writes_area (ws : List (Int × Int)) (g : Grid) :
    (apply_writes ws g).area = g.area := by
  unfold Grid.area; rw [apply_writes_w, apply_writes_h]

/-- The last write to a cell decides what the cell holds. -/
theorem apply_writes_get_last (ws1 ws2 : List (Int × Int)) (c v : Int) (g : Grid) (hg : g.wf)
    (h0 : 0 ≤ c) (h1 : c < g.area) (h : ∀ p ∈ ws2, p.1 ≠ c) :
    (apply_writes (ws1 ++ (c, v) :: ws2) g).get_index c = v := by
  rw [apply_writes_append]
  have e : apply_writes ((c, v) :: ws2) (apply_writes ws1 g)
      = apply_writes ws2 ((apply_writes ws1 g).set_index c v) := rfl
  rw [e, apply_writes_get_of_not_target _ _
      (Grid.set_index_wf _ _ _ (apply_writes_wf _ _ hg)) c h,
    Grid.get_index_set_index_same _ (apply_writes_wf _ _ hg) c v h0
      (by rw [apply_writes_area]; exact h1)]

theorem is_free_iff (s : MinerGame) (i : Int) :
    is_free s i = true ↔ get_obj s i = SPACE ∧ get_agent_index s ≠ i := by
  unfold is_free; simp

/-- Where the loop body may write when it visits index `i`: the cell itself;
the cell below, either empty and without the agent (fall) or the agent's cell
(crush); a free neighbour to the left or to the right (roll). -/
theorem cell_writes_target (s : MinerGame) (i : Int) (p : Int × Int)
    (hp : p ∈ cell_writes s i) :
    p.1 = i
    ∨ (p.1 = i - s.main_width ∧ get_obj s p.1 = SPACE ∧ get_agent_index s ≠ p.1)
    ∨ (p.1 = i - s.main_width ∧ get_agent_index s = p.1)
    ∨ (p.1 = i - 1 ∧ get_obj s p.1 = SPACE ∧ get_agent_index s ≠ p.1)
    ∨ (p.1 = i + 1 ∧ get_obj s p.1 = SPACE ∧ get_agent_index s ≠ p.1) := by
  unfold cell_writes at hp
  simp only [] at hp
  split at hp
  · split at hp
    · rename_i h2
      simp only [List.mem_cons, List.mem_singleton, List.not_mem_nil, or_false] at hp
      rcases hp with rfl | rfl
      · exact Or.inl rfl
      · refine Or.inr (Or.inl ⟨rfl, h2.1, ?_⟩)
        have := h2.2
        simp only [decide_eq_false_iff_not] at this
        exact this
    · split at hp
      · rename_i h3
        simp only [List.mem_singleton] at hp
        subst hp
        refine Or.inr (Or.inr (Or.inl ⟨rfl, ?_⟩))
        have := h3.1
        simp only [decide_eq_true_eq] at this
        exact this
      · split at hp
        · rename_i h4
          simp only [List.mem_cons, List.mem_singleton, List.not_mem_nil, or_false] at hp
          rcases hp with rfl | rfl
          · exact Or.inl rfl
          · exact Or.inr (Or.inr (Or.inr (Or.inl ⟨rfl, (is_free_iff s _).1 h4.2.2.1⟩)))
        · split at hp
          · rename_i h5
            simp only [List.mem_cons, List.mem_singleton, List.not_mem_nil, or_false] at hp
            rcases hp with rfl | rfl
            · exact Or.inl rfl
            · exact Or.inr (Or.inr (Or.inr (Or.inr ⟨rfl, (is_free_iff s _).1 h5.2.2.1⟩)))
          · simp only [List.mem_singleton] at hp
            subst hp
            exact Or.inl rfl
  · simp at hp

theorem cell_writes_fall (s : MinerGame) (idx : Int)
    (hobj : get_obj s idx = BOULDER ∨ get_obj s idx = MOVING_BOULDER
      ∨ get_obj s idx = DIAMOND ∨ get_obj s idx = MOVING_DIAMOND)
    (hbelow : get_obj s (idx - s.main_width) = SPACE)
    (hag : get_agent_index s ≠ idx - s.main_width) :
    cell_writes s idx
      = [(idx, SPACE),
         (idx - s.main_width,
          if get_obj s (idx - s.main_width - s.main_width) = SPACE
          then get_moving_type (get_obj s idx) else get_stationary_type (get_obj s idx))] := by
  unfold cell_writes
  simp only []
  rw [if_pos hobj, if_pos ⟨hbelow, by simpa using hag⟩]

theorem main_width_pos_of_index (P : MinerGame) (idx : Int) (h0 : 0 ≤ idx)
    (h1 : idx < P.grid.area) : 1 ≤ P.main_width := by
  unfold MinerGame.main_width
  unfold Grid.area at h1
  by_contra hc
  have hz : (P.grid.w : Int) = 0 := by omega
  rw [hz, Int.zero_mul] at h1
  omega

theorem in_grid_of_get_obj_ne (P : MinerGame) (c : Int) (h : get_obj P c ≠ OOB_WALL) :
    0 ≤ c ∧ c < P.grid.area := by
  by_contra hc
  exact h (Grid.get_index_of_not_contains _ _ hc)

/-- Visiting a later index never writes the cell of a falling object nor the
cell it falls into. -/
theorem later_writes_miss (P : MinerGame) (idx : Int)
    (hw : 1 ≤ P.main_width)
    (hobj : get_obj P idx ≠ SPACE)
    (ha1 : get_agent_index P ≠ idx) (ha2 : get_agent_index P ≠ idx - P.main_width)
    (i : Int) (hi : idx < i) (p : Int × Int) (hp : p ∈ cell_writes P i) :
    p.1 ≠ idx ∧ p.1 ≠ idx - P.main_width := by
  rcases cell_writes_target P i p hp with h | ⟨h, h', _⟩ | ⟨h, h'⟩ | ⟨h, h', _⟩ | ⟨h, h', _⟩
  · constructor <;> omega
  · refine ⟨fun c => hobj (c ▸ h'), by omega⟩
  · exact ⟨fun c => ha1 (c ▸ h'), fun c => ha2 (c ▸ h')⟩
  · refine ⟨fun c => hobj (c ▸ h'), by omega⟩
  · constructor <;> omega

/-- The fall of one object, on the grid the loop produces from any live state
and next grid of the same size. -/
theorem scan_fall (P : MinerGame) (NG : Grid) (hN : NG.wf) (hdim : NG.area = P.grid.area)
    (idx : Int)
    (hobj : get_obj P idx = BOULDER ∨ get_obj P idx = MOVING_BOULDER
      ∨ get_obj P idx = DIAMOND ∨ get_obj P idx = MOVING_DIAMOND)
    (hbelow : get_obj P (idx - P.main_width) = SPACE)
    (ha1 : get_agent_index P ≠ idx) (ha2 : get_agent_index P ≠ idx - P.main_width) :
    (apply_writes ((indices (P.main_width * P.main_height)).flatMap (cell_writes P)) NG).get_index
        idx = SPACE
    ∧ (apply_writes ((indices (P.main_width * P.main_height)).flatMap (cell_writes P))
          NG).get_index (idx - P.main_width)
        = (if get_obj P (idx - P.main_width - P.main_width) = SPACE
            then get_moving_type (get_obj P idx) else get_stationary_type (get_obj P idx)) := by
  have hne : get_obj P idx ≠ SPACE := by
    rcases hobj with h | h | h | h <;> rw [h] <;> decide
  have hin : 0 ≤ idx ∧ idx < P.grid.area :=
    in_grid_of_get_obj_ne P idx (by rcases hobj with h | h | h | h <;> rw [h] <;> decide)
  have hinb : 0 ≤ idx - P.main_width ∧ idx - P.main_width < P.grid.area :=
    in_grid_of_get_obj_ne P _ (by rw [hbelow]; decide)
  have hw := main_width_pos_of_index P idx hin.1 hin.2
  have harea : P.main_width * P.main_height = P.grid.area := rfl
  obtain ⟨post, hsplit, hpost⟩ := indices_split (P.main_width * P.main_height) idx hin.1
    (by rw [harea]; exact hin.2)
  have hmiss : ∀ p ∈ post.flatMap (cell_writes P), p.1 ≠ idx ∧ p.1 ≠ idx - P.main_width := by
    intro p hp
    obtain ⟨i, hi, hpi⟩ := List.mem_flatMap.1 hp
    exact later_writes_miss P idx hw hne ha1 ha2 i (hpost i hi).1 p hpi
  rw [hsplit, List.flatMap_append, List.flatMap_cons, cell_writes_fall P idx hobj hbelow ha2]
  constructor
  · have e : (indices idx).flatMap (cell_writes P)
        ++ ([(idx, SPACE), (idx - P.main_width,
              if get_obj P (idx - P.main_width - P.main_width) = SPACE
              then get_moving_type (get_obj P idx) else get_stationary_type (get_obj P idx))]
            ++ post.flatMap (cell_writes P))
        = (indices idx).flatMap (cell_writes P)
          ++ (idx, SPACE) :: ((idx - P.main_width,
              if get_obj P (idx - P.main_width - P.main_width) = SPACE
              then get_moving_type (get_obj P idx) else get_stationary_type (get_obj P idx))
            :: post.flatMap (cell_writes P)) := rfl
    rw [e]
    apply apply_writes_get_last _ _ _ _ _ hN hin.1 (by rw [hdim]; exact hin.2)
    intro p hp
    rcases List.mem_cons.1 hp with rfl | hp
    · show idx - P.main_width ≠ idx
      omega
    · exact (hmiss p hp).1
  · have e : (indices idx).flatMap (cell_writes P)
        ++ ([(idx, SPACE), (idx - P.main_width,
              if get_obj P (idx - P.main_width - P.main_width) = SPACE
              then get_moving_type (get_obj P idx) else get_stationary_type (get_obj P idx))]
            ++ post.flatMap (cell_writes P))
        = ((indices idx).flatMap (cell_writes P) ++ [(idx, SPACE)])
          ++ (idx - P.main_width,
              if get_obj P (idx - P.main_width - P.main_width) = SPACE
              then get_moving_type (get_obj P idx) else get_stationary_type (get_obj P idx))
            :: post.flatMap (cell_writes P) := by
      simp
    rw [e]
    apply apply_writes_get_last _ _ _ _ _ hN hinb.1 (by rw [hdim]; exact hinb.2)
    intro p hp
    exact (hmiss p hp).2

/-- C3 as stated fails: in the 2x3 cave the diamond rolls left into the cell
into which the boulder above falls, the later write of the boulder wins, and the
step reports one remaining diamond while the committed grid holds none. -/
theorem diamonds_remaining_counterexample :
    (game_on cave_2x3 1 2 0 0).died = false
    ∧ (game_step (game_on cave_2x3 1 2 0 0)).grid.data
        = [SPACE, BOULDER, MOVING_BOULDER, SPACE, SPACE, SPACE]
    ∧ (game_step (game_on cave_2x3 1 2 0 0)).diamonds_remaining = 1
    ∧ diamond_cells (game_step (game_on cave_2x3 1 2 0 0)) = 0
    ∧ (game_step (game_on cave_2x3 1 2 0 0)).diamonds_remaining
        ≠ (diamond_cells (game_step (game_on cave_2x3 1 2 0 0)) : Int) := by
  refine ⟨rfl, by decide, by decide, by decide, by decide⟩

/-! ## Order of the physics loop -/

theorem Grid.set_index_comm (g : Grid) (c1 v1 c2 v2 : Int) (h : c1 = c2 → v1 = v2) :
    (g.set_index c1 v1).set_index c2 v2 = (g.set_index c2 v2).set_index c1 v1 := by
  by_cases hc : c1 = c2
  · subst hc; rw [h rfl]
  · by_cases h1 : g.contains_index c1 = true
    · by_cases h2 : g.contains_index c2 = true
      · have r1 := (g.contains_index_iff c1).1 h1
        have r2 := (g.contains_index_iff c2).1 h2
        have hne : c1.toNat ≠ c2.toNat := by omega
        have e1 : (g.set_index c1 v1).contains_index c2 = true := by
          rw [Grid.set_index_contains_index]; exact h2
        have e2 : (g.set_index c2 v2).contains_index c1 = true := by
          rw [Grid.set_index_contains_index]; exact h1
        unfold Grid.set_index at e1 e2 ⊢
        rw [if_pos h1] at e1 ⊢
        rw [if_pos h2] at e2 ⊢
        rw [if_pos e1, if_pos e2]
        simp only [Grid.mk.injEq, true_and]
        exact List.set_comm v1 v2 g.data hne
      · have e1 : ¬ (g.set_index c1 v1).contains_index c2 = true := by
          rw [Grid.set_index_contains_index]; exact h2
        have a : (g.set_index c1 v1).set_index c2 v2 = g.set_index c1 v1 := by
          generalize g.set_index c1 v1 = g1 at e1 ⊢
          unfold Grid.set_index; rw [if_neg e1]
        have b : g.set_index c2 v2 = g := by
          unfold Grid.set_index; rw [if_neg h2]
        rw [a, b]
    · have e2 : ¬ (g.set_index c2 v2).contains_index c1 = true := by
        rw [Grid.set_index_contains_index]; exact h1
      have a : (g.set_index c2 v2).set_index c1 v1 = g.set_index c2 v2 := by
        generalize g.set_index c2 v2 = g1 at e2 ⊢
        unfold Grid.set_index; rw [if_neg e2]
      have b : g.set_index c1 v1 = g := by
        unfold Grid.set_index; rw [if_neg h1]
      rw [a, b]

theorem apply_writes_cons (p : Int × Int) (ws : List (Int × Int)) (g : Grid) :
    apply_writes (p :: ws) g = apply_writes ws (g.set_index p.1 p.2) := rfl

theorem apply_writes_set_index_comm (c v : Int) (vs : List (Int × Int)) (g : Grid)
    (h : ∀ q ∈ vs, c = q.1 → v = q.2) :
    apply_writes vs (g.set_index c v) = (apply_writes vs g).set_index c v := by
  induction vs generalizing g with
  | nil => rfl
  | cons q vs ih =>
    rw [apply_writes_cons, apply_writes_cons,
      Grid.set_index_comm g c v q.1 q.2 (h q (List.mem_cons_self _ _)),
      ih _ (fun r hr => h r (List.mem_cons_of_mem _ hr))]

theorem apply_writes_comm (ws vs : List (Int × Int)) (g : Grid)
    (h : ∀ p ∈ ws, ∀ q ∈ vs, p.1 = q.1 → p.2 = q.2) :
    apply_writes vs (apply_writes ws g) = apply_writes ws (apply_writes vs g) := by
  induction ws generalizing g with
  | nil => rfl
  | cons p ws ih =>
    rw [apply_writes_cons, apply_writes_cons,
      ih _ (fun r hr => h r (List.mem_cons_of_mem _ hr)),
      apply_writes_set_index_comm p.1 p.2 vs g (h p (List.mem_cons_self _ _))]

theorem apply_writes_flatMap (cw : Int → List (Int × Int)) (L : List Int) (g : Grid) :
    apply_writes (L.flatMap cw) g = L.foldl (fun (a : Grid) (i : Int) => apply_writes (cw i) a) g := by
  induction L generalizing g with
  | nil => rfl
  | cons i L ih => rw [List.flatMap_cons, apply_writes_append, ih, List.foldl_cons]

/-- The next grid the loop produces over any order of the indices, under the
hypothesis that writes from different indices to one cell agree. -/
theorem scan_writes_perm (P : MinerGame) (NG : Grid) (hag : writes_agree P)
    (order : List Int) (hperm : order.Perm (indices (P.main_width * P.main_height))) :
    apply_writes (order.flatMap (cell_writes P)) NG
      = apply_writes ((indices (P.main_width * P.main_height)).flatMap (cell_writes P)) NG := by
  rw [apply_writes_flatMap, apply_writes_flatMap]
  apply List.Perm.foldl_eq' hperm
  intro x hx y hy z
  by_cases hxy : x = y
  · subst hxy; rfl
  · exact apply_writes_comm _ _ z
      (hag x (hperm.mem_iff.1 hx) y (hperm.mem_iff.1 hy) hxy)

/-- C8 as stated fails: in the 2x3 cave, visiting index 4 (the boulder that
falls into cell 2) before index 3 (the diamond that rolls into cell 2) commits
a diamond in cell 2, while the increasing order of the code commits the
boulder. -/
theorem scan_order_counterexample :
    (game_on cave_2x3 1 2 0 0).died = false
    ∧ List.Perm [0, 1, 2, 4, 3, 5]
        (indices ((game_on cave_2x3 1 2 0 0).main_width * (game_on cave_2x3 1 2 0 0).main_height))
    ∧ (committed_grid_in_order (game_on cave_2x3 1 2 0 0) [0, 1, 2, 4, 3, 5]).data
        = [SPACE, BOULDER, DIAMOND, SPACE, SPACE, SPACE]
    ∧ (game_step (game_on cave_2x3 1 2 0 0)).grid.data
        = [SPACE, BOULDER, MOVING_BOULDER, SPACE, SPACE, SPACE]
    ∧ committed_grid_in_order (game_on cave_2x3 1 2 0 0) [0, 1, 2, 4, 3, 5]
        ≠ (game_step (game_on cave_2x3 1 2 0 0)).grid := by
  refine ⟨rfl, by decide, by decide, by decide, ?_⟩
  intro h
  have h2 := congrArg (fun g => g.get_index 2) h
  revert h2
  decide

/-- C8, amended: on a live game in which no cell receives different values
from two different indices of the loop, applying the loop body over any
permutation of the indices `0 .. main_width*main_height - 1` commits the same
grid as the increasing order of the code, which is the grid of `game_step`. -/
theorem scan_order_independent (s : MinerGame) (hg : s.grid.wf) (hd : s.died = false)
    (hag : writes_agree (pre_scan s).1) (order : List Int)
    (hperm : order.Perm (indices ((pre_scan s).1.main_width * (pre_scan s).1.main_height))) :
    committed_grid_in_order s order = (game_step s).grid := by
  obtain ⟨p1, p2, p3, p4, _, _, _⟩ := pre_scan_frame s hg
  obtain ⟨h1, _, _, h4, _, _⟩ := scan_over_spec order
    { game := (pre_scan s).1, next_grid := (pre_scan s).2, diamonds_count := 0 }
  simp only [] at h1 h4
  rw [(game_step_alive s hg hd).1]
  unfold committed_grid_in_order
  simp only []
  rw [commit_eq _ _ (by rw [h1]; exact p1) (by rw [h4]; exact apply_writes_wf _ _ p2)
    (by rw [h1, h4, apply_writes_w]; exact p3) (by rw [h1, h4, apply_writes_h]; exact p4)]
  simp only []
  rw [h4]
  exact scan_writes_perm (pre_scan s).1 (pre_scan s).2 hag order hperm

/-- C8, amended, on the 3x3 cave with two columns of boulders: four indices
write (0, 2, 3 and 5), the boulders of cells 3 and 5 both roll into cell 4 and
write the same value there, and an order that visits 5 before 3 commits the
grid of `game_step`. -/
theorem scan_order_independent_witness :
    (cave_3x3_pair.wf ∧ (game_on cave_3x3_pair 1 2 0 2).died = false
      ∧ writes_agree (pre_scan (game_on cave_3x3_pair 1 2 0 2)).1
      ∧ List.Perm [8, 5, 7, 3, 6, 4, 2, 1, 0]
          (indices ((pre_scan (game_on cave_3x3_pair 1 2 0 2)).1.main_width
            * (pre_scan (game_on cave_3x3_pair 1 2 0 2)).1.main_height)))
    ∧ cell_writes (pre_scan (game_on cave_3x3_pair 1 2 0 2)).1 3 = [(3, SPACE), (4, BOULDER)]
    ∧ cell_writes (pre_scan (game_on cave_3x3_pair 1 2 0 2)).1 5 = [(5, SPACE), (4, BOULDER)]
    ∧ committed_grid_in_order (game_on cave_3x3_pair 1 2 0 2) [8, 5, 7, 3, 6, 4, 2, 1, 0]
        = (game_step (game_on cave_3x3_pair 1 2 0 2)).grid :=
  ⟨⟨by decide, rfl, by decide, by decide⟩, by decide, by decide,
    scan_order_independent (game_on cave_3x3_pair 1 2 0 2) (by decide) rfl (by decide)
      [8, 5, 7, 3, 6, 4, 2, 1, 0] (by decide)⟩

/-! ## Level generator: the populated grid -/

theorem area_comm (s : MinerGame) : s.main_height * s.main_width = s.grid.area := by
  unfold MinerGame.main_height MinerGame.main_width Grid.area
  exact Int.mul_comm _ _

theorem fill_dirt_spec (s : MinerGame) (hg : s.grid.wf) :
    (fill_dirt s).grid.wf ∧ (fill_dirt s).grid.w = s.grid.w ∧ (fill_dirt s).grid.h = s.grid.h
    ∧ (fill_dirt s).agent = s.agent
    ∧ ∀ c : Int, 0 ≤ c → c < s.grid.area → get_obj (fill_dirt s) c = DIRT := by
  obtain ⟨e1, e2, e3, e4⟩ :=
    set_obj_fold_frame (fun _ => DIRT) (indices (s.main_height * s.main_width)) s
  unfold fill_dirt
  refine ⟨e4 hg, e2, e3, by rw [e1], ?_⟩
  intro c h0 h1
  unfold get_obj
  rw [set_obj_fold_get (fun _ => DIRT) _ s hg c, if_pos]
  exact ⟨(mem_indices _ c).2 ⟨h0, by rw [area_comm]; exact h1⟩, h0, h1⟩

theorem place_objects_eq (s : MinerGame) (obj_idxs : List Int) (first n : Nat) (type : Int) :
    place_objects s obj_idxs first n type
      = ((List.range n).map (fun (i : Nat) => obj_idxs.getD (i + first) 0)).foldl
          (fun (t : MinerGame) (c : Int) => set_obj t c ((fun _ => type) c)) s := by
  unfold place_objects
  rw [List.foldl_map]

theorem placed_mem (obj_idxs : List Int) (first n : Nat) (c : Int)
    (hlen : first + n ≤ obj_idxs.length)
    (hc : c ∈ (List.range n).map (fun (i : Nat) => obj_idxs.getD (i + first) 0)) :
    c ∈ obj_idxs := by
  obtain ⟨i, hi, rfl⟩ := List.mem_map.1 hc
  rw [List.mem_range] at hi
  have hlt : i + first < obj_idxs.length := by omega
  rw [List.getD_eq_getElem _ _ hlt]
  exact List.getElem_mem _

theorem place_objects_spec (s : MinerGame) (hg : s.grid.wf) (obj_idxs : List Int)
    (first n : Nat) (type : Int) (hlen : first + n ≤ obj_idxs.length) :
    (place_objects s obj_idxs first n type).grid.wf
    ∧ (place_objects s obj_idxs first n type).grid.w = s.grid.w
    ∧ (place_objects s obj_idxs first n type).grid.h = s.grid.h
    ∧ (place_objects s obj_idxs first n type).agent = s.agent
    ∧ ∀ c : Int, c ∉ obj_idxs →
        get_obj (place_objects s obj_idxs first n type) c = get_obj s c := by
  rw [place_objects_eq]
  obtain ⟨e1, e2, e3, e4⟩ := set_obj_fold_frame (fun _ => type)
    ((List.range n).map (fun (i : Nat) => obj_idxs.getD (i + first) 0)) s
  refine ⟨e4 hg, e2, e3, by rw [e1], ?_⟩
  intro c hc
  unfold get_obj
  rw [set_obj_fold_get (fun _ => type) _ s hg c, if_neg]
  intro h
  exact hc (placed_mem obj_idxs first n c hlen h.1)

/-- After lines 169-186 every cell of the grid that is not a drawn index holds
DIRT. -/
theorem populate_spec (s : MinerGame) (hg : s.grid.wf) (obj_idxs : List Int)
    (hlen : 1 + num_diamonds (s.grid.w * s.grid.h) + num_boulders (s.grid.w * s.grid.h)
      + num_mud (s.grid.w * s.grid.h) ≤ obj_idxs.length) :
    (populate s obj_idxs).grid.wf
    ∧ (populate s obj_idxs).grid.w = s.grid.w ∧ (populate s obj_idxs).grid.h = s.grid.h
    ∧ (populate s obj_idxs).agent = s.agent
    ∧ ∀ c : Int, 0 ≤ c → c < s.grid.area → c ∉ obj_idxs →
        get_obj (populate s obj_idxs) c = DIRT := by
  obtain ⟨a1, a2, a3, a4, a5⟩ := fill_dirt_spec s hg
  obtain ⟨b1, b2, b3, b4, b5⟩ := place_objects_spec (fill_dirt s) a1 obj_idxs 1
    (num_diamonds (s.grid.w * s.grid.h)) DIAMOND (by omega)
  obtain ⟨c1, c2, c3, c4, c5⟩ := place_objects_spec _ b1 obj_idxs
    (1 + num_diamonds (s.grid.w * s.grid.h)) (num_boulders (s.grid.w * s.grid.h)) BOULDER
    (by omega)
  obtain ⟨d1, d2, d3, d4, d5⟩ := place_objects_spec _ c1 obj_idxs
    (1 + num_diamonds (s.grid.w * s.grid.h) + num_boulders (s.grid.w * s.grid.h))
    (num_mud (s.grid.w * s.grid.h)) MUD (by omega)
  unfold populate
  simp only []
  refine ⟨d1, by rw [d2, c2, b2, a2], by rw [d3, c3, b3, a3], by rw [d4, c4, b4, a4], ?_⟩
  intro c h0 h1 hc
  rw [d5 c hc, c5 c hc, b5 c hc]
  exact a5 c h0 h1

theorem mem_get_cells_with_type (s : MinerGame) (type c : Int) :
    c ∈ get_cells_with_type s type
      ↔ (0 ≤ c ∧ c < s.grid.area) ∧ get_obj s c = type := by
  unfold get_cells_with_type
  rw [List.mem_filter, mem_indices]
  simp only [decide_eq_true_eq]
  rfl

/-! ## Level generator: the spawn clearing -/

theorem tdiv_tmod_cell (w h : Nat) (a : Int) (h0 : 0 ≤ a) (h1 : a < (w : Int) * (h : Int)) :
    0 ≤ Int.tmod a w ∧ Int.tmod a w < (w : Int) ∧ 0 ≤ Int.tdiv a w ∧ Int.tdiv a w < (h : Int)
    ∧ Int.tdiv a w * (w : Int) + Int.tmod a w = a := by
  have hw0 : (0 : Int) ≤ (w : Int) := Int.ofNat_nonneg w
  have hw : (0 : Int) < (w : Int) := by
    rcases Nat.eq_zero_or_pos w with hz | hp
    · subst hz; simp at h1; omega
    · exact_mod_cast hp
  rw [Int.tmod_eq_emod h0 hw0, Int.tdiv_eq_ediv h0 hw0]
  refine ⟨Int.emod_nonneg _ (by omega), Int.emod_lt_of_pos _ hw,
    Int.ediv_nonneg h0 hw0, ?_, Int.ediv_add_emod' a w⟩
  apply Int.ediv_lt_of_lt_mul hw
  rw [Int.mul_comm]; exact h1

theorem int_of_centre_nonneg (k : Int) (h : 0 ≤ k) : int_of_centre k = k := by
  unfold int_of_centre; rw [if_pos h]

/-- Writing DIRT by coordinates keeps a cell that holds DIRT. -/
theorem set_obj_xy_dirt_keeps (s : MinerGame) (hg : s.grid.wf) (x y c : Int)
    (h : get_obj s c = DIRT) : get_obj (set_obj_xy s x y DIRT) c = DIRT := by
  unfold get_obj set_obj_xy Grid.set at *
  simp only []
  split
  · rw [Grid.get_index_set_index _ hg]
    split
    · rfl
    · exact h
  · exact h

/-- The invariant of the spawn clearing for a cell `c` that holds DIRT. -/
theorem demote_boulder_keeps (s : MinerGame) (x y c : Int)
    (h : s.grid.wf ∧ get_obj s c = DIRT) :
    (demote_boulder s x y).grid.wf ∧ get_obj (demote_boulder s x y) c = DIRT := by
  unfold demote_boulder
  split
  · exact ⟨Grid.set_wf _ _ _ _ h.1, set_obj_xy_dirt_keeps s h.1 x y c h.2⟩
  · exact h

theorem demote_boulder_frame (s : MinerGame) (x y : Int) :
    (demote_boulder s x y).grid.w = s.grid.w ∧ (demote_boulder s x y).grid.h = s.grid.h := by
  unfold demote_boulder
  split
  · exact ⟨Grid.set_w _ _ _ _, Grid.set_h _ _ _ _⟩
  · exact ⟨rfl, rfl⟩

/-- The spawn clearing keeps every DIRT cell other than the agent's cell. -/
theorem clear_spawn_keeps_dirt (s : MinerGame) (hg : s.grid.wf) (ax ay c : Int)
    (hc : s.grid.contains s.agent.x s.agent.y = true →
      c ≠ s.agent.y * (s.grid.w : Int) + s.agent.x)
    (h : get_obj s c = DIRT) :
    (clear_spawn s ax ay).grid.wf ∧ get_obj (clear_spawn s ax ay) c = DIRT
    ∧ (clear_spawn s ax ay).grid.w = s.grid.w ∧ (clear_spawn s ax ay).grid.h = s.grid.h := by
  have h0 : (set_obj_xy s s.agent.x s.agent.y SPACE).grid.wf
      ∧ get_obj (set_obj_xy s s.agent.x s.agent.y SPACE) c = DIRT := by
    refine ⟨Grid.set_wf _ _ _ _ hg, ?_⟩
    unfold get_obj set_obj_xy Grid.set at *
    simp only []
    split
    · rename_i hcont
      rw [Grid.get_index_set_index _ hg, if_neg]
      · exact h
      · intro c1
        exact hc hcont c1.1.symm
    · exact h
  unfold clear_spawn
  simp only [List.foldl_cons, List.foldl_nil]
  refine ⟨?_, ?_, ?_, ?_⟩
  · exact (demote_boulder_keeps _ _ _ c (demote_boulder_keeps _ _ _ c
      (demote_boulder_keeps _ _ _ c (demote_boulder_keeps _ _ _ c
      (demote_boulder_keeps _ _ _ c (demote_boulder_keeps _ _ _ c
      (demote_boulder_keeps _ _ _ c (demote_boulder_keeps _ _ _ c
      (demote_boulder_keeps _ _ _ c h0))))))))).1
  · exact (demote_boulder_keeps _ _ _ c (demote_boulder_keeps _ _ _ c
      (demote_boulder_keeps _ _ _ c (demote_boulder_keeps _ _ _ c
      (demote_boulder_keeps _ _ _ c (demote_boulder_keeps _ _ _ c
      (demote_boulder_keeps _ _ _ c (demote_boulder_keeps _ _ _ c
      (demote_boulder_keeps _ _ _ c h0))))))))).2
  · simp only [(demote_boulder_frame _ _ _).1]
    exact Grid.set_w _ _ _ _
  · simp only [(demote_boulder_frame _ _ _).2]
    exact Grid.set_h _ _ _ _

/-! ## Level generator: exit candidates -/

theorem demote_boulder_wf (u : MinerGame) (x y : Int) (hu : u.grid.wf) :
    (demote_boulder u x y).grid.wf := by
  unfold demote_boulder
  split
  · exact Grid.set_wf _ _ _ _ hu
  · exact hu

theorem clear_spawn_frame (s : MinerGame) (hg : s.grid.wf) (ax ay : Int) :
    (clear_spawn s ax ay).grid.wf
    ∧ (clear_spawn s ax ay).grid.w = s.grid.w ∧ (clear_spawn s ax ay).grid.h = s.grid.h := by
  have hw0 : (set_obj_xy s s.agent.x s.agent.y SPACE).grid.wf := Grid.set_wf _ _ _ _ hg
  unfold clear_spawn
  simp only [List.foldl_cons, List.foldl_nil]
  refine ⟨?_, ?_, ?_⟩
  · exact demote_boulder_wf _ _ _ (demote_boulder_wf _ _ _ (demote_boulder_wf _ _ _
      (demote_boulder_wf _ _ _ (demote_boulder_wf _ _ _ (demote_boulder_wf _ _ _
      (demote_boulder_wf _ _ _ (demote_boulder_wf _ _ _ (demote_boulder_wf _ _ _ hw0))))))))
  · simp only [(demote_boulder_frame _ _ _).1]
    exact Grid.set_w _ _ _ _
  · simp only [(demote_boulder_frame _ _ _).2]
    exact Grid.set_h _ _ _ _

theorem reset_cleared_eq (s : MinerGame) (obj_idxs : List Int) :
    reset_cleared s obj_idxs
      = (clear_spawn
          (populate (place_agent s (Int.tmod (obj_idxs.getD 0 0) s.grid.w)
            (Int.tdiv (obj_idxs.getD 0 0) s.grid.w)) obj_idxs)
          (Int.tmod (obj_idxs.getD 0 0) s.grid.w) (Int.tdiv (obj_idxs.getD 0 0) s.grid.w),
         get_cells_with_type
          (populate (place_agent s (Int.tmod (obj_idxs.getD 0 0) s.grid.w)
            (Int.tdiv (obj_idxs.getD 0 0) s.grid.w)) obj_idxs) DIRT) := rfl

/-- The grid after the spawn clearing (line 200) and the list `dirt_cells`:
every cell of the grid that is not a drawn index is in `dirt_cells` and still
holds DIRT. -/
theorem reset_cleared_spec (s : MinerGame) (hg : s.grid.wf) (obj_idxs : List Int)
    (hlen : obj_idxs.length = 1 + num_diamonds (s.grid.w * s.grid.h)
      + num_boulders (s.grid.w * s.grid.h) + num_mud (s.grid.w * s.grid.h))
    (hrange : ∀ c ∈ obj_idxs, 0 ≤ c ∧ c < s.grid.area) :
    (reset_cleared s obj_idxs).1.grid.wf
    ∧ (reset_cleared s obj_idxs).1.grid.w = s.grid.w
    ∧ (reset_cleared s obj_idxs).1.grid.h = s.grid.h
    ∧ (∀ c : Int, 0 ≤ c → c < s.grid.area → c ∉ obj_idxs →
        c ∈ (reset_cleared s obj_idxs).2 ∧ get_obj (reset_cleared s obj_idxs).1 c = DIRT)
    ∧ (∀ c ∈ (reset_cleared s obj_idxs).2, 0 ≤ c ∧ c < s.grid.area) := by
  have hpos : 0 < obj_idxs.length := by omega
  have hmem : obj_idxs.getD 0 0 ∈ obj_idxs := by
    rw [List.getD_eq_getElem _ _ hpos]; exact List.getElem_mem _
  obtain ⟨r0, r1⟩ := hrange _ hmem
  obtain ⟨t1, t2, t3, t4, t5⟩ := tdiv_tmod_cell s.grid.w s.grid.h (obj_idxs.getD 0 0) r0 r1
  rw [reset_cleared_eq]
  generalize hax : Int.tmod (obj_idxs.getD 0 0) s.grid.w = ax at t1 t2 t5
  generalize hay : Int.tdiv (obj_idxs.getD 0 0) s.grid.w = ay at t3 t4 t5
  have hgrid : (place_agent s ax ay).grid = s.grid := rfl
  have hpx : (place_agent s ax ay).agent.x = ax := int_of_centre_nonneg _ t1
  have hpy : (place_agent s ax ay).agent.y = ay := int_of_centre_nonneg _ t3
  have hlen' : 1 + num_diamonds ((place_agent s ax ay).grid.w * (place_agent s ax ay).grid.h)
      + num_boulders ((place_agent s ax ay).grid.w * (place_agent s ax ay).grid.h)
      + num_mud ((place_agent s ax ay).grid.w * (place_agent s ax ay).grid.h)
      ≤ obj_idxs.length := by rw [hgrid]; omega
  obtain ⟨p1, p2, p3, p4, p5⟩ := populate_spec (place_agent s ax ay) hg obj_idxs hlen'
  rw [hgrid] at p2 p3 p5
  obtain ⟨f1, f2, f3⟩ := clear_spawn_frame (populate (place_agent s ax ay) obj_idxs) p1 ax ay
  have harea : (populate (place_agent s ax ay) obj_idxs).grid.area = s.grid.area := by
    unfold Grid.area; rw [p2, p3]
  refine ⟨f1, f2.trans p2, f3.trans p3, ?_, ?_⟩
  · intro c h0 h1 hc
    constructor
    · show c ∈ get_cells_with_type (populate (place_agent s ax ay) obj_idxs) DIRT
      rw [mem_get_cells_with_type, harea]
      exact ⟨⟨h0, h1⟩, p5 c h0 h1 hc⟩
    · show get_obj (clear_spawn (populate (place_agent s ax ay) obj_idxs) ax ay) c = DIRT
      refine (clear_spawn_keeps_dirt _ p1 ax ay c ?_ (p5 c h0 h1 hc)).2.1
      intro _ hcc
      rw [p4, hpx, hpy, p2, t5] at hcc
      rw [hcc] at hc
      exact hc hmem
  · intro c hc
    have hc' : c ∈ get_cells_with_type (populate (place_agent s ax ay) obj_idxs) DIRT := hc
    rw [mem_get_cells_with_type, harea] at hc'
    exact hc'.1

/-- When the grid has more than twice as many cells as there are drawn indices,
some dirt cell has DIRT or the out-of-bounds object above it: shifting a cell
that is not drawn one row up would otherwise be an injection of the cells that
are not drawn into the drawn ones. -/
theorem exit_candidates_ne_nil (s : MinerGame) (hg : s.grid.wf) (obj_idxs : List Int)
    (hlen : obj_idxs.length = 1 + num_diamonds (s.grid.w * s.grid.h)
      + num_boulders (s.grid.w * s.grid.h) + num_mud (s.grid.w * s.grid.h))
    (hrange : ∀ c ∈ obj_idxs, 0 ≤ c ∧ c < s.grid.area)
    (hbig : 2 * obj_idxs.length < s.grid.w * s.grid.h) :
    exit_candidates s obj_idxs ≠ [] := by
  obtain ⟨_, q2, _, q4, _⟩ := reset_cleared_spec s hg obj_idxs hlen hrange
  intro hnil
  unfold exit_candidates at hnil
  simp only [List.filter_eq_nil_iff, decide_eq_true_eq] at hnil
  have hmw : (reset_cleared s obj_idxs).1.main_width = (s.grid.w : Int) := by
    unfold MinerGame.main_width; rw [q2]
  rw [hmw] at hnil
  have hmaps : ∀ c ∈ Finset.Ico (0 : Int) s.grid.area \ obj_idxs.toFinset,
      c + (s.grid.w : Int) ∈ obj_idxs.toFinset := by
    intro c hc
    rw [Finset.mem_sdiff, Finset.mem_Ico, List.mem_toFinset] at hc
    obtain ⟨⟨h0, h1⟩, hn⟩ := hc
    have hb := hnil c (q4 c h0 h1 hn).1
    rw [List.mem_toFinset]
    by_contra hno
    apply hb
    by_cases hin : 0 ≤ c + (s.grid.w : Int) ∧ c + (s.grid.w : Int) < s.grid.area
    · exact Or.inl (q4 _ hin.1 hin.2 hno).2
    · right
      apply Grid.get_index_of_not_contains
      unfold Grid.area at hin ⊢
      rw [q2, (reset_cleared_spec s hg obj_idxs hlen hrange).2.2.1]
      exact hin
  have hinj : Set.InjOn (fun c : Int => c + (s.grid.w : Int))
      (Finset.Ico (0 : Int) s.grid.area \ obj_idxs.toFinset : Finset Int) := by
    intro a _ b _ hab
    simp only at hab
    omega
  have h1 := Finset.card_le_card_of_injOn _ hmaps hinj
  have h2 := Finset.le_card_sdiff obj_idxs.toFinset (Finset.Ico (0 : Int) s.grid.area)
  have h3 := List.toFinset_card_le obj_idxs
  have h4 : (Finset.Ico (0 : Int) s.grid.area).card = s.grid.w * s.grid.h := by
    rw [Int.card_Ico]
    unfold Grid.area
    have : ((s.grid.w : Int) * (s.grid.h : Int) - 0) = ((s.grid.w * s.grid.h : Nat) : Int) := by
      push_cast; ring
    rw [this, Int.toNat_ofNat]
  rw [h4] at h2
  omega

/-! ## Level generator: the exit -/

/-- The object counts of the three grid sizes, and the room they leave. -/
theorem world_dim_counts (mode : DistributionMode) (w h : Nat)
    (hdim : (w, h) = choose_world_dim mode) :
    ((mode = .EasyMode →
        (num_diamonds (w * h), num_boulders (w * h), num_mud (w * h)) = (3, 20, 3))
      ∧ (mode = .HardMode →
        (num_diamonds (w * h), num_boulders (w * h), num_mud (w * h)) = (12, 80, 12))
      ∧ (mode = .MemoryMode →
        (num_diamonds (w * h), num_boulders (w * h), num_mud (w * h)) = (36, 245, 36)))
    ∧ 2 * (1 + num_diamonds (w * h) + num_boulders (w * h) + num_mud (w * h)) < w * h := by
  cases mode <;>
    (simp only [choose_world_dim, Prod.mk.injEq] at hdim
     obtain ⟨rfl, rfl⟩ := hdim
     refine ⟨⟨?_, ?_, ?_⟩, by decide⟩ <;> intro hm <;> first | decide | cases hm)

theorem randn_lt (rg : RandGen) (n : Nat) (hn : 0 < n) : (rg.randn n).1.toNat < n := by
  unfold RandGen.randn
  simp only [Int.toNat_ofNat]
  exact Nat.mod_lt _ hn

theorem exit_cell_mem (s : MinerGame) (obj_idxs : List Int) (rg : RandGen)
    (hne : exit_candidates s obj_idxs ≠ []) :
    exit_cell s obj_idxs rg ∈ exit_candidates s obj_idxs := by
  unfold exit_cell
  have hlt := randn_lt rg (exit_candidates s obj_idxs).length (List.length_pos.2 hne)
  rw [List.getD_eq_getElem _ _ hlt]
  exact List.getElem_mem _

/-- Every exit candidate is the choice of some draw. -/
theorem exit_cell_covers (s : MinerGame) (obj_idxs : List Int) (e : Int)
    (he : e ∈ exit_candidates s obj_idxs) :
    ∃ rg : RandGen, exit_cell s obj_idxs rg = e := by
  obtain ⟨k, hk, rfl⟩ := List.getElem_of_mem he
  refine ⟨{ draws := [k] }, ?_⟩
  unfold exit_cell RandGen.randn
  simp only [List.headD_cons, Int.toNat_ofNat, Nat.mod_eq_of_lt hk]
  exact List.getD_eq_getElem _ _ hk

theorem game_reset_of_candidates (s : MinerGame) (obj_idxs : List Int) (rg : RandGen)
    (hne : exit_candidates s obj_idxs ≠ []) :
    ∃ t : MinerGame, game_reset s obj_idxs rg = some t
      ∧ t.grid = (reset_cleared s obj_idxs).1.grid.set_index (exit_cell s obj_idxs rg) SPACE
      ∧ ∃ e ∈ t.entities, e.type = EXIT := by
  unfold game_reset
  simp only []
  rw [if_pos (List.length_pos.2 hne)]
  refine ⟨_, rfl, rfl, ?_⟩
  simp only [List.mem_append, List.mem_singleton]
  exact ⟨_, Or.inr rfl, rfl⟩

/-- A candidate keeps DIRT or the out-of-bounds object above it once it has
itself been set to SPACE. -/
theorem exit_above_of_candidate (s : MinerGame) (hg : s.grid.wf) (obj_idxs : List Int)
    (hlen : obj_idxs.length = 1 + num_diamonds (s.grid.w * s.grid.h)
      + num_boulders (s.grid.w * s.grid.h) + num_mud (s.grid.w * s.grid.h))
    (hrange : ∀ c ∈ obj_idxs, 0 ≤ c ∧ c < s.grid.area)
    (e : Int) (he : e ∈ exit_candidates s obj_idxs) :
    ((reset_cleared s obj_idxs).1.grid.set_index e SPACE).get_index e = SPACE
    ∧ (((reset_cleared s obj_idxs).1.grid.set_index e SPACE).get_index (e + (s.grid.w : Int))
          = DIRT
        ∨ ((reset_cleared s obj_idxs).1.grid.set_index e SPACE).get_index (e + (s.grid.w : Int))
          = OOB_WALL) := by
  obtain ⟨q1, q2, q3, _, q5⟩ := reset_cleared_spec s hg obj_idxs hlen hrange
  unfold exit_candidates at he
  simp only [List.mem_filter, decide_eq_true_eq] at he
  obtain ⟨hmem, hab⟩ := he
  obtain ⟨h0, h1⟩ := q5 e hmem
  have harea : (reset_cleared s obj_idxs).1.grid.area = s.grid.area := by
    unfold Grid.area; rw [q2, q3]
  have hw : 1 ≤ s.main_width := main_width_pos_of_index s e h0 h1
  unfold MinerGame.main_width at hw
  have hmw : (reset_cleared s obj_idxs).1.main_width = (s.grid.w : Int) := by
    unfold MinerGame.main_width; rw [q2]
  rw [hmw] at hab
  refine ⟨Grid.get_index_set_index_same _ q1 e SPACE h0 (by rw [harea]; exact h1), ?_⟩
  rw [Grid.get_index_set_index_ne _ q1 _ _ _ (by omega)]
  exact hab

/-- C9: the assertion of line 211 cannot fail.  For each of the three grid
sizes 10x10, 20x20 and 35x35, whose object counts are (3, 20, 3), (12, 80, 12)
and (36, 245, 36), and for every list of diamonds + boulders + mud + 1 in-range
cell indices returned by `simple_choose` (pairwise distinct or not), the list
`exit_candidates` built by `game_reset` is non-empty, the reset returns a game,
and that game has an EXIT entity. -/
theorem exit_assertion_unreachable (mode : DistributionMode) (s : MinerGame) (hg : s.grid.wf)
    (hdim : (s.grid.w, s.grid.h) = choose_world_dim mode) (obj_idxs : List Int)
    (hlen : obj_idxs.length = num_diamonds (s.grid.w * s.grid.h)
      + num_boulders (s.grid.w * s.grid.h) + num_mud (s.grid.w * s.grid.h) + 1)
    (hrange : ∀ c ∈ obj_idxs, 0 ≤ c ∧ c < s.grid.area) (rg : RandGen) :
    ((mode = .EasyMode →
        (num_diamonds (s.grid.w * s.grid.h), num_boulders (s.grid.w * s.grid.h),
          num_mud (s.grid.w * s.grid.h)) = (3, 20, 3))
      ∧ (mode = .HardMode →
        (num_diamonds (s.grid.w * s.grid.h), num_boulders (s.grid.w * s.grid.h),
          num_mud (s.grid.w * s.grid.h)) = (12, 80, 12))
      ∧ (mode = .MemoryMode →
        (num_diamonds (s.grid.w * s.grid.h), num_boulders (s.grid.w * s.grid.h),
          num_mud (s.grid.w * s.grid.h)) = (36, 245, 36)))
    ∧ 0 < (exit_candidates s obj_idxs).length
    ∧ ∃ t : MinerGame, game_reset s obj_idxs rg = some t ∧ ∃ e ∈ t.entities, e.type = EXIT := by
  obtain ⟨hc, hbig⟩ := world_dim_counts mode s.grid.w s.grid.h hdim
  have hne : exit_candidates s obj_idxs ≠ [] :=
    exit_candidates_ne_nil s hg obj_idxs (by omega) hrange (by omega)
  obtain ⟨t, ht, _, hex⟩ := game_reset_of_candidates s obj_idxs rg hne
  exact ⟨hc, List.length_pos.2 hne, t, ht, hex⟩

theorem exit_assertion_unreachable_witness :
    ((blank_game .EasyMode).grid.wf
      ∧ draw_easy.length = 3 + 20 + 3 + 1
      ∧ ∀ c ∈ draw_easy, 0 ≤ c ∧ c < (blank_game .EasyMode).grid.area)
    ∧ 0 < (exit_candidates (blank_game .EasyMode) draw_easy).length
    ∧ ∃ t : MinerGame, game_reset (blank_game .EasyMode) draw_easy { draws := [5] } = some t
        ∧ ∃ e ∈ t.entities, e.type = EXIT :=
  ⟨by decide,
    (exit_assertion_unreachable .EasyMode (blank_game .EasyMode) (by decide) rfl draw_easy
      (by decide) (by decide) { draws := [5] }).2⟩

/-- C10: for each of the three grid sizes and every list of in-range indices of
the required length drawn by `game_reset`, whatever the draw that picks the
exit among the candidates, the reset returns a game in which the exit cell holds
SPACE and the cell directly above it (`exit_cell + main_width`) reads DIRT or
the out-of-bounds object; and every exit candidate is picked by some draw. -/
theorem exit_above_is_dirt_or_oob (mode : DistributionMode) (s : MinerGame) (hg : s.grid.wf)
    (hdim : (s.grid.w, s.grid.h) = choose_world_dim mode) (obj_idxs : List Int)
    (hlen : obj_idxs.length = num_diamonds (s.grid.w * s.grid.h)
      + num_boulders (s.grid.w * s.grid.h) + num_mud (s.grid.w * s.grid.h) + 1)
    (hrange : ∀ c ∈ obj_idxs, 0 ≤ c ∧ c < s.grid.area) :
    (∀ rg : RandGen, ∃ t : MinerGame, game_reset s obj_idxs rg = some t
      ∧ exit_cell s obj_idxs rg ∈ exit_candidates s obj_idxs
      ∧ get_obj t (exit_cell s obj_idxs rg) = SPACE
      ∧ (get_obj t (exit_cell s obj_idxs rg + t.main_width) = DIRT
          ∨ get_obj t (exit_cell s obj_idxs rg + t.main_width) = OOB_WALL))
    ∧ (∀ e ∈ exit_candidates s obj_idxs, ∃ rg : RandGen, exit_cell s obj_idxs rg = e) := by
  obtain ⟨_, hbig⟩ := world_dim_counts mode s.grid.w s.grid.h hdim
  have hlen' : obj_idxs.length = 1 + num_diamonds (s.grid.w * s.grid.h)
      + num_boulders (s.grid.w * s.grid.h) + num_mud (s.grid.w * s.grid.h) := by omega
  have hne : exit_candidates s obj_idxs ≠ [] :=
    exit_candidates_ne_nil s hg obj_idxs hlen' hrange (by omega)
  refine ⟨?_, fun e he => exit_cell_covers s obj_idxs e he⟩
  intro rg
  obtain ⟨t, ht, hgrid, _⟩ := game_reset_of_candidates s obj_idxs rg hne
  have hmem := exit_cell_mem s obj_idxs rg hne
  obtain ⟨a1, a2⟩ := exit_above_of_candidate s hg obj_idxs hlen' hrange _ hmem
  obtain ⟨_, q2, _, _, _⟩ := reset_cleared_spec s hg obj_idxs hlen' hrange
  have hmw : t.main_width = (s.grid.w : Int) := by
    unfold MinerGame.main_width; rw [hgrid, Grid.set_index_w, q2]
  refine ⟨t, ht, hmem, ?_, ?_⟩
  · unfold get_obj; rw [hgrid]; exact a1
  · unfold get_obj; rw [hmw, hgrid]; exact a2

theorem exit_above_is_dirt_or_oob_witness :
    ((blank_game .EasyMode).grid.wf
      ∧ draw_easy.length = 3 + 20 + 3 + 1
      ∧ ∀ c ∈ draw_easy, 0 ≤ c ∧ c < (blank_game .EasyMode).grid.area)
    ∧ ∃ t : MinerGame, game_reset (blank_game .EasyMode) draw_easy { draws := [5] } = some t
        ∧ exit_cell (blank_game .EasyMode) draw_easy { draws := [5] }
            ∈ exit_candidates (blank_game .EasyMode) draw_easy
        ∧ get_obj t (exit_cell (blank_game .EasyMode) draw_easy { draws := [5] }) = SPACE
        ∧ (get_obj t (exit_cell (blank_game .EasyMode) draw_easy { draws := [5] }
              + t.main_width) = DIRT
            ∨ get_obj t (exit_cell (blank_game .EasyMode) draw_easy { draws := [5] }
              + t.main_width) = OOB_WALL) :=
  ⟨by decide,
    (exit_above_is_dirt_or_oob .EasyMode (blank_game .EasyMode) (by decide) rfl draw_easy
      (by decide) (by decide)).1 { draws := [5] }⟩


/-! ## Horizontal action priority -/

/-- C17: for every move action and whatever the base decoding, after
`MinerGame::set_action_xy` the components `action_vx` and `action_vy` are not
both non-zero: when the base decoding gives `action_vx ≠ 0`, `action_vy` is 0 and
`action_vx` is unchanged; when it gives `action_vx = 0`, `action_vy` is left as
the base decoding set it. -/
theorem set_action_xy_horizontal_priority
    (base : BasicAbstractGame → Int → BasicAbstractGame) (s : MinerGame) (move_action : Int) :
    ((set_action_xy base s move_action).action_vx = 0
      ∨ (set_action_xy base s move_action).action_vy = 0)
    ∧ (set_action_xy base s move_action).action_vx
        = (base s.toBasicAbstractGame move_action).action_vx
    ∧ ((base s.toBasicAbstractGame move_action).action_vx ≠ 0 →
        (set_action_xy base s move_action).action_vy = 0)
    ∧ ((base s.toBasicAbstractGame move_action).action_vx = 0 →
        (set_action_xy base s move_action).action_vy
          = (base s.toBasicAbstractGame move_action).action_vy) := by
  unfold set_action_xy
  simp only []
  by_cases h : (base s.toBasicAbstractGame move_action).action_vx ≠ 0
  · rw [if_pos h]
    exact ⟨Or.inr rfl, rfl, fun _ => rfl, fun c => absurd c h⟩
  · rw [if_neg h]
    have h0 : (base s.toBasicAbstractGame move_action).action_vx = 0 := not_not.1 h
    exact ⟨Or.inl h0, rfl, fun c => absurd h0 c, fun _ => rfl⟩

theorem set_action_xy_horizontal_priority_witness :
    (set_action_xy (fun b m => { b with action_vx := m, action_vy := 1 })
        (game_on cave_2x3 1 2 0 0) 1).action_vy = 0
    ∧ (set_action_xy (fun b m => { b with action_vx := m, action_vy := 1 })
        (game_on cave_2x3 1 2 0 0) 0).action_vy = 1 :=
  ⟨(set_action_xy_horizontal_priority (fun b m => { b with action_vx := m, action_vy := 1 })
      (game_on cave_2x3 1 2 0 0) 1).2.2.1 (by decide),
   (set_action_xy_horizontal_priority (fun b m => { b with action_vx := m, action_vy := 1 })
      (game_on cave_2x3 1 2 0 0) 0).2.2.2 rfl⟩


/-! ## Roll rule -/

theorem scan_cell_game_of_not_kills (st : ScanState) (idx : Int)
    (h : cell_kills st.game idx = false) : (scan_cell st idx).game = st.game := by
  have hd := scan_cell_died st idx
  unfold scan_cell at hd ⊢
  unfold cell_kills at h
  simp only [] at hd h ⊢
  split_ifs <;> simp_all

theorem free_cell_iff (s : MinerGame) (c : Int) : is_free s c = true ↔ free_cell s c :=
  is_free_iff s c

theorem get_obj_set_obj_xy (s : MinerGame) (hg : s.grid.wf) (x y v c : Int) :
    get_obj (set_obj_xy s x y v) c
      = if s.grid.contains x y = true ∧ y * (s.grid.w : Int) + x = c then v else get_obj s c := by
  unfold get_obj set_obj_xy Grid.set
  simp only []
  by_cases hc : s.grid.contains x y = true
  · rw [if_pos hc, Grid.get_index_set_index _ hg]
    obtain ⟨h0, h1⟩ := s.grid.contains_index_of_contains x y hc
    by_cases he : y * (s.grid.w : Int) + x = c
    · rw [if_pos ⟨he, h0, h1⟩, if_pos ⟨hc, he⟩]
    · rw [if_neg (fun h => he h.1), if_neg (fun h => he h.2)]
  · rw [if_neg hc, if_neg (fun h => hc h.1)]

theorem get_obj_xy_eq (s : MinerGame) (x y : Int) (hc : s.grid.contains x y = true) :
    get_obj_xy s x y = get_obj s (y * (s.grid.w : Int) + x) := by
  unfold get_obj_xy get_obj Grid.get
  rw [if_pos hc]

theorem cleared_from_refl (s : MinerGame) (hg : s.grid.wf) (a : Int) : cleared_from s s a :=
  ⟨hg, rfl, rfl, fun _ => Or.inl rfl⟩

theorem cleared_from_space (s : MinerGame) (hg : s.grid.wf) :
    cleared_from s (set_obj_xy s s.agent.x s.agent.y SPACE)
      (s.agent.y * (s.grid.w : Int) + s.agent.x) := by
  refine ⟨Grid.set_wf _ _ _ _ hg, Grid.set_w _ _ _ _, Grid.set_h _ _ _ _, ?_⟩
  intro c
  rw [get_obj_set_obj_xy s hg]
  split
  · rename_i h
    exact Or.inr (Or.inl ⟨rfl, h.2.symm⟩)
  · exact Or.inl rfl

theorem cleared_from_demote (s0 t : MinerGame) (a x y : Int) (h : cleared_from s0 t a) :
    cleared_from s0 (demote_boulder t x y) a := by
  obtain ⟨h1, h2, h3, h4⟩ := h
  unfold demote_boulder
  split
  · rename_i hb
    have hc : t.grid.contains x y = true :=
      Grid.contains_of_get_ne _ _ _ (by unfold get_obj_xy at hb; rw [hb]; decide)
    rw [get_obj_xy_eq t x y hc] at hb
    refine ⟨Grid.set_wf _ _ _ _ h1, (Grid.set_w _ _ _ _).trans h2,
      (Grid.set_h _ _ _ _).trans h3, ?_⟩
    intro c
    rw [get_obj_set_obj_xy t h1]
    split
    · rename_i he
      rw [he.2] at hb
      rcases h4 c with e | ⟨e, _⟩ | ⟨e, _⟩
      · exact Or.inr (Or.inr ⟨rfl, by rw [← e]; exact hb⟩)
      · rw [e] at hb; exact absurd hb (by decide)
      · rw [e] at hb; exact absurd hb (by decide)
    · exact h4 c
  · exact ⟨h1, h2, h3, h4⟩

/-- The spawn clearing of lines 190-200 changes the grid only by emptying the
agent's cell and by turning boulders into dirt. -/
theorem clear_spawn_rel (s : MinerGame) (hg : s.grid.wf) (ax ay : Int) :
    cleared_from s (clear_spawn s ax ay) (s.agent.y * (s.grid.w : Int) + s.agent.x) := by
  have h0 := cleared_from_space s hg
  unfold clear_spawn
  simp only [List.foldl_cons, List.foldl_nil]
  exact cleared_from_demote _ _ _ _ _ (cleared_from_demote _ _ _ _ _
    (cleared_from_demote _ _ _ _ _ (cleared_from_demote _ _ _ _ _
    (cleared_from_demote _ _ _ _ _ (cleared_from_demote _ _ _ _ _
    (cleared_from_demote _ _ _ _ _ (cleared_from_demote _ _ _ _ _
    (cleared_from_demote _ _ _ _ _ h0))))))))

theorem reset_cleared_eq_populated (s : MinerGame) (obj_idxs : List Int) :
    reset_cleared s obj_idxs
      = (clear_spawn (reset_populated s obj_idxs)
          (Int.tmod (obj_idxs.getD 0 0) s.main_width)
          (Int.tdiv (obj_idxs.getD 0 0) s.main_width),
         get_cells_with_type (reset_populated s obj_idxs) DIRT) := rfl

/-- The state at line 188: the grid is well formed, of the size of `s`, and the
agent stands on the cell with flat index `obj_idxs[0]`. -/
theorem reset_populated_spec (s : MinerGame) (hg : s.grid.wf) (obj_idxs : List Int)
    (hlen : obj_idxs.length = 1 + num_diamonds (s.grid.w * s.grid.h)
      + num_boulders (s.grid.w * s.grid.h) + num_mud (s.grid.w * s.grid.h))
    (hrange : ∀ c ∈ obj_idxs, 0 ≤ c ∧ c < s.grid.area) :
    (reset_populated s obj_idxs).grid.wf
    ∧ (reset_populated s obj_idxs).grid.w = s.grid.w
    ∧ (reset_populated s obj_idxs).grid.h = s.grid.h
    ∧ (reset_populated s obj_idxs).grid.contains (reset_populated s obj_idxs).agent.x
        (reset_populated s obj_idxs).agent.y = true
    ∧ (reset_populated s obj_idxs).agent.y * (s.grid.w : Int)
        + (reset_populated s obj_idxs).agent.x = obj_idxs.getD 0 0
    ∧ (reset_populated s obj_idxs).agent.x = Int.tmod (obj_idxs.getD 0 0) s.main_width
    ∧ (reset_populated s obj_idxs).agent.y = Int.tdiv (obj_idxs.getD 0 0) s.main_width := by
  have hpos : 0 < obj_idxs.length := by omega
  have hmem : obj_idxs.getD 0 0 ∈ obj_idxs := by
    rw [List.getD_eq_getElem _ _ hpos]; exact List.getElem_mem _
  obtain ⟨r0, r1⟩ := hrange _ hmem
  obtain ⟨t1, t2, t3, t4, t5⟩ := tdiv_tmod_cell s.grid.w s.grid.h (obj_idxs.getD 0 0) r0 r1
  unfold reset_populated MinerGame.main_width
  generalize Int.tmod (obj_idxs.getD 0 0) s.grid.w = ax at t1 t2 t5
  generalize Int.tdiv (obj_idxs.getD 0 0) s.grid.w = ay at t3 t4 t5
  have hgrid : (place_agent s ax ay).grid = s.grid := rfl
  have hpx : (place_agent s ax ay).agent.x = ax := int_of_centre_nonneg _ t1
  have hpy : (place_agent s ax ay).agent.y = ay := int_of_centre_nonneg _ t3
  obtain ⟨p1, p2, p3, p4, _⟩ := populate_spec (place_agent s ax ay) hg obj_idxs
    (by rw [hgrid]; omega)
  rw [hgrid] at p2 p3
  refine ⟨p1, p2, p3, ?_, ?_, ?_, ?_⟩
  · rw [p4, hpx, hpy, Grid.contains_iff, p2, p3]
    exact ⟨t1, t2, t3, t4⟩
  · rw [p4, hpx, hpy]; exact t5
  · rw [p4, hpx]
  · rw [p4, hpy]

/-- The cleared grid relative to the grid of line 188. -/
theorem reset_cleared_rel (s : MinerGame) (hg : s.grid.wf) (obj_idxs : List Int)
    (hlen : obj_idxs.length = 1 + num_diamonds (s.grid.w * s.grid.h)
      + num_boulders (s.grid.w * s.grid.h) + num_mud (s.grid.w * s.grid.h))
    (hrange : ∀ c ∈ obj_idxs, 0 ≤ c ∧ c < s.grid.area) :
    cleared_from (reset_populated s obj_idxs) (reset_cleared s obj_idxs).1
      (obj_idxs.getD 0 0) := by
  obtain ⟨q1, q2, _, _, q5, _, _⟩ := reset_populated_spec s hg obj_idxs hlen hrange
  have h := clear_spawn_rel (reset_populated s obj_idxs) q1
    (Int.tmod (obj_idxs.getD 0 0) s.main_width) (Int.tdiv (obj_idxs.getD 0 0) s.main_width)
  rw [q2, q5] at h
  exact h

theorem mem_exit_candidates_iff (s : MinerGame) (obj_idxs : List Int) (c : Int) :
    c ∈ exit_candidates s obj_idxs
      ↔ ((0 ≤ c ∧ c < (reset_populated s obj_idxs).grid.area)
          ∧ get_obj (reset_populated s obj_idxs) c = DIRT)
        ∧ (get_obj (reset_cleared s obj_idxs).1
              (c + (reset_cleared s obj_idxs).1.main_width) = DIRT
          ∨ get_obj (reset_cleared s obj_idxs).1
              (c + (reset_cleared s obj_idxs).1.main_width) = OOB_WALL) := by
  unfold exit_candidates
  simp only [List.mem_filter, decide_eq_true_eq]
  have e : (reset_cleared s obj_idxs).2
      = get_cells_with_type (reset_populated s obj_idxs) DIRT := rfl
  rw [e, mem_get_cells_with_type]


/-! ## Exit candidates -/

/-- C11 as stated fails, in both directions.  With the draw `draw_gap` on the
10x10 grid, the agent's spawn cell 0 is an exit candidate although it holds
SPACE once the spawn is cleared (it held DIRT when `dirt_cells` was taken, and
the demoted boulder above it reads DIRT); and cell 10, a boulder demoted by the
clearing, holds DIRT with DIRT above it in the cleared grid but is not an exit
candidate. -/
theorem exit_candidates_counterexample :
    draw_gap.Nodup
    ∧ (∀ c ∈ draw_gap, 0 ≤ c ∧ c < (blank_game .EasyMode).grid.area)
    ∧ draw_gap.length = 3 + 20 + 3 + 1
    ∧ (0 : Int) ∈ exit_candidates (blank_game .EasyMode) draw_gap
    ∧ get_obj (reset_cleared (blank_game .EasyMode) draw_gap).1 0 = SPACE
    ∧ get_obj (reset_cleared (blank_game .EasyMode) draw_gap).1 10 = DIRT
    ∧ get_obj (reset_cleared (blank_game .EasyMode) draw_gap).1
        (10 + (reset_cleared (blank_game .EasyMode) draw_gap).1.main_width) = DIRT
    ∧ (10 : Int) ∉ exit_candidates (blank_game .EasyMode) draw_gap := by
  refine ⟨by decide, by decide, by decide, by decide, by decide, by decide, by decide,
    by decide⟩

/-- C11, amended: in `game_reset` a cell index `c` is in `exit_candidates` if and
only if it is a cell of the grid that held DIRT when `dirt_cells` was taken at
line 188 (objects placed, spawn not yet cleared) and the cell above it
(`c + main_width`) reads DIRT or the out-of-bounds object after the clearing.
For a cell other than the spawn cell, holding DIRT at line 188 is the same as
holding DIRT in the cleared grid without having been a boulder. -/
theorem exit_candidates_are_snapshot_dirt (s : MinerGame) (hg : s.grid.wf)
    (obj_idxs : List Int)
    (hlen : obj_idxs.length = num_diamonds (s.grid.w * s.grid.h)
      + num_boulders (s.grid.w * s.grid.h) + num_mud (s.grid.w * s.grid.h) + 1)
    (hrange : ∀ c ∈ obj_idxs, 0 ≤ c ∧ c < s.grid.area) (c : Int) :
    (c ∈ exit_candidates s obj_idxs
      ↔ (0 ≤ c ∧ c < s.grid.area)
        ∧ get_obj (reset_populated s obj_idxs) c = DIRT
        ∧ (get_obj (reset_cleared s obj_idxs).1 (c + s.main_width) = DIRT
          ∨ get_obj (reset_cleared s obj_idxs).1 (c + s.main_width) = OOB_WALL))
    ∧ (c ≠ obj_idxs.getD 0 0 →
        (get_obj (reset_populated s obj_idxs) c = DIRT
          ↔ get_obj (reset_cleared s obj_idxs).1 c = DIRT
            ∧ get_obj (reset_populated s obj_idxs) c ≠ BOULDER)) := by
  have hlen' : obj_idxs.length = 1 + num_diamonds (s.grid.w * s.grid.h)
      + num_boulders (s.grid.w * s.grid.h) + num_mud (s.grid.w * s.grid.h) := by omega
  obtain ⟨_, q2, q3, _⟩ := reset_populated_spec s hg obj_idxs hlen' hrange
  obtain ⟨_, r2, _, r4⟩ := reset_cleared_rel s hg obj_idxs hlen' hrange
  have harea : (reset_populated s obj_idxs).grid.area = s.grid.area := by
    unfold Grid.area; rw [q2, q3]
  have hmw : (reset_cleared s obj_idxs).1.main_width = s.main_width := by
    unfold MinerGame.main_width; rw [r2, q2]
  constructor
  · rw [mem_exit_candidates_iff, harea, hmw]
    tauto
  · intro hne
    constructor
    · intro hd
      refine ⟨?_, by rw [hd]; decide⟩
      rcases r4 c with e | ⟨_, e⟩ | ⟨_, e⟩
      · rw [e]; exact hd
      · exact absurd e hne
      · rw [hd] at e; exact absurd e (by decide)
    · rintro ⟨hd, hb⟩
      rcases r4 c with e | ⟨_, e⟩ | ⟨_, e⟩
      · rw [← e]; exact hd
      · exact absurd e hne
      · exact absurd e hb

theorem exit_candidates_are_snapshot_dirt_witness :
    ((blank_game .EasyMode).grid.wf
      ∧ draw_gap.length = 3 + 20 + 3 + 1
      ∧ ∀ c ∈ draw_gap, 0 ≤ c ∧ c < (blank_game .EasyMode).grid.area)
    ∧ ((24 : Int) ∈ exit_candidates (blank_game .EasyMode) draw_gap
      ↔ (0 ≤ (24 : Int) ∧ (24 : Int) < (blank_game .EasyMode).grid.area)
        ∧ get_obj (reset_populated (blank_game .EasyMode) draw_gap) 24 = DIRT
        ∧ (get_obj (reset_cleared (blank_game .EasyMode) draw_gap).1
              (24 + (blank_game .EasyMode).main_width) = DIRT
          ∨ get_obj (reset_cleared (blank_game .EasyMode) draw_gap).1
              (24 + (blank_game .EasyMode).main_width) = OOB_WALL)) :=
  ⟨by decide,
    (exit_candidates_are_snapshot_dirt (blank_game .EasyMode) (by decide) draw_gap
      (by decide) (by decide) 24).1⟩


/-! ## Spawn clearing -/

theorem get_obj_xy_set_obj_xy (s : MinerGame) (hg : s.grid.wf) (x y v cx cy : Int) :
    get_obj_xy (set_obj_xy s x y v) cx cy
      = if x = cx ∧ y = cy ∧ s.grid.contains x y = true then v else get_obj_xy s cx cy := by
  unfold get_obj_xy set_obj_xy
  exact Grid.get_set s.grid hg x y v cx cy

theorem get_obj_xy_of_not_contains (u : MinerGame) (x y : Int)
    (h : u.grid.contains x y = false) : get_obj_xy u x y = OOB_WALL := by
  unfold get_obj_xy Grid.get
  rw [h]; rfl

theorem demote_boulder_establishes (t : MinerGame) (hg : t.grid.wf) (x y : Int) :
    get_obj_xy (demote_boulder t x y) x y ≠ BOULDER := by
  unfold demote_boulder
  split
  · rename_i hb
    have hc : t.grid.contains x y = true :=
      Grid.contains_of_get_ne _ _ _ (by unfold get_obj_xy at hb; rw [hb]; decide)
    rw [get_obj_xy_set_obj_xy t hg, if_pos ⟨rfl, rfl, hc⟩]
    decide
  · rename_i hb
    exact hb

theorem demote_boulder_keeps_not_boulder (t : MinerGame) (hg : t.grid.wf) (x y cx cy : Int)
    (h : get_obj_xy t cx cy ≠ BOULDER) :
    get_obj_xy (demote_boulder t x y) cx cy ≠ BOULDER := by
  unfold demote_boulder
  split
  · rw [get_obj_xy_set_obj_xy t hg]
    split
    · decide
    · exact h
  · exact h

theorem demote_boulder_keeps_space (t : MinerGame) (hg : t.grid.wf) (x y cx cy : Int)
    (h : get_obj_xy t cx cy = SPACE) :
    get_obj_xy (demote_boulder t x y) cx cy = SPACE := by
  unfold demote_boulder
  split
  · rename_i hb
    rw [get_obj_xy_set_obj_xy t hg]
    split
    · rename_i he
      obtain ⟨rfl, rfl, _⟩ := he
      rw [h] at hb
      exact absurd hb (by decide)
    · exact h
  · exact h

/-- The demotion loop over a list of offsets: no visited cell holds BOULDER
afterwards, and a cell that does not hold BOULDER, or that holds SPACE, keeps
that property. -/
theorem demote_fold_spec (ax ay : Int) (L : List (Int × Int)) (u : MinerGame)
    (hu : u.grid.wf) :
    (L.foldl (fun (t : MinerGame) (p : Int × Int) =>
        demote_boulder t (ax + p.1) (ay + p.2)) u).grid.wf
    ∧ (∀ p ∈ L, get_obj_xy (L.foldl (fun (t : MinerGame) (p : Int × Int) =>
        demote_boulder t (ax + p.1) (ay + p.2)) u) (ax + p.1) (ay + p.2) ≠ BOULDER)
    ∧ (∀ cx cy : Int, get_obj_xy u cx cy ≠ BOULDER →
        get_obj_xy (L.foldl (fun (t : MinerGame) (p : Int × Int) =>
          demote_boulder t (ax + p.1) (ay + p.2)) u) cx cy ≠ BOULDER)
    ∧ (∀ cx cy : Int, get_obj_xy u cx cy = SPACE →
        get_obj_xy (L.foldl (fun (t : MinerGame) (p : Int × Int) =>
          demote_boulder t (ax + p.1) (ay + p.2)) u) cx cy = SPACE) := by
  induction L generalizing u with
  | nil => exact ⟨hu, fun p hp => absurd hp (List.not_mem_nil p), fun _ _ h => h, fun _ _ h => h⟩
  | cons q L ih =>
    simp only [List.foldl_cons]
    obtain ⟨i1, i2, i3, i4⟩ := ih (demote_boulder u (ax + q.1) (ay + q.2))
      (demote_boulder_wf u _ _ hu)
    refine ⟨i1, ?_, ?_, ?_⟩
    · intro p hp
      rcases List.mem_cons.1 hp with rfl | hp
      · exact i3 _ _ (demote_boulder_establishes u hu _ _)
      · exact i2 p hp
    · intro cx cy h
      exact i3 cx cy (demote_boulder_keeps_not_boulder u hu _ _ cx cy h)
    · intro cx cy h
      exact i4 cx cy (demote_boulder_keeps_space u hu _ _ cx cy h)

theorem clear_spawn_eq_fold (s : MinerGame) (ax ay : Int) :
    clear_spawn s ax ay
      = block_offsets.foldl (fun (t : MinerGame) (p : Int × Int) =>
          demote_boulder t (ax + p.1) (ay + p.2)) (set_obj_xy s s.agent.x s.agent.y SPACE) := rfl

theorem mem_block_offsets (i j : Int) (hi0 : -1 ≤ i) (hi1 : i ≤ 1) (hj0 : -1 ≤ j)
    (hj1 : j ≤ 1) : (i, j) ∈ block_offsets := by
  obtain rfl | rfl | rfl : i = -1 ∨ i = 0 ∨ i = 1 := by omega
  all_goals
    obtain rfl | rfl | rfl : j = -1 ∨ j = 0 ∨ j = 1 := by omega
    all_goals decide

theorem get_obj_xy_set_obj_space (u : MinerGame) (hu : u.grid.wf) (e x y : Int) :
    (get_obj_xy u x y ≠ BOULDER → get_obj_xy (set_obj u e SPACE) x y ≠ BOULDER)
    ∧ (get_obj_xy u x y = SPACE → get_obj_xy (set_obj u e SPACE) x y = SPACE) := by
  unfold get_obj_xy set_obj Grid.get
  simp only []
  rw [Grid.set_index_contains, Grid.set_index_w]
  split
  · rw [Grid.get_index_set_index _ hu]
    split
    · exact ⟨fun _ => by decide, fun _ => rfl⟩
    · exact ⟨id, id⟩
  · exact ⟨id, id⟩


/-- C12: spawn clearing.  For each of the three grid sizes and every list of
in-range indices of the required length drawn by `game_reset`, whatever the
draw that picks the exit, the reset returns a game in whose grid the agent's
spawn cell `obj_idxs[0]` holds SPACE and no cell of the 3x3 block centred on it,
at `(agent_x + i, agent_y + j)` with `i, j` in `-1 .. 1`, holds BOULDER.  A cell
outside the grid reads as the out-of-bounds object, so it is not taken for a
boulder, and neither the demotion nor a write by coordinates stores anything
there. -/
theorem spawn_is_cleared (mode : DistributionMode) (s : MinerGame) (hg : s.grid.wf)
    (hdim : (s.grid.w, s.grid.h) = choose_world_dim mode) (obj_idxs : List Int)
    (hlen : obj_idxs.length = num_diamonds (s.grid.w * s.grid.h)
      + num_boulders (s.grid.w * s.grid.h) + num_mud (s.grid.w * s.grid.h) + 1)
    (hrange : ∀ c ∈ obj_idxs, 0 ≤ c ∧ c < s.grid.area) (rg : RandGen) :
    (∃ t : MinerGame, game_reset s obj_idxs rg = some t
      ∧ get_obj t (obj_idxs.getD 0 0) = SPACE
      ∧ ∀ i j : Int, -1 ≤ i → i ≤ 1 → -1 ≤ j → j ≤ 1 →
          get_obj_xy t (Int.tmod (obj_idxs.getD 0 0) s.main_width + i)
            (Int.tdiv (obj_idxs.getD 0 0) s.main_width + j) ≠ BOULDER)
    ∧ (∀ (u : MinerGame) (x y v : Int), u.grid.contains x y = false →
        get_obj_xy u x y = OOB_WALL ∧ demote_boulder u x y = u ∧ set_obj_xy u x y v = u) := by
  obtain ⟨_, hbig⟩ := world_dim_counts mode s.grid.w s.grid.h hdim
  have hlen' : obj_idxs.length = 1 + num_diamonds (s.grid.w * s.grid.h)
      + num_boulders (s.grid.w * s.grid.h) + num_mud (s.grid.w * s.grid.h) := by omega
  have hne : exit_candidates s obj_idxs ≠ [] :=
    exit_candidates_ne_nil s hg obj_idxs hlen' hrange (by omega)
  obtain ⟨t, ht, hgrid, _⟩ := game_reset_of_candidates s obj_idxs rg hne
  obtain ⟨q1, q2, _, q4, q5, q6, q7⟩ := reset_populated_spec s hg obj_idxs hlen' hrange
  have hu0 : (set_obj_xy (reset_populated s obj_idxs) (reset_populated s obj_idxs).agent.x
      (reset_populated s obj_idxs).agent.y SPACE).grid.wf := Grid.set_wf _ _ _ _ q1
  have hsp : get_obj_xy (set_obj_xy (reset_populated s obj_idxs)
      (reset_populated s obj_idxs).agent.x (reset_populated s obj_idxs).agent.y SPACE)
      (reset_populated s obj_idxs).agent.x (reset_populated s obj_idxs).agent.y = SPACE := by
    rw [get_obj_xy_set_obj_xy _ q1, if_pos ⟨rfl, rfl, q4⟩]
  obtain ⟨f1, f2, _, f4⟩ := demote_fold_spec (Int.tmod (obj_idxs.getD 0 0) s.main_width)
    (Int.tdiv (obj_idxs.getD 0 0) s.main_width) block_offsets _ hu0
  have hC : (reset_cleared s obj_idxs).1
      = block_offsets.foldl (fun (t : MinerGame) (p : Int × Int) =>
          demote_boulder t (Int.tmod (obj_idxs.getD 0 0) s.main_width + p.1)
            (Int.tdiv (obj_idxs.getD 0 0) s.main_width + p.2))
          (set_obj_xy (reset_populated s obj_idxs) (reset_populated s obj_idxs).agent.x
            (reset_populated s obj_idxs).agent.y SPACE) := rfl
  rw [← hC] at f1 f2 f4
  have hxy : ∀ x y : Int, get_obj_xy t x y
      = get_obj_xy (set_obj (reset_cleared s obj_idxs).1 (exit_cell s obj_idxs rg) SPACE) x y := by
    intro x y
    unfold get_obj_xy set_obj
    rw [hgrid]
  constructor
  · refine ⟨t, ht, ?_, ?_⟩
    · have h1 := (get_obj_xy_set_obj_space _ f1 (exit_cell s obj_idxs rg) _ _).2
        (f4 _ _ hsp)
      rw [← hxy] at h1
      have hct : t.grid.contains (reset_populated s obj_idxs).agent.x
          (reset_populated s obj_idxs).agent.y = true := by
        rw [← q4]
        apply Grid.contains_congr
        · rw [hgrid, Grid.set_index_w, (reset_cleared_rel s hg obj_idxs hlen' hrange).2.1]
        · rw [hgrid, Grid.set_index_h, (reset_cleared_rel s hg obj_idxs hlen' hrange).2.2.1]
      rw [get_obj_xy_eq t _ _ hct] at h1
      have hw : t.grid.w = s.grid.w := by
        rw [hgrid, Grid.set_index_w, (reset_cleared_rel s hg obj_idxs hlen' hrange).2.1, q2]
      rw [hw, q5] at h1
      exact h1
    · intro i j hi0 hi1 hj0 hj1
      rw [hxy]
      exact (get_obj_xy_set_obj_space _ f1 (exit_cell s obj_idxs rg) _ _).1
        (f2 (i, j) (mem_block_offsets i j hi0 hi1 hj0 hj1))
  · intro u x y v hc
    refine ⟨get_obj_xy_of_not_contains u x y hc, ?_, ?_⟩
    · unfold demote_boulder
      rw [if_neg]
      rw [get_obj_xy_of_not_contains u x y hc]
      decide
    · unfold set_obj_xy Grid.set
      rw [hc]
      rfl

theorem spawn_is_cleared_witness :
    ((blank_game .EasyMode).grid.wf
      ∧ draw_gap.length = 3 + 20 + 3 + 1
      ∧ ∀ c ∈ draw_gap, 0 ≤ c ∧ c < (blank_game .EasyMode).grid.area)
    ∧ ∃ t : MinerGame, game_reset (blank_game .EasyMode) draw_gap { draws := [5] } = some t
      ∧ get_obj t (draw_gap.getD 0 0) = SPACE
      ∧ ∀ i j : Int, -1 ≤ i → i ≤ 1 → -1 ≤ j → j ≤ 1 →
          get_obj_xy t (Int.tmod (draw_gap.getD 0 0) (blank_game .EasyMode).main_width + i)
            (Int.tdiv (draw_gap.getD 0 0) (blank_game .EasyMode).main_width + j) ≠ BOULDER :=
  ⟨by decide,
    (spawn_is_cleared .EasyMode (blank_game .EasyMode) (by decide) rfl draw_gap
      (by decide) (by decide) { draws := [5] }).1⟩


/-! ## Generated object counts -/

theorem indices_nodup (n : Int) : (indices n).Nodup := by
  unfold indices
  exact List.Nodup.map (fun a b h => by exact_mod_cast h) (List.nodup_range _)

/-- A duplicate-free list of cells of the grid is counted in full by the scan of
all indices. -/
theorem countP_mem_indices (L : List Int) (n : Int) (hn : L.Nodup)
    (hr : ∀ c ∈ L, 0 ≤ c ∧ c < n) :
    (indices n).countP (fun c => decide (c ∈ L)) = L.length := by
  rw [List.countP_eq_length_filter]
  apply List.Perm.length_eq
  rw [List.perm_ext_iff_of_nodup ((indices_nodup n).filter _) hn]
  intro a
  rw [List.mem_filter, mem_indices]
  simp only [decide_eq_true_eq]
  constructor
  · exact fun h => h.2
  · exact fun h => ⟨hr a h, h⟩

theorem mem_placed_iff (obj_idxs : List Int) (first n : Nat) (c : Int) :
    c ∈ placed obj_idxs first n
      ↔ ∃ k : Nat, first ≤ k ∧ k < first + n ∧ obj_idxs.getD k 0 = c := by
  unfold placed
  rw [List.mem_map]
  constructor
  · rintro ⟨i, hi, rfl⟩
    rw [List.mem_range] at hi
    exact ⟨i + first, by omega, by omega, rfl⟩
  · rintro ⟨k, h0, h1, rfl⟩
    refine ⟨k - first, ?_, ?_⟩
    · rw [List.mem_range]; omega
    · have : k - first + first = k := by omega
      rw [this]

theorem getD_inj_of_nodup (obj_idxs : List Int) (hn : obj_idxs.Nodup) (i j : Nat)
    (hi : i < obj_idxs.length) (hj : j < obj_idxs.length)
    (h : obj_idxs.getD i 0 = obj_idxs.getD j 0) : i = j := by
  rw [List.getD_eq_getElem _ _ hi, List.getD_eq_getElem _ _ hj] at h
  exact (hn.getElem_inj_iff).1 h

theorem placed_length (obj_idxs : List Int) (first n : Nat) :
    (placed obj_idxs first n).length = n := by
  unfold placed; simp

theorem placed_nodup (obj_idxs : List Int) (hn : obj_idxs.Nodup) (first n : Nat)
    (hlen : first + n ≤ obj_idxs.length) : (placed obj_idxs first n).Nodup := by
  unfold placed
  apply List.Nodup.map_on _ (List.nodup_range _)
  intro x hx y hy h
  rw [List.mem_range] at hx hy
  have := getD_inj_of_nodup obj_idxs hn (x + first) (y + first) (by omega) (by omega) h
  omega

theorem placed_disjoint (obj_idxs : List Int) (hn : obj_idxs.Nodup) (f1 n1 f2 n2 : Nat)
    (h1 : f1 + n1 ≤ f2) (h2 : f2 + n2 ≤ obj_idxs.length) (c : Int)
    (hc1 : c ∈ placed obj_idxs f1 n1) : c ∉ placed obj_idxs f2 n2 := by
  intro hc2
  obtain ⟨k1, a1, a2, a3⟩ := (mem_placed_iff _ _ _ _).1 hc1
  obtain ⟨k2, b1, b2, b3⟩ := (mem_placed_iff _ _ _ _).1 hc2
  have := getD_inj_of_nodup obj_idxs hn k1 k2 (by omega) (by omega) (by rw [a3, b3])
  omega

theorem head_not_placed (obj_idxs : List Int) (hn : obj_idxs.Nodup) (first n : Nat)
    (h1 : 1 ≤ first) (h2 : first + n ≤ obj_idxs.length) :
    obj_idxs.getD 0 0 ∉ placed obj_idxs first n := by
  intro hc
  obtain ⟨k, a1, a2, a3⟩ := (mem_placed_iff _ _ _ _).1 hc
  have := getD_inj_of_nodup obj_idxs hn k 0 (by omega) (by omega) a3
  omega

theorem placed_in_range (obj_idxs : List Int) (first n : Nat) (bound : Int)
    (hlen : first + n ≤ obj_idxs.length)
    (hrange : ∀ c ∈ obj_idxs, 0 ≤ c ∧ c < bound) :
    ∀ c ∈ placed obj_idxs first n, 0 ≤ c ∧ c < bound :=
  fun c hc => hrange c (placed_mem obj_idxs first n c hlen hc)

theorem place_objects_get (s : MinerGame) (hg : s.grid.wf) (obj_idxs : List Int)
    (first n : Nat) (type c : Int) :
    get_obj (place_objects s obj_idxs first n type) c
      = if c ∈ placed obj_idxs first n ∧ 0 ≤ c ∧ c < s.grid.area then type
        else get_obj s c := by
  rw [place_objects_eq]
  unfold get_obj placed
  exact set_obj_fold_get (fun _ => type) _ s hg c


/-- The content of a cell of the grid after lines 169-186: the loops run in the
order diamonds, boulders, mud, and a later write wins. -/
theorem populate_get (s : MinerGame) (hg : s.grid.wf) (obj_idxs : List Int)
    (hlen : 1 + num_diamonds (s.grid.w * s.grid.h) + num_boulders (s.grid.w * s.grid.h)
      + num_mud (s.grid.w * s.grid.h) ≤ obj_idxs.length)
    (c : Int) (h0 : 0 ≤ c) (h1 : c < s.grid.area) :
    get_obj (populate s obj_idxs) c
      = if c ∈ placed obj_idxs
            (1 + num_diamonds (s.grid.w * s.grid.h) + num_boulders (s.grid.w * s.grid.h))
            (num_mud (s.grid.w * s.grid.h)) then MUD
        else if c ∈ placed obj_idxs (1 + num_diamonds (s.grid.w * s.grid.h))
            (num_boulders (s.grid.w * s.grid.h)) then BOULDER
        else if c ∈ placed obj_idxs 1 (num_diamonds (s.grid.w * s.grid.h)) then DIAMOND
        else DIRT := by
  obtain ⟨a1, a2, a3, _, a5⟩ := fill_dirt_spec s hg
  obtain ⟨b1, b2, b3, _, _⟩ := place_objects_spec (fill_dirt s) a1 obj_idxs 1
    (num_diamonds (s.grid.w * s.grid.h)) DIAMOND (by omega)
  obtain ⟨c1, c2, c3, _, _⟩ := place_objects_spec _ b1 obj_idxs
    (1 + num_diamonds (s.grid.w * s.grid.h)) (num_boulders (s.grid.w * s.grid.h)) BOULDER
    (by omega)
  have ar1 : (fill_dirt s).grid.area = s.grid.area := by unfold Grid.area; rw [a2, a3]
  have ar2 : (place_objects (fill_dirt s) obj_idxs 1 (num_diamonds (s.grid.w * s.grid.h))
      DIAMOND).grid.area = s.grid.area := by unfold Grid.area; rw [b2, b3, a2, a3]
  have ar3 : (place_objects (place_objects (fill_dirt s) obj_idxs 1
      (num_diamonds (s.grid.w * s.grid.h)) DIAMOND) obj_idxs
      (1 + num_diamonds (s.grid.w * s.grid.h)) (num_boulders (s.grid.w * s.grid.h))
      BOULDER).grid.area = s.grid.area := by
    unfold Grid.area; rw [c2, c3, b2, b3, a2, a3]
  unfold populate
  simp only []
  rw [place_objects_get _ c1, place_objects_get _ b1, place_objects_get _ a1, ar1, ar2, ar3,
    a5 c h0 h1]
  simp only [h0, h1, and_self, and_true]

/-- With pairwise distinct drawn indices, the grid of line 188 holds a diamond,
a boulder or mud exactly on the cells drawn for it, DIRT on the spawn cell, and
nothing but DIRT, DIAMOND, BOULDER and MUD. -/
theorem reset_populated_cells (s : MinerGame) (hg : s.grid.wf) (obj_idxs : List Int)
    (hlen : obj_idxs.length = 1 + num_diamonds (s.grid.w * s.grid.h)
      + num_boulders (s.grid.w * s.grid.h) + num_mud (s.grid.w * s.grid.h))
    (hnodup : obj_idxs.Nodup) (hrange : ∀ c ∈ obj_idxs, 0 ≤ c ∧ c < s.grid.area) :
    (∀ c : Int, 0 ≤ c → c < s.grid.area →
      (get_obj (reset_populated s obj_idxs) c = DIAMOND
        ↔ c ∈ placed obj_idxs 1 (num_diamonds (s.grid.w * s.grid.h)))
      ∧ (get_obj (reset_populated s obj_idxs) c = BOULDER
        ↔ c ∈ placed obj_idxs (1 + num_diamonds (s.grid.w * s.grid.h))
            (num_boulders (s.grid.w * s.grid.h)))
      ∧ (get_obj (reset_populated s obj_idxs) c = MUD
        ↔ c ∈ placed obj_idxs
            (1 + num_diamonds (s.grid.w * s.grid.h) + num_boulders (s.grid.w * s.grid.h))
            (num_mud (s.grid.w * s.grid.h)))
      ∧ (get_obj (reset_populated s obj_idxs) c = DIRT
        ∨ get_obj (reset_populated s obj_idxs) c = DIAMOND
        ∨ get_obj (reset_populated s obj_idxs) c = BOULDER
        ∨ get_obj (reset_populated s obj_idxs) c = MUD))
    ∧ get_obj (reset_populated s obj_idxs) (obj_idxs.getD 0 0) = DIRT := by
  have hpos : 0 < obj_idxs.length := by omega
  have hmem : obj_idxs.getD 0 0 ∈ obj_idxs := by
    rw [List.getD_eq_getElem _ _ hpos]; exact List.getElem_mem _
  have hget : ∀ c : Int, 0 ≤ c → c < s.grid.area →
      get_obj (reset_populated s obj_idxs) c
        = if c ∈ placed obj_idxs
              (1 + num_diamonds (s.grid.w * s.grid.h) + num_boulders (s.grid.w * s.grid.h))
              (num_mud (s.grid.w * s.grid.h)) then MUD
          else if c ∈ placed obj_idxs (1 + num_diamonds (s.grid.w * s.grid.h))
              (num_boulders (s.grid.w * s.grid.h)) then BOULDER
          else if c ∈ placed obj_idxs 1 (num_diamonds (s.grid.w * s.grid.h)) then DIAMOND
          else DIRT := by
    intro c h0 h1
    exact populate_get (place_agent s _ _) hg obj_idxs (by
      show 1 + num_diamonds (s.grid.w * s.grid.h) + num_boulders (s.grid.w * s.grid.h)
        + num_mud (s.grid.w * s.grid.h) ≤ obj_idxs.length
      omega) c h0 h1
  have dDB := placed_disjoint obj_idxs hnodup 1 (num_diamonds (s.grid.w * s.grid.h))
    (1 + num_diamonds (s.grid.w * s.grid.h)) (num_boulders (s.grid.w * s.grid.h))
    (by omega) (by omega)
  have dDM := placed_disjoint obj_idxs hnodup 1 (num_diamonds (s.grid.w * s.grid.h))
    (1 + num_diamonds (s.grid.w * s.grid.h) + num_boulders (s.grid.w * s.grid.h))
    (num_mud (s.grid.w * s.grid.h)) (by omega) (by omega)
  have dBM := placed_disjoint obj_idxs hnodup (1 + num_diamonds (s.grid.w * s.grid.h))
    (num_boulders (s.grid.w * s.grid.h))
    (1 + num_diamonds (s.grid.w * s.grid.h) + num_boulders (s.grid.w * s.grid.h))
    (num_mud (s.grid.w * s.grid.h)) (by omega) (by omega)
  constructor
  · intro c h0 h1
    rw [hget c h0 h1]
    by_cases hM : c ∈ placed obj_idxs
        (1 + num_diamonds (s.grid.w * s.grid.h) + num_boulders (s.grid.w * s.grid.h))
        (num_mud (s.grid.w * s.grid.h))
    · rw [if_pos hM]
      refine ⟨⟨fun h => absurd h (by decide), fun h => absurd hM (dDM c h)⟩,
        ⟨fun h => absurd h (by decide), fun h => absurd hM (dBM c h)⟩,
        ⟨fun _ => hM, fun _ => rfl⟩, Or.inr (Or.inr (Or.inr rfl))⟩
    · rw [if_neg hM]
      by_cases hB : c ∈ placed obj_idxs (1 + num_diamonds (s.grid.w * s.grid.h))
          (num_boulders (s.grid.w * s.grid.h))
      · rw [if_pos hB]
        refine ⟨⟨fun h => absurd h (by decide), fun h => absurd hB (dDB c h)⟩,
          ⟨fun _ => hB, fun _ => rfl⟩,
          ⟨fun h => absurd h (by decide), fun h => absurd h hM⟩, Or.inr (Or.inr (Or.inl rfl))⟩
      · rw [if_neg hB]
        by_cases hD : c ∈ placed obj_idxs 1 (num_diamonds (s.grid.w * s.grid.h))
        · rw [if_pos hD]
          refine ⟨⟨fun _ => hD, fun _ => rfl⟩,
            ⟨fun h => absurd h (by decide), fun h => absurd h hB⟩,
            ⟨fun h => absurd h (by decide), fun h => absurd h hM⟩, Or.inr (Or.inl rfl)⟩
        · rw [if_neg hD]
          refine ⟨⟨fun h => absurd h (by decide), fun h => absurd h hD⟩,
            ⟨fun h => absurd h (by decide), fun h => absurd h hB⟩,
            ⟨fun h => absurd h (by decide), fun h => absurd h hM⟩, Or.inl rfl⟩
  · obtain ⟨r0, r1⟩ := hrange _ hmem
    rw [hget _ r0 r1,
      if_neg (head_not_placed obj_idxs hnodup _ _ (by omega) (by omega)),
      if_neg (head_not_placed obj_idxs hnodup _ _ (by omega) (by omega)),
      if_neg (head_not_placed obj_idxs hnodup _ _ (by omega) (by omega))]


/-- The generated grid relative to the grid of line 188: the spawn clearing and
the exit placement neither add nor remove a cell of a type other than SPACE,
DIRT and BOULDER, and add no boulder. -/
theorem generated_cells (s : MinerGame) (hg : s.grid.wf) (obj_idxs : List Int)
    (hlen : obj_idxs.length = 1 + num_diamonds (s.grid.w * s.grid.h)
      + num_boulders (s.grid.w * s.grid.h) + num_mud (s.grid.w * s.grid.h))
    (hnodup : obj_idxs.Nodup) (hrange : ∀ c ∈ obj_idxs, 0 ≤ c ∧ c < s.grid.area)
    (e : Int) (he : e ∈ exit_candidates s obj_idxs) (c : Int) :
    (∀ v : Int, v ≠ SPACE → v ≠ DIRT → v ≠ BOULDER →
      (((reset_cleared s obj_idxs).1.grid.set_index e SPACE).get_index c = v
        ↔ get_obj (reset_populated s obj_idxs) c = v))
    ∧ (((reset_cleared s obj_idxs).1.grid.set_index e SPACE).get_index c = BOULDER →
        get_obj (reset_populated s obj_idxs) c = BOULDER) := by
  obtain ⟨r1, r2, r3, r4⟩ := reset_cleared_rel s hg obj_idxs hlen hrange
  obtain ⟨_, hspawn⟩ := reset_populated_cells s hg obj_idxs hlen hnodup hrange
  have hexit : get_obj (reset_populated s obj_idxs) e = DIRT :=
    ((mem_exit_candidates_iff s obj_idxs e).1 he).1.2
  rw [Grid.get_index_set_index _ r1]
  have hrel := r4 c
  unfold get_obj at hrel hexit hspawn ⊢
  by_cases hc : e = c ∧ 0 ≤ e ∧ e < (reset_cleared s obj_idxs).1.grid.area
  · rw [if_pos hc]
    obtain ⟨rfl, _⟩ := hc
    rw [hexit]
    exact ⟨fun v h1 h2 _ => ⟨fun h => absurd h.symm h1, fun h => absurd h.symm h2⟩,
      fun h => absurd h (by decide)⟩
  · rw [if_neg hc]
    rcases hrel with h | ⟨h, rfl⟩ | ⟨h, h'⟩
    · rw [h]
      exact ⟨fun _ _ _ _ => Iff.rfl, id⟩
    · rw [h, hspawn]
      exact ⟨fun v h1 h2 _ => ⟨fun h => absurd h.symm h1, fun h => absurd h.symm h2⟩,
        fun h => absurd h (by decide)⟩
    · rw [h, h']
      exact ⟨fun v _ h2 h3 => ⟨fun h => absurd h.symm h2, fun h => absurd h.symm h3⟩,
        fun h => absurd h (by decide)⟩

theorem count_cells_eq_countP (t : MinerGame) (type : Int) :
    count_cells t type
      = (indices t.grid.area).countP (fun c => decide (get_obj t c = type)) := by
  unfold count_cells get_cells_with_type
  rw [List.countP_eq_length_filter]
  rfl

/-- C13: generated object counts.  For each of the three grid sizes and every
list of `num_diamonds + num_boulders + num_mud + 1` pairwise distinct in-range
indices drawn by `game_reset`, whatever the draw that picks the exit, the reset
returns a game whose grid holds exactly `num_diamonds` DIAMOND cells and exactly
`num_mud` MUD cells (3 and 3 on 10x10, 12 and 12 on 20x20, 36 and 36 on 35x35),
at most `num_boulders` BOULDER cells, and no MOVING_BOULDER or MOVING_DIAMOND
cell; a cell holds DIAMOND (MUD) in that grid exactly when it did before the
spawn clearing and the exit placement. -/
theorem generated_object_counts (mode : DistributionMode) (s : MinerGame) (hg : s.grid.wf)
    (hdim : (s.grid.w, s.grid.h) = choose_world_dim mode) (obj_idxs : List Int)
    (hlen : obj_idxs.length = num_diamonds (s.grid.w * s.grid.h)
      + num_boulders (s.grid.w * s.grid.h) + num_mud (s.grid.w * s.grid.h) + 1)
    (hnodup : obj_idxs.Nodup)
    (hrange : ∀ c ∈ obj_idxs, 0 ≤ c ∧ c < s.grid.area) (rg : RandGen) :
    ∃ t : MinerGame, game_reset s obj_idxs rg = some t
      ∧ count_cells t DIAMOND = num_diamonds (s.grid.w * s.grid.h)
      ∧ count_cells t MUD = num_mud (s.grid.w * s.grid.h)
      ∧ count_cells t BOULDER ≤ num_boulders (s.grid.w * s.grid.h)
      ∧ count_cells t MOVING_BOULDER = 0
      ∧ count_cells t MOVING_DIAMOND = 0
      ∧ (mode = .EasyMode → count_cells t DIAMOND = 3 ∧ count_cells t MUD = 3)
      ∧ (mode = .HardMode → count_cells t DIAMOND = 12 ∧ count_cells t MUD = 12)
      ∧ (mode = .MemoryMode → count_cells t DIAMOND = 36 ∧ count_cells t MUD = 36)
      ∧ (∀ c : Int, (get_obj t c = DIAMOND ↔ get_obj (reset_populated s obj_idxs) c = DIAMOND)
          ∧ (get_obj t c = MUD ↔ get_obj (reset_populated s obj_idxs) c = MUD)) := by
  obtain ⟨hcounts, hbig⟩ := world_dim_counts mode s.grid.w s.grid.h hdim
  have hlen' : obj_idxs.length = 1 + num_diamonds (s.grid.w * s.grid.h)
      + num_boulders (s.grid.w * s.grid.h) + num_mud (s.grid.w * s.grid.h) := by omega
  have hne : exit_candidates s obj_idxs ≠ [] :=
    exit_candidates_ne_nil s hg obj_idxs hlen' hrange (by omega)
  obtain ⟨t, ht, hgrid, _⟩ := game_reset_of_candidates s obj_idxs rg hne
  have hmem := exit_cell_mem s obj_idxs rg hne
  obtain ⟨_, q2, q3, _⟩ := reset_cleared_spec s hg obj_idxs hlen' hrange
  obtain ⟨hcells, _⟩ := reset_populated_cells s hg obj_idxs hlen' hnodup hrange
  have harea : t.grid.area = s.grid.area := by
    unfold Grid.area; rw [hgrid, Grid.set_index_w, Grid.set_index_h, q2, q3]
  have hgen : ∀ c : Int,
      (∀ v : Int, v ≠ SPACE → v ≠ DIRT → v ≠ BOULDER →
        (get_obj t c = v ↔ get_obj (reset_populated s obj_idxs) c = v))
      ∧ (get_obj t c = BOULDER → get_obj (reset_populated s obj_idxs) c = BOULDER) := by
    intro c
    have h := generated_cells s hg obj_idxs hlen' hnodup hrange _ hmem c
    unfold get_obj at h ⊢
    rw [hgrid]
    exact h
  have hD : count_cells t DIAMOND = num_diamonds (s.grid.w * s.grid.h) := by
    rw [count_cells_eq_countP, harea,
      List.countP_congr (q := fun c => decide (c ∈ placed obj_idxs 1
        (num_diamonds (s.grid.w * s.grid.h)))),
      countP_mem_indices _ _ (placed_nodup obj_idxs hnodup _ _ (by omega))
        (placed_in_range obj_idxs _ _ _ (by omega) hrange), placed_length]
    intro c hc
    rw [mem_indices] at hc
    simp only [decide_eq_true_eq]
    rw [(hgen c).1 DIAMOND (by decide) (by decide) (by decide)]
    exact (hcells c hc.1 hc.2).1
  have hM : count_cells t MUD = num_mud (s.grid.w * s.grid.h) := by
    rw [count_cells_eq_countP, harea,
      List.countP_congr (q := fun c => decide (c ∈ placed obj_idxs
        (1 + num_diamonds (s.grid.w * s.grid.h) + num_boulders (s.grid.w * s.grid.h))
        (num_mud (s.grid.w * s.grid.h)))),
      countP_mem_indices _ _ (placed_nodup obj_idxs hnodup _ _ (by omega))
        (placed_in_range obj_idxs _ _ _ (by omega) hrange), placed_length]
    intro c hc
    rw [mem_indices] at hc
    simp only [decide_eq_true_eq]
    rw [(hgen c).1 MUD (by decide) (by decide) (by decide)]
    exact (hcells c hc.1 hc.2).2.2.1
  have hB : count_cells t BOULDER ≤ num_boulders (s.grid.w * s.grid.h) := by
    rw [count_cells_eq_countP, harea]
    have hle := List.countP_mono_left (l := indices s.grid.area)
      (p := fun c => decide (get_obj t c = BOULDER))
      (q := fun c => decide (c ∈ placed obj_idxs (1 + num_diamonds (s.grid.w * s.grid.h))
        (num_boulders (s.grid.w * s.grid.h))))
      (by
        intro c hc
        rw [mem_indices] at hc
        simp only [decide_eq_true_eq]
        intro h
        exact (hcells c hc.1 hc.2).2.1.1 ((hgen c).2 h))
    rw [countP_mem_indices _ _ (placed_nodup obj_idxs hnodup _ _ (by omega))
        (placed_in_range obj_idxs _ _ _ (by omega) hrange), placed_length] at hle
    exact hle
  have hzero : ∀ v : Int, v ≠ SPACE → v ≠ DIRT → v ≠ BOULDER → v ≠ DIAMOND → v ≠ MUD →
      count_cells t v = 0 := by
    intro v v1 v2 v3 v4 v5
    rw [count_cells_eq_countP, harea, List.countP_eq_zero]
    intro c hc
    rw [mem_indices] at hc
    simp only [decide_eq_true_eq]
    rw [(hgen c).1 v v1 v2 v3]
    intro h
    rcases (hcells c hc.1 hc.2).2.2.2 with e | e | e | e <;> rw [e] at h
    · exact v2 h.symm
    · exact v4 h.symm
    · exact v3 h.symm
    · exact v5 h.symm
  refine ⟨t, ht, hD, hM, hB, hzero _ (by decide) (by decide) (by decide) (by decide) (by decide),
    hzero _ (by decide) (by decide) (by decide) (by decide) (by decide), ?_, ?_, ?_, ?_⟩
  · intro hm
    have := hcounts.1 hm
    simp only [Prod.mk.injEq] at this
    rw [hD, hM]; exact ⟨this.1, this.2.2⟩
  · intro hm
    have := hcounts.2.1 hm
    simp only [Prod.mk.injEq] at this
    rw [hD, hM]; exact ⟨this.1, this.2.2⟩
  · intro hm
    have := hcounts.2.2 hm
    simp only [Prod.mk.injEq] at this
    rw [hD, hM]; exact ⟨this.1, this.2.2⟩
  · intro c
    exact ⟨(hgen c).1 DIAMOND (by decide) (by decide) (by decide),
      (hgen c).1 MUD (by decide) (by decide) (by decide)⟩

theorem generated_object_counts_witness :
    ((blank_game .EasyMode).grid.wf
      ∧ draw_gap.length = 3 + 20 + 3 + 1
      ∧ draw_gap.Nodup
      ∧ ∀ c ∈ draw_gap, 0 ≤ c ∧ c < (blank_game .EasyMode).grid.area)
    ∧ ∃ t : MinerGame, game_reset (blank_game .EasyMode) draw_gap { draws := [5] } = some t
      ∧ count_cells t DIAMOND = 3 ∧ count_cells t MUD = 3 ∧ count_cells t BOULDER ≤ 20
      ∧ count_cells t MOVING_BOULDER = 0 ∧ count_cells t MOVING_DIAMOND = 0 := by
  obtain ⟨t, h1, h2, h3, h4, h5, h6, _⟩ :=
    generated_object_counts .EasyMode (blank_game .EasyMode) (by decide) rfl draw_gap
      (by decide) (by decide) (by decide) { draws := [5] }
  exact ⟨by decide, t, h1, h2, h3, h4, h5, h6⟩


/-! ## Reset and the fields of `MinerGame` -/

theorem set_obj_fold_fields (val : Int → Int) (L : List Int) (t : MinerGame) :
    (L.foldl (fun (t : MinerGame) (idx : Int) => set_obj t idx (val idx)) t).diamonds_remaining
        = t.diamonds_remaining
    ∧ (L.foldl (fun (t : MinerGame) (idx : Int) => set_obj t idx (val idx)) t).died = t.died
    ∧ (L.foldl (fun (t : MinerGame) (idx : Int) => set_obj t idx (val idx)) t).entities
        = t.entities
    ∧ (L.foldl (fun (t : MinerGame) (idx : Int) => set_obj t idx (val idx)) t).agent
        = t.agent := by
  have h := (set_obj_fold_frame val L t).1
  refine ⟨?_, ?_, ?_, ?_⟩ <;> rw [h]

theorem populate_fields (s : MinerGame) (obj_idxs : List Int) :
    (populate s obj_idxs).diamonds_remaining = s.diamonds_remaining
    ∧ (populate s obj_idxs).died = s.died := by
  unfold populate fill_dirt
  simp only [place_objects_eq]
  refine ⟨?_, ?_⟩
  · rw [(set_obj_fold_fields _ _ _).1, (set_obj_fold_fields _ _ _).1,
      (set_obj_fold_fields _ _ _).1, (set_obj_fold_fields _ _ _).1]
  · rw [(set_obj_fold_fields _ _ _).2.1, (set_obj_fold_fields _ _ _).2.1,
      (set_obj_fold_fields _ _ _).2.1, (set_obj_fold_fields _ _ _).2.1]

theorem demote_boulder_fields (t : MinerGame) (x y : Int) :
    (demote_boulder t x y).diamonds_remaining = t.diamonds_remaining
    ∧ (demote_boulder t x y).died = t.died := by
  unfold demote_boulder
  split <;> exact ⟨rfl, rfl⟩

theorem clear_spawn_fields (s : MinerGame) (ax ay : Int) :
    (clear_spawn s ax ay).diamonds_remaining = s.diamonds_remaining
    ∧ (clear_spawn s ax ay).died = s.died := by
  unfold clear_spawn
  simp only [List.foldl_cons, List.foldl_nil, (demote_boulder_fields _ _ _).1,
    (demote_boulder_fields _ _ _).2]
  exact ⟨rfl, rfl⟩

/-- The reset assigns `died` (line 143) and nothing assigns `diamonds_remaining`:
the value it had before the reset is still there afterwards. -/
theorem game_reset_fields (s : MinerGame) (obj_idxs : List Int) (rg : RandGen) (t : MinerGame)
    (h : game_reset s obj_idxs rg = some t) :
    t.diamonds_remaining = s.diamonds_remaining ∧ t.died = false := by
  unfold game_reset at h
  simp only [] at h
  split at h
  · simp only [Option.some.injEq] at h
    rw [← h]
    have e := reset_cleared_eq_populated s obj_idxs
    simp only [set_obj, e]
    unfold reset_populated
    exact ⟨by rw [(clear_spawn_fields _ _ _).1, (populate_fields _ _).1]; rfl,
      by rw [(clear_spawn_fields _ _ _).2, (populate_fields _ _).2]; rfl⟩
  · exact absurd h (by simp)

/-- C14, the code at a failing input: two games that differ only in
`diamonds_remaining` and `died` (0 and true against 5 and false) are reset on
the 10x10 grid with the same draws; both come out with `died = false`, but the
first still has `diamonds_remaining = 0` and the second `diamonds_remaining = 5`:
the value of before the reset is kept. -/
theorem reset_keeps_stale_diamonds_remaining :
    finished_dead_game.toBasicAbstractGame = finished_alive_game.toBasicAbstractGame
    ∧ ∃ t1 t2 : MinerGame,
        game_reset finished_dead_game draw_gap { draws := [5] } = some t1
        ∧ game_reset finished_alive_game draw_gap { draws := [5] } = some t2
        ∧ t1.died = false ∧ t2.died = false
        ∧ t1.diamonds_remaining = 0 ∧ t2.diamonds_remaining = 5
        ∧ t1.diamonds_remaining ≠ t2.diamonds_remaining := by
  refine ⟨rfl, ?_⟩
  obtain ⟨t1, h1, _⟩ := game_reset_of_candidates finished_dead_game draw_gap { draws := [5] }
    (exit_candidates_ne_nil finished_dead_game (by decide) draw_gap (by decide) (by decide)
      (by decide))
  obtain ⟨t2, h2, _⟩ := game_reset_of_candidates finished_alive_game draw_gap { draws := [5] }
    (exit_candidates_ne_nil finished_alive_game (by decide) draw_gap (by decide) (by decide)
      (by decide))
  obtain ⟨a1, a2⟩ := game_reset_fields _ _ _ _ h1
  obtain ⟨b1, b2⟩ := game_reset_fields _ _ _ _ h2
  refine ⟨t1, t2, h1, h2, a2, b2, a1, b1, ?_⟩
  rw [a1, b1]
  decide


/-! ## Save and load -/

theorem pickup_done (t : MinerGame) (ng : Grid) :
    (pickup t ng).1.step_data.done = t.step_data.done := by
  unfold pickup; simp only []
  split_ifs <;> rfl

/-- A step on a live game leaves `step_data.done` as the base-class step left
it. -/
theorem game_step_alive_done (s : MinerGame) (hg : s.grid.wf) (hd : s.died = false) :
    (game_step s).step_data.done = s.step_data.done := by
  rw [(game_step_alive s hg hd).2.2.2.1]
  unfold pre_scan after_push
  simp only []
  rw [pickup_done, (handle_push_frame _ _).2.2.2.2.2.2.2, (set_facing_frame s).2.2]

theorem deserialize_serialize (target s : MinerGame) :
    (deserialize target (serialize s)).toBasicAbstractGame = s.toBasicAbstractGame
    ∧ (deserialize target (serialize s)).diamonds_remaining = s.diamonds_remaining
    ∧ (deserialize target (serialize s)).died = target.died :=
  ⟨rfl, rfl, rfl⟩

/-- C15, the code at a failing input: the game saved right after a crush
(`died = true`) and loaded into a fresh game comes back with the base-class
fields and `diamonds_remaining` restored but with `died = false`; the next
`game_step` of the saved game reports `done`, the next `game_step` of the
restored game does not. -/
theorem round_trip_loses_died :
    crushed_game.died = true
    ∧ (deserialize fresh_game (serialize crushed_game)).toBasicAbstractGame
        = crushed_game.toBasicAbstractGame
    ∧ (deserialize fresh_game (serialize crushed_game)).diamonds_remaining
        = crushed_game.diamonds_remaining
    ∧ (deserialize fresh_game (serialize crushed_game)).died = false
    ∧ (game_step crushed_game).step_data.done = true
    ∧ (game_step (deserialize fresh_game (serialize crushed_game))).step_data.done = false := by
  refine ⟨rfl, rfl, rfl, rfl, ?_, ?_⟩
  · rw [game_step_of_died crushed_game rfl]
  · rw [game_step_alive_done _ (by decide) rfl]
    rfl


/-! ## Observation mirroring and restoring -/

theorem find_exit_move_exit (ex ey : Int) (l : List Entity) (e0 : Entity)
    (h : find_exit l = some e0) :
    find_exit (move_exit ex ey l)
      = some { e0 with x := int_of_centre ex, y := int_of_centre ey } := by
  induction l with
  | nil => exact absurd h (by simp [find_exit])
  | cons e es ih =>
    unfold find_exit at h ih ⊢
    unfold move_exit
    by_cases ht : e.type = EXIT
    · rw [List.find?_cons_of_pos _ (by simpa using ht)] at h
      rw [if_pos ht]
      simp only [Option.some.injEq] at h
      subst h
      rw [List.find?_cons_of_pos _ (by simpa using ht)]
    · rw [List.find?_cons_of_neg _ (by simpa using ht)] at h
      rw [if_neg ht, List.find?_cons_of_neg _ (by simpa using ht)]
      exact ih h

theorem find_exit_of_mem (l : List Entity) (h : ∃ e ∈ l, e.type = EXIT) :
    ∃ e0, find_exit l = some e0 := by
  unfold find_exit
  rw [← Option.isSome_iff_exists, List.find?_isSome]
  obtain ⟨e, he, ht⟩ := h
  exact ⟨e, he, by simpa using ht⟩

/-- The loop of lines 419-421 over a full array of cell values leaves exactly
that array in the grid. -/
theorem set_state_grid (s : MinerGame) (hg : s.grid.wf) (vals : List Int)
    (hlen : vals.length = s.grid.w * s.grid.h) :
    ((indices s.grid.area).foldl
        (fun (t : MinerGame) (idx : Int) => set_obj t idx (vals.getD idx.toNat 0)) s).grid
      = { w := s.grid.w, h := s.grid.h, data := vals } := by
  obtain ⟨_, e2, e3, e4⟩ :=
    set_obj_fold_frame (fun idx => vals.getD idx.toNat 0) (indices s.grid.area) s
  have hwf2 : ({ w := s.grid.w, h := s.grid.h, data := vals } : Grid).wf := hlen
  apply Grid.ext_of_get_index _ _ (e4 hg) hwf2 e2 e3
  intro c
  rw [set_obj_fold_get (fun idx => vals.getD idx.toNat 0) _ s hg c]
  by_cases hr : 0 ≤ c ∧ c < s.grid.area
  · rw [if_pos ⟨(mem_indices _ c).2 hr, hr⟩]
    have hlt : c.toNat < vals.length := by
      have := s.grid.wf_length hg
      unfold Grid.wf at hg
      omega
    have hc : c = ((c.toNat : Nat) : Int) := by omega
    rw [hc, Grid.get_index_of_lt _ hwf2 c.toNat hlt]
    simp only [Int.toNat_ofNat]
    exact List.getD_eq_getElem _ _ hlt
  · rw [if_neg (fun h => hr h.2), Grid.get_index_of_not_contains s.grid c hr,
      Grid.get_index_of_not_contains ({ w := s.grid.w, h := s.grid.h, data := vals } : Grid)
        c hr]

/-- C16: observation restore followed by observation mirroring.  Let `st` be an
observation whose `grid_width` and `grid_height` are the dimensions of the
game's grid, whose grid array has length `grid_width * grid_height`, and whose
agent and exit coordinates are cells of the grid, and let the game contain an
EXIT entity.  Then `game_set_state` returns a game on which `get_latent_state`
returns exactly `st`: same width, height, grid array, agent and exit
coordinates, the coordinates being stored at the cell centre and read back by
truncation. -/
theorem observation_round_trip (s : MinerGame) (hg : s.grid.wf) (st : MinerState)
    (hw : st.grid_width = (s.grid.w : Int)) (hh : st.grid_height = (s.grid.h : Int))
    (hlen : (st.grid.length : Int) = st.grid_width * st.grid_height)
    (hagent : s.grid.contains st.agent_x st.agent_y = true)
    (hexit : s.grid.contains st.exit_x st.exit_y = true)
    (hent : ∃ e ∈ s.entities, e.type = EXIT) :
    ∃ t : MinerGame, game_set_state s st = some t ∧ get_latent_state t = some st := by
  obtain ⟨a1, _, a3, _⟩ := (Grid.contains_iff _ _ _).1 hagent
  obtain ⟨b1, _, b3, _⟩ := (Grid.contains_iff _ _ _).1 hexit
  have hlenN : st.grid.length = s.grid.w * s.grid.h := by
    rw [hw, hh] at hlen
    exact_mod_cast hlen
  have harea : st.grid_width * st.grid_height = s.grid.area := by
    rw [hw, hh]; rfl
  have hfold := set_state_grid s hg st.grid hlenN
  have f3 : ((indices s.grid.area).foldl
      (fun (t : MinerGame) (idx : Int) => set_obj t idx (st.grid.getD idx.toNat 0)) s).entities
      = s.entities :=
    (set_obj_fold_fields (fun idx => st.grid.getD idx.toNat 0) (indices s.grid.area) s).2.2.1
  obtain ⟨e0, he0⟩ := find_exit_of_mem s.entities hent
  unfold game_set_state
  simp only []
  rw [harea, f3, he0]
  refine ⟨_, rfl, ?_⟩
  unfold get_latent_state
  simp only []
  rw [find_exit_move_exit st.exit_x st.exit_y s.entities e0 he0]
  simp only [hfold, int_of_centre_nonneg _ a1, int_of_centre_nonneg _ a3,
    int_of_centre_nonneg _ b1, int_of_centre_nonneg _ b3, ← hw, ← hh]

theorem observation_round_trip_witness :
    (cave_2x2.wf ∧ cave_2x2.contains 1 1 = true ∧ cave_2x2.contains 0 0 = true
      ∧ ∃ e ∈ (game_on cave_2x2 0 0 1 1).entities, e.type = EXIT)
    ∧ ∃ t : MinerGame, game_set_state (game_on cave_2x2 0 0 1 1) observation_2x2 = some t
        ∧ get_latent_state t = some observation_2x2 :=
  ⟨by decide,
    observation_round_trip (game_on cave_2x2 0 0 1 1) (by decide) observation_2x2 rfl rfl
      (by decide) (by decide) (by decide) (by decide)⟩


/-! ## The writes of the physics loop, branch by branch -/

/-- The value of a round object and of its variants is never SPACE nor
DEAD_PLAYER. -/
theorem round_types (obj : Int)
    (h : obj = BOULDER ∨ obj = MOVING_BOULDER ∨ obj = DIAMOND ∨ obj = MOVING_DIAMOND) :
    get_stationary_type obj ≠ DEAD_PLAYER ∧ get_moving_type obj ≠ DEAD_PLAYER
    ∧ get_stationary_type obj ≠ SPACE ∧ get_moving_type obj ≠ SPACE
    ∧ (get_stationary_type (get_stationary_type obj) = DIAMOND
        ↔ get_stationary_type obj = DIAMOND)
    ∧ (get_stationary_type (get_moving_type obj) = DIAMOND
        ↔ get_stationary_type obj = DIAMOND) := by
  rcases h with h | h | h | h <;> subst h <;> decide

/-- The loop body at one index, branch by branch: what it writes, and whether it
kills. -/
theorem cell_writes_cases (s : MinerGame) (i : Int) :
    (¬ (get_obj s i = BOULDER ∨ get_obj s i = MOVING_BOULDER ∨ get_obj s i = DIAMOND
          ∨ get_obj s i = MOVING_DIAMOND)
        ∧ cell_writes s i = [] ∧ cell_kills s i = false)
    ∨ ((get_obj s i = BOULDER ∨ get_obj s i = MOVING_BOULDER ∨ get_obj s i = DIAMOND
          ∨ get_obj s i = MOVING_DIAMOND)
        ∧ ((get_obj s (i - s.main_width) = SPACE ∧ get_agent_index s ≠ i - s.main_width
              ∧ cell_kills s i = false
              ∧ ∃ ty, (ty = get_moving_type (get_obj s i)
                    ∨ ty = get_stationary_type (get_obj s i))
                  ∧ cell_writes s i = [(i, SPACE), (i - s.main_width, ty)])
          ∨ (get_agent_index s = i - s.main_width ∧ cell_kills s i = true
              ∧ cell_writes s i = [(i - s.main_width, DEAD_PLAYER)])
          ∨ (free_cell s (i - 1) ∧ cell_kills s i = false
              ∧ cell_writes s i = [(i, SPACE), (i - 1, get_stationary_type (get_obj s i))])
          ∨ (free_cell s (i + 1) ∧ cell_kills s i = false
              ∧ cell_writes s i = [(i, SPACE), (i + 1, get_stationary_type (get_obj s i))])
          ∨ (cell_kills s i = false
              ∧ cell_writes s i = [(i, get_stationary_type (get_obj s i))]))) := by
  by_cases hobj : get_obj s i = BOULDER ∨ get_obj s i = MOVING_BOULDER ∨ get_obj s i = DIAMOND
      ∨ get_obj s i = MOVING_DIAMOND
  · right
    refine ⟨hobj, ?_⟩
    by_cases h2 : get_obj s (i - s.main_width) = SPACE
        ∧ decide (get_agent_index s = i - s.main_width) = false
    · have hne : get_agent_index s ≠ i - s.main_width := by simpa using h2.2
      have hk : cell_kills s i = false := by
        rw [← Bool.not_eq_true, cell_kills_iff]
        intro c; exact hne (by omega)
      refine Or.inl ⟨h2.1, hne, hk,
        (if get_obj s (i - s.main_width - s.main_width) = SPACE
          then get_moving_type (get_obj s i) else get_stationary_type (get_obj s i)), ?_, ?_⟩
      · exact (em (get_obj s (i - s.main_width - s.main_width) = SPACE)).elim
          (fun h => Or.inl (if_pos h)) (fun h => Or.inr (if_neg h))
      · unfold cell_writes
        simp only []
        rw [if_pos hobj, if_pos h2]
    · by_cases h3 : decide (get_agent_index s = i - s.main_width) = true
          ∧ is_moving (get_obj s i) = true
      · have he : get_agent_index s = i - s.main_width := by simpa using h3.1
        have hk : cell_kills s i = true := (cell_kills_iff s i).2 ⟨by omega, h3.2⟩
        refine Or.inr (Or.inl ⟨he, hk, ?_⟩)
        unfold cell_writes
        simp only []
        rw [if_pos hobj, if_neg h2, if_pos h3]
      · have hk : cell_kills s i = false := by
          rw [← Bool.not_eq_true, cell_kills_iff]
          intro c
          exact h3 ⟨by simp only [decide_eq_true_eq]; omega, c.2⟩
        by_cases h4 : is_round (get_obj s (i - s.main_width)) = true
            ∧ Int.tmod i s.main_width > 0 ∧ is_free s (i - 1) = true
            ∧ is_free s (i - s.main_width - 1) = true
        · refine Or.inr (Or.inr (Or.inl ⟨(free_cell_iff s _).1 h4.2.2.1, hk, ?_⟩))
          unfold cell_writes
          simp only []
          rw [if_pos hobj, if_neg h2, if_neg h3, if_pos h4]
        · by_cases h5 : is_round (get_obj s (i - s.main_width)) = true
              ∧ Int.tmod i s.main_width < s.main_width - 1 ∧ is_free s (i + 1) = true
              ∧ is_free s (i - s.main_width + 1) = true
          · refine Or.inr (Or.inr (Or.inr (Or.inl ⟨(free_cell_iff s _).1 h5.2.2.1, hk, ?_⟩)))
            unfold cell_writes
            simp only []
            rw [if_pos hobj, if_neg h2, if_neg h3, if_neg h4, if_pos h5]
          · refine Or.inr (Or.inr (Or.inr (Or.inr ⟨hk, ?_⟩)))
            unfold cell_writes
            simp only []
            rw [if_pos hobj, if_neg h2, if_neg h3, if_neg h4, if_neg h5]
  · left
    refine ⟨hobj, ?_, ?_⟩
    · unfold cell_writes
      simp only []
      rw [if_neg hobj]
    · rw [← Bool.not_eq_true, cell_kills_iff]
      intro c
      apply hobj
      rcases (is_moving_iff _).1 c.2 with h | h
      · exact Or.inr (Or.inl h)
      · exact Or.inr (Or.inr (Or.inr h))

/-- After a sequence of writes a cell of the grid holds its old value if no
write targets it, and the value of one of the writes that target it otherwise. -/
theorem apply_writes_get_cases (ws : List (Int × Int)) (g : Grid) (hg : g.wf) (c : Int) :
    ((apply_writes ws g).get_index c = g.get_index c ∧ ∀ p ∈ ws, p.1 = c → ¬ (0 ≤ c ∧ c < g.area))
    ∨ ∃ p ∈ ws, p.1 = c ∧ (apply_writes ws g).get_index c = p.2 := by
  induction ws generalizing g with
  | nil => exact Or.inl ⟨rfl, fun p hp => absurd hp (List.not_mem_nil p)⟩
  | cons q ws ih =>
    rw [apply_writes_cons]
    rcases ih (g.set_index q.1 q.2) (g.set_index_wf _ _ hg) with ⟨h1, h2⟩ | ⟨p, hp, h1, h2⟩
    · rw [Grid.get_index_set_index g hg] at h1
      rw [Grid.set_index_area] at h2
      by_cases hq : q.1 = c ∧ 0 ≤ q.1 ∧ q.1 < g.area
      · rw [if_pos hq] at h1
        exact Or.inr ⟨q, List.mem_cons_self _ _, hq.1, h1⟩
      · rw [if_neg hq] at h1
        refine Or.inl ⟨h1, ?_⟩
        intro p hp hpc
        rcases List.mem_cons.1 hp with rfl | hp
        · intro hr
          exact hq ⟨hpc, by rw [hpc]; exact hr.1, by rw [hpc]; exact hr.2⟩
        · exact h2 p hp hpc
    · exact Or.inr ⟨p, List.mem_cons_of_mem _ hp, h1, h2⟩


/-! ## The next grid against the live grid at the start of the loop -/

theorem Grid.get_index_set (g : Grid) (hg : g.wf) (x y v c : Int) :
    (g.set x y v).get_index c
      = if g.contains x y = true ∧ y * (g.w : Int) + x = c then v else g.get_index c := by
  unfold Grid.set
  by_cases hc : g.contains x y = true
  · rw [if_pos hc, Grid.get_index_set_index _ hg]
    obtain ⟨h0, h1⟩ := g.contains_index_of_contains x y hc
    by_cases he : y * (g.w : Int) + x = c
    · rw [if_pos ⟨he, h0, h1⟩, if_pos ⟨hc, he⟩]
    · rw [if_neg (fun h => he h.1), if_neg (fun h => he h.2)]
  · rw [if_neg hc, if_neg (fun h => hc h.1)]

/-- The push on the copy of the live grid: the two grids agree afterwards,
except at the cell into which the boulder was pushed, where the next grid holds
BOULDER and the live grid SPACE; that cell is not the agent's. -/
theorem handle_push_next_grid (t : MinerGame) (hg : t.grid.wf) (c : Int) :
    (handle_push t t.grid).2.get_index c = (handle_push t t.grid).1.grid.get_index c
    ∨ ((handle_push t t.grid).2.get_index c = BOULDER
        ∧ (handle_push t t.grid).1.grid.get_index c = SPACE
        ∧ c ≠ get_agent_index (handle_push t t.grid).1) := by
  by_cases hR : t.action_vx = 1 ∧ t.agent.vx = 0
      ∧ Int.tmod (get_agent_index t) t.main_width < t.main_width - 2
      ∧ get_obj t (get_agent_index t + 1) = BOULDER ∧ get_obj t (get_agent_index t + 2) = SPACE
  · have e : handle_push t t.grid
        = ({ set_obj t (get_agent_index t + 1) SPACE with
              agent := { t.agent with x := t.agent.x + 1 } },
            (t.grid.set_index (get_agent_index t + 1) SPACE).set_index
              (get_agent_index t + 2) BOULDER) := by
      unfold handle_push; simp only []; rw [if_pos hR]; rfl
    have hidx : get_agent_index ({ set_obj t (get_agent_index t + 1) SPACE with
        agent := { t.agent with x := t.agent.x + 1 } } : MinerGame)
        = get_agent_index t + 1 := by
      unfold get_agent_index MinerGame.main_width set_obj
      simp only [Grid.set_index_w]
      ring
    rw [e]
    show ((t.grid.set_index (get_agent_index t + 1) SPACE).set_index
          (get_agent_index t + 2) BOULDER).get_index c
        = (t.grid.set_index (get_agent_index t + 1) SPACE).get_index c
      ∨ (((t.grid.set_index (get_agent_index t + 1) SPACE).set_index
          (get_agent_index t + 2) BOULDER).get_index c = BOULDER
        ∧ (t.grid.set_index (get_agent_index t + 1) SPACE).get_index c = SPACE
        ∧ c ≠ get_agent_index ({ set_obj t (get_agent_index t + 1) SPACE with
            agent := { t.agent with x := t.agent.x + 1 } } : MinerGame))
    rw [hidx, Grid.get_index_set_index _ (Grid.set_index_wf _ _ _ hg),
      Grid.get_index_set_index _ hg, Grid.set_index_area]
    by_cases h2 : get_agent_index t + 2 = c ∧ 0 ≤ get_agent_index t + 2
        ∧ get_agent_index t + 2 < t.grid.area
    · rw [if_pos h2]
      right
      refine ⟨rfl, ?_, by omega⟩
      rw [if_neg (by omega), ← h2.1]
      exact hR.2.2.2.2
    · rw [if_neg h2]
      exact Or.inl rfl
  · by_cases hL : t.action_vx = -1 ∧ t.agent.vx = 0
        ∧ Int.tmod (get_agent_index t) t.main_width > 1
        ∧ get_obj t (get_agent_index t - 1) = BOULDER
        ∧ get_obj t (get_agent_index t - 2) = SPACE
    · have e : handle_push t t.grid
          = ({ set_obj t (get_agent_index t - 1) SPACE with
                agent := { t.agent with x := t.agent.x - 1 } },
              (t.grid.set_index (get_agent_index t - 1) SPACE).set_index
                (get_agent_index t - 2) BOULDER) := by
        unfold handle_push; simp only []; rw [if_neg hR, if_pos hL]; rfl
      have hidx : get_agent_index ({ set_obj t (get_agent_index t - 1) SPACE with
          agent := { t.agent with x := t.agent.x - 1 } } : MinerGame)
          = get_agent_index t - 1 := by
        unfold get_agent_index MinerGame.main_width set_obj
        simp only [Grid.set_index_w]
        ring
      rw [e]
      show ((t.grid.set_index (get_agent_index t - 1) SPACE).set_index
            (get_agent_index t - 2) BOULDER).get_index c
          = (t.grid.set_index (get_agent_index t - 1) SPACE).get_index c
        ∨ (((t.grid.set_index (get_agent_index t - 1) SPACE).set_index
            (get_agent_index t - 2) BOULDER).get_index c = BOULDER
          ∧ (t.grid.set_index (get_agent_index t - 1) SPACE).get_index c = SPACE
          ∧ c ≠ get_agent_index ({ set_obj t (get_agent_index t - 1) SPACE with
              agent := { t.agent with x := t.agent.x - 1 } } : MinerGame))
      rw [hidx, Grid.get_index_set_index _ (Grid.set_index_wf _ _ _ hg),
        Grid.get_index_set_index _ hg, Grid.set_index_area]
      by_cases h2 : get_agent_index t - 2 = c ∧ 0 ≤ get_agent_index t - 2
          ∧ get_agent_index t - 2 < t.grid.area
      · rw [if_pos h2]
        right
        refine ⟨rfl, ?_, by omega⟩
        rw [if_neg (by omega), ← h2.1]
        exact hL.2.2.2.2
      · rw [if_neg h2]
        exact Or.inl rfl
    · have e : handle_push t t.grid = (t, t.grid) := by
        unfold handle_push; simp only []; rw [if_neg hR, if_neg hL]
      rw [e]
      exact Or.inl rfl

theorem after_push_next_grid (s : MinerGame) (hg : s.grid.wf) (c : Int) :
    (after_push s).2.get_index c = (after_push s).1.grid.get_index c
    ∨ ((after_push s).2.get_index c = BOULDER ∧ (after_push s).1.grid.get_index c = SPACE
        ∧ c ≠ get_agent_index (after_push s).1) := by
  obtain ⟨f1, _, _⟩ := set_facing_frame s
  have h := handle_push_next_grid (set_facing s) (by rw [f1]; exact hg) c
  rw [f1] at h
  exact h

theorem pickup_agent_index (t : MinerGame) (ng : Grid) :
    get_agent_index (pickup t ng).1 = get_agent_index t := by
  obtain ⟨b1, _, _, _, _, _, _, b8⟩ := pickup_frame t ng
  unfold get_agent_index MinerGame.main_width
  rw [b8, b1]

/-- At the start of the physics loop the next grid and the live grid agree,
except at the cell into which a boulder was pushed. -/
theorem pre_scan_next_grid (s : MinerGame) (hg : s.grid.wf) (c : Int) :
    (pre_scan s).2.get_index c = (pre_scan s).1.grid.get_index c
    ∨ ((pre_scan s).2.get_index c = BOULDER ∧ (pre_scan s).1.grid.get_index c = SPACE
        ∧ c ≠ get_agent_index (pre_scan s).1) := by
  obtain ⟨f1, _, _⟩ := set_facing_frame s
  obtain ⟨a1, a2, a3, a4, a5, a6, _, _⟩ := handle_push_frame (set_facing s) s.grid
  rw [f1] at a1 a2 a5
  have hQ : (after_push s).1.grid.wf := a5 hg
  have hN : (after_push s).2.wf := a6 hg
  have hw : (after_push s).2.w = (after_push s).1.grid.w := a3.trans a1.symm
  have hh : (after_push s).2.h = (after_push s).1.grid.h := a4.trans a2.symm
  have hrel := after_push_next_grid s hg c
  have hidx := pickup_agent_index (after_push s).1 (after_push s).2
  unfold pre_scan
  simp only []
  rw [hidx]
  by_cases hp : get_obj_xy (after_push s).1 (after_push s).1.agent.x (after_push s).1.agent.y
        = DIRT
      ∨ get_obj_xy (after_push s).1 (after_push s).1.agent.x (after_push s).1.agent.y = MUD
      ∨ get_obj_xy (after_push s).1 (after_push s).1.agent.x (after_push s).1.agent.y
        = DIAMOND
  · obtain ⟨e1, e2⟩ := pickup_clears _ (after_push s).2 hp
    rw [e1, e2, Grid.get_index_set _ hN, Grid.get_index_set _ hQ,
      Grid.contains_congr _ _ hw hh, hw]
    by_cases hc : (after_push s).1.grid.contains (after_push s).1.agent.x
          (after_push s).1.agent.y = true
        ∧ (after_push s).1.agent.y * ((after_push s).1.grid.w : Int)
            + (after_push s).1.agent.x = c
    · rw [if_pos hc, if_pos hc]
      exact Or.inl rfl
    · rw [if_neg hc, if_neg hc]
      exact hrel
  · obtain ⟨e1, e2⟩ := pickup_keeps _ (after_push s).2 hp
    rw [e1, e2]
    exact hrel

/-! ## The agent's cell during the physics loop -/

theorem push_applies_set_facing (s : MinerGame) (d : Int) :
    push_applies (set_facing s) d ↔ push_applies s d := by
  obtain ⟨f1, _, _⟩ := set_facing_frame s
  obtain ⟨a1, a2, a3, a4⟩ := set_facing_agent s
  unfold push_applies get_obj_xy
  rw [f1, a1, a2, a3, a4]

/-- A write of the loop body that lands on the agent's cell, when that cell holds
SPACE, is the DEAD_PLAYER write of the crush branch. -/
theorem cell_writes_at_agent (P : MinerGame) (hsp : get_obj P (get_agent_index P) = SPACE)
    (i : Int) (p : Int × Int) (hp : p ∈ cell_writes P i) (ht : p.1 = get_agent_index P) :
    p.2 = DEAD_PLAYER ∧ cell_kills P i = true := by
  have hnr : ∀ j, j = get_agent_index P → ¬ (get_obj P j = BOULDER ∨ get_obj P j = MOVING_BOULDER
      ∨ get_obj P j = DIAMOND ∨ get_obj P j = MOVING_DIAMOND) := by
    intro j hj h
    rw [hj, hsp] at h
    revert h; decide
  rcases cell_writes_cases P i with ⟨_, hw, _⟩ | ⟨hobj, h⟩
  · rw [hw] at hp; cases hp
  · rcases h with ⟨_, hne, _, ty, _, hw⟩ | ⟨ha, hk, hw⟩ | ⟨hf, _, hw⟩ | ⟨hf, _, hw⟩ | ⟨_, hw⟩
    · rw [hw] at hp
      simp only [List.mem_cons, List.mem_singleton, List.not_mem_nil, or_false] at hp
      rcases hp with rfl | rfl
      · exact absurd hobj (hnr i ht)
      · exact absurd ht.symm hne
    · rw [hw] at hp
      simp only [List.mem_cons, List.mem_singleton, List.not_mem_nil, or_false] at hp
      subst hp
      exact ⟨rfl, hk⟩
    · rw [hw] at hp
      simp only [List.mem_cons, List.mem_singleton, List.not_mem_nil, or_false] at hp
      rcases hp with rfl | rfl
      · exact absurd hobj (hnr i ht)
      · exact absurd ht.symm hf.2
    · rw [hw] at hp
      simp only [List.mem_cons, List.mem_singleton, List.not_mem_nil, or_false] at hp
      rcases hp with rfl | rfl
      · exact absurd hobj (hnr i ht)
      · exact absurd ht.symm hf.2
    · rw [hw] at hp
      simp only [List.mem_cons, List.mem_singleton, List.not_mem_nil, or_false] at hp
      subst hp
      exact absurd hobj (hnr i ht)

/-- The pickup leaves SPACE under an agent that stands on SPACE, DIRT, MUD or
DIAMOND. -/
theorem pickup_agent_cell (Q : MinerGame) (ng : Grid) (hQ : Q.grid.wf)
    (hc : Q.grid.contains Q.agent.x Q.agent.y = true)
    (hobj : get_obj_xy Q Q.agent.x Q.agent.y = SPACE ∨ get_obj_xy Q Q.agent.x Q.agent.y = DIRT
      ∨ get_obj_xy Q Q.agent.x Q.agent.y = MUD ∨ get_obj_xy Q Q.agent.x Q.agent.y = DIAMOND) :
    get_obj (pickup Q ng).1 (get_agent_index (pickup Q ng).1) = SPACE := by
  rw [pickup_agent_index]
  unfold get_obj
  by_cases hp : get_obj_xy Q Q.agent.x Q.agent.y = DIRT ∨ get_obj_xy Q Q.agent.x Q.agent.y = MUD
      ∨ get_obj_xy Q Q.agent.x Q.agent.y = DIAMOND
  · rw [(pickup_clears Q ng hp).1, Grid.get_index_set _ hQ, if_pos ⟨hc, rfl⟩]
  · rw [(pickup_keeps Q ng hp).1]
    have h := get_obj_xy_eq Q _ _ hc
    unfold get_obj at h
    rw [get_agent_index_eq, ← h]
    rcases hobj with h1 | h1 | h1 | h1
    · exact h1
    · exact absurd (Or.inl h1) hp
    · exact absurd (Or.inr (Or.inl h1)) hp
    · exact absurd (Or.inr (Or.inr h1)) hp

/-- The agent's cell holds SPACE when the loop starts, if the agent stood on
SPACE, DIRT, MUD or DIAMOND or has just pushed a boulder. -/
theorem pre_scan_agent_cell (s : MinerGame) (hg : s.grid.wf)
    (hin : s.grid.contains s.agent.x s.agent.y = true)
    (h : get_obj_xy s s.agent.x s.agent.y = SPACE ∨ get_obj_xy s s.agent.x s.agent.y = DIRT
      ∨ get_obj_xy s s.agent.x s.agent.y = MUD ∨ get_obj_xy s s.agent.x s.agent.y = DIAMOND
      ∨ push_applies s 1 ∨ push_applies s (-1)) :
    get_obj (pre_scan s).1 (get_agent_index (pre_scan s).1) = SPACE := by
  obtain ⟨f1, _, _⟩ := set_facing_frame s
  obtain ⟨g1, g2, _, _⟩ := set_facing_agent s
  have hg' : (set_facing s).grid.wf := by rw [f1]; exact hg
  have hin' : (set_facing s).grid.contains (set_facing s).agent.x (set_facing s).agent.y
      = true := by rw [f1, g1, g2]; exact hin
  have hw : s.grid.w = (set_facing s).grid.w := by rw [f1]
  have hh : s.grid.h = (set_facing s).grid.h := by rw [f1]
  obtain ⟨a1, a2, a3, a4, a5, a6, _, _⟩ := handle_push_frame (set_facing s) s.grid
  have hQ : (after_push s).1.grid.wf := a5 hg'
  have hQc : (after_push s).1.grid.contains (after_push s).1.agent.x (after_push s).1.agent.y
      = true := by
    have := pre_scan_agent_in_grid s hin
    obtain ⟨b1, b2, _, _, _, _, _, b8⟩ := pickup_frame (after_push s).1 (after_push s).2
    unfold pre_scan at this
    simp only [] at this
    rw [b8, Grid.contains_iff, b1, b2] at this
    exact (Grid.contains_iff _ _ _).2 this
  have key : get_obj_xy (after_push s).1 (after_push s).1.agent.x (after_push s).1.agent.y = SPACE
      ∨ get_obj_xy (after_push s).1 (after_push s).1.agent.x (after_push s).1.agent.y = DIRT
      ∨ get_obj_xy (after_push s).1 (after_push s).1.agent.x (after_push s).1.agent.y = MUD
      ∨ get_obj_xy (after_push s).1 (after_push s).1.agent.x (after_push s).1.agent.y
          = DIAMOND := by
    unfold after_push
    by_cases hr : push_applies (set_facing s) 1
    · rw [handle_push_right _ _ hw hh hin' hr]
      left
      have hc1 : (set_facing s).grid.contains ((set_facing s).agent.x + 1)
          (set_facing s).agent.y = true := by
        apply Grid.contains_of_get_ne
        have := hr.2.2.1
        unfold get_obj_xy at this
        rw [this]; decide
      show get_obj_xy (set_obj_xy (set_facing s) ((set_facing s).agent.x + 1)
          (set_facing s).agent.y SPACE) ((set_facing s).agent.x + 1) (set_facing s).agent.y
          = SPACE
      rw [get_obj_xy_set_obj_xy _ hg', if_pos ⟨rfl, rfl, hc1⟩]
    · by_cases hl : push_applies (set_facing s) (-1)
      · rw [handle_push_left _ _ hw hh hin' hl]
        left
        have hc1 : (set_facing s).grid.contains ((set_facing s).agent.x - 1)
            (set_facing s).agent.y = true := by
          apply Grid.contains_of_get_ne
          have := hl.2.2.1
          unfold get_obj_xy at this
          have e : (set_facing s).agent.x + -1 = (set_facing s).agent.x - 1 := by ring
          rw [e] at this
          rw [this]; decide
        show get_obj_xy (set_obj_xy (set_facing s) ((set_facing s).agent.x - 1)
            (set_facing s).agent.y SPACE) ((set_facing s).agent.x - 1) (set_facing s).agent.y
            = SPACE
        rw [get_obj_xy_set_obj_xy _ hg', if_pos ⟨rfl, rfl, hc1⟩]
      · rw [handle_push_none _ _ hin' hr hl]
        have hr' := fun c => hr ((push_applies_set_facing s 1).2 c)
        have hl' := fun c => hl ((push_applies_set_facing s (-1)).2 c)
        have e : get_obj_xy (set_facing s) (set_facing s).agent.x (set_facing s).agent.y
            = get_obj_xy s s.agent.x s.agent.y := by
          unfold get_obj_xy; rw [f1, g1, g2]
        show get_obj_xy (set_facing s) (set_facing s).agent.x (set_facing s).agent.y = SPACE
          ∨ get_obj_xy (set_facing s) (set_facing s).agent.x (set_facing s).agent.y = DIRT
          ∨ get_obj_xy (set_facing s) (set_facing s).agent.x (set_facing s).agent.y = MUD
          ∨ get_obj_xy (set_facing s) (set_facing s).agent.x (set_facing s).agent.y = DIAMOND
        rw [e]
        rcases h with h | h | h | h | h | h
        · exact Or.inl h
        · exact Or.inr (Or.inl h)
        · exact Or.inr (Or.inr (Or.inl h))
        · exact Or.inr (Or.inr (Or.inr h))
        · exact absurd h hr'
        · exact absurd h hl'
  exact pickup_agent_cell (after_push s).1 (after_push s).2 hQ hQc key

/-- C20: no object is moved into the agent's cell.  On a live game with the agent
on a cell of the grid: (1) the agent's cell holds SPACE when the physics loop
starts if the agent stood on SPACE, DIRT, MUD or DIAMOND, or if a push applied;
(2) whenever the agent's cell holds SPACE when the loop starts, the agent's cell
is the same cell after the step, the next grid holds SPACE there when the loop
starts (the pushed boulder is not written there), every write of the loop body
that lands on that cell writes DEAD_PLAYER, the committed grid holds SPACE or
DEAD_PLAYER there, and it holds DEAD_PLAYER exactly when the step ends with
`died = true`. -/
theorem agent_cell_space_or_dead (s : MinerGame) (hg : s.grid.wf) (hd : s.died = false)
    (hin : s.grid.contains s.agent.x s.agent.y = true) :
    ((get_obj_xy s s.agent.x s.agent.y = SPACE ∨ get_obj_xy s s.agent.x s.agent.y = DIRT
        ∨ get_obj_xy s s.agent.x s.agent.y = MUD ∨ get_obj_xy s s.agent.x s.agent.y = DIAMOND
        ∨ push_applies s 1 ∨ push_applies s (-1)) →
      get_obj (pre_scan s).1 (get_agent_index (pre_scan s).1) = SPACE)
    ∧ (get_obj (pre_scan s).1 (get_agent_index (pre_scan s).1) = SPACE →
        get_agent_index (game_step s) = get_agent_index (pre_scan s).1
        ∧ (pre_scan s).2.get_index (get_agent_index (pre_scan s).1) = SPACE
        ∧ (∀ i p, p ∈ cell_writes (pre_scan s).1 i → p.1 = get_agent_index (pre_scan s).1 →
            p.2 = DEAD_PLAYER)
        ∧ (get_obj (game_step s) (get_agent_index (game_step s)) = SPACE
            ∨ get_obj (game_step s) (get_agent_index (game_step s)) = DEAD_PLAYER)
        ∧ (get_obj (game_step s) (get_agent_index (game_step s)) = DEAD_PLAYER
            ↔ (game_step s).died = true)) := by
  refine ⟨pre_scan_agent_cell s hg hin, ?_⟩
  intro hsp
  obtain ⟨p1, p2, p3, p4, p5, p6, p7⟩ := pre_scan_frame s hg
  obtain ⟨e1, e2, _, _, e5⟩ := game_step_alive s hg hd
  have hPc := pre_scan_agent_in_grid s hin
  obtain ⟨hb0, hb1⟩ := Grid.contains_index_of_contains _ _ _ hPc
  rw [← get_agent_index_eq] at hb0 hb1
  have hNGa : (pre_scan s).2.area = (pre_scan s).1.grid.area := by
    unfold Grid.area; rw [p3, p4]
  -- the agent's index after the step
  have hidx : get_agent_index (game_step s) = get_agent_index (pre_scan s).1 := by
    unfold get_agent_index MinerGame.main_width
    rw [e5, e1, apply_writes_w, p3]
  -- the next grid at the agent's cell
  have hNG : (pre_scan s).2.get_index (get_agent_index (pre_scan s).1) = SPACE := by
    rcases pre_scan_next_grid s hg (get_agent_index (pre_scan s).1) with h | ⟨_, _, h⟩
    · rw [h]; exact hsp
    · exact absurd rfl h
  have hW : ∀ i p, p ∈ cell_writes (pre_scan s).1 i → p.1 = get_agent_index (pre_scan s).1 →
      p.2 = DEAD_PLAYER ∧ cell_kills (pre_scan s).1 i = true :=
    fun i p hp ht => cell_writes_at_agent _ hsp i p hp ht
  have hcases := apply_writes_get_cases
    ((indices ((pre_scan s).1.main_width * (pre_scan s).1.main_height)).flatMap
      (cell_writes (pre_scan s).1)) (pre_scan s).2 p2 (get_agent_index (pre_scan s).1)
  rw [← e1] at hcases
  have hdied : (game_step s).died = true
      ↔ ∃ i ∈ indices ((pre_scan s).1.main_width * (pre_scan s).1.main_height),
          cell_kills (pre_scan s).1 i = true := by
    rw [e2, List.any_eq_true]
  refine ⟨hidx, hNG, fun i p hp ht => (hW i p hp ht).1, ?_, ?_⟩
  · rw [hidx]
    unfold get_obj
    rcases hcases with ⟨h, _⟩ | ⟨p, hp, ht, h⟩
    · left; rw [h, hNG]
    · right
      obtain ⟨i, _, hpi⟩ := List.mem_flatMap.1 hp
      rw [h]; exact (hW i p hpi ht).1
  · rw [hidx, hdied]
    unfold get_obj
    constructor
    · intro hD
      rcases hcases with ⟨h, _⟩ | ⟨p, hp, ht, h⟩
      · rw [h, hNG] at hD
        exact absurd hD (by decide)
      · obtain ⟨i, hi, hpi⟩ := List.mem_flatMap.1 hp
        exact ⟨i, hi, (hW i p hpi ht).2⟩
    · rintro ⟨i, hi, hk⟩
      have hcw : cell_writes (pre_scan s).1 i
          = [(get_agent_index (pre_scan s).1, DEAD_PLAYER)] := by
        rcases cell_writes_cases (pre_scan s).1 i with ⟨_, _, hk2⟩ | ⟨_, h⟩
        · rw [hk] at hk2; cases hk2
        · rcases h with ⟨_, _, hk2, _⟩ | ⟨ha, _, hw⟩ | ⟨_, hk2, _⟩ | ⟨_, hk2, _⟩ | ⟨hk2, _⟩
          · rw [hk] at hk2; cases hk2
          · rw [hw, ha]
          · rw [hk] at hk2; cases hk2
          · rw [hk] at hk2; cases hk2
          · rw [hk] at hk2; cases hk2
      have hmem : ((get_agent_index (pre_scan s).1, DEAD_PLAYER) : Int × Int)
          ∈ (indices ((pre_scan s).1.main_width * (pre_scan s).1.main_height)).flatMap
              (cell_writes (pre_scan s).1) :=
        List.mem_flatMap.2 ⟨i, hi, by rw [hcw]; exact List.mem_singleton.2 rfl⟩
      rcases hcases with ⟨_, h⟩ | ⟨p, hp, ht, h⟩
      · exact absurd ⟨hb0, by rw [hNGa]; exact hb1⟩ (h _ hmem rfl)
      · obtain ⟨j, _, hpj⟩ := List.mem_flatMap.1 hp
        rw [h]; exact (hW j p hpj ht).1

/-- C20 on the 1x3 shaft: the agent stands on SPACE at the bottom with a falling
boulder directly above; the step ends with `died = true` and the agent's cell
holds DEAD_PLAYER. -/
theorem agent_cell_space_or_dead_witness :
    (shaft_1x3.wf ∧ (game_on shaft_1x3 0 0 0 2).died = false
      ∧ shaft_1x3.contains 0 0 = true
      ∧ get_obj (pre_scan (game_on shaft_1x3 0 0 0 2)).1
          (get_agent_index (pre_scan (game_on shaft_1x3 0 0 0 2)).1) = SPACE)
    ∧ (get_obj (game_step (game_on shaft_1x3 0 0 0 2))
          (get_agent_index (game_step (game_on shaft_1x3 0 0 0 2))) = DEAD_PLAYER
        ↔ (game_step (game_on shaft_1x3 0 0 0 2)).died = true) :=
  ⟨⟨by decide, rfl, by decide, by decide⟩,
    ((agent_cell_space_or_dead (game_on shaft_1x3 0 0 0 2) (by decide) rfl (by decide)).2
      (by decide)).2.2.2.2⟩

/-! ## Diamonds are never created -/

theorem not_diamond_codes :
    get_stationary_type SPACE ≠ DIAMOND ∧ get_stationary_type BOULDER ≠ DIAMOND
    ∧ get_stationary_type DEAD_PLAYER ≠ DIAMOND := by decide

/-- The push writes nothing but SPACE into the live grid. -/
theorem handle_push_live_grid (t : MinerGame) (ng : Grid) (hg : t.grid.wf) (c : Int) :
    (handle_push t ng).1.grid.get_index c = t.grid.get_index c
    ∨ (handle_push t ng).1.grid.get_index c = SPACE := by
  by_cases hR : t.action_vx = 1 ∧ t.agent.vx = 0
      ∧ Int.tmod (get_agent_index t) t.main_width < t.main_width - 2
      ∧ get_obj t (get_agent_index t + 1) = BOULDER ∧ get_obj t (get_agent_index t + 2) = SPACE
  · have e : (handle_push t ng).1.grid = t.grid.set_index (get_agent_index t + 1) SPACE := by
      unfold handle_push; simp only []; rw [if_pos hR]; rfl
    rw [e, Grid.get_index_set_index _ hg]
    by_cases h : get_agent_index t + 1 = c ∧ 0 ≤ get_agent_index t + 1
        ∧ get_agent_index t + 1 < t.grid.area
    · rw [if_pos h]; exact Or.inr rfl
    · rw [if_neg h]; exact Or.inl rfl
  · by_cases hL : t.action_vx = -1 ∧ t.agent.vx = 0
        ∧ Int.tmod (get_agent_index t) t.main_width > 1
        ∧ get_obj t (get_agent_index t - 1) = BOULDER
        ∧ get_obj t (get_agent_index t - 2) = SPACE
    · have e : (handle_push t ng).1.grid = t.grid.set_index (get_agent_index t - 1) SPACE := by
        unfold handle_push; simp only []; rw [if_neg hR, if_pos hL]; rfl
      rw [e, Grid.get_index_set_index _ hg]
      by_cases h : get_agent_index t - 1 = c ∧ 0 ≤ get_agent_index t - 1
          ∧ get_agent_index t - 1 < t.grid.area
      · rw [if_pos h]; exact Or.inr rfl
      · rw [if_neg h]; exact Or.inl rfl
    · have e : (handle_push t ng).1.grid = t.grid := by
        unfold handle_push; simp only []; rw [if_neg hR, if_neg hL]
      rw [e]; exact Or.inl rfl

/-- The push and the pickup write nothing but SPACE into the live grid. -/
theorem pre_scan_live_grid (s : MinerGame) (hg : s.grid.wf) (c : Int) :
    (pre_scan s).1.grid.get_index c = s.grid.get_index c
    ∨ (pre_scan s).1.grid.get_index c = SPACE := by
  obtain ⟨f1, _, _⟩ := set_facing_frame s
  have hg' : (set_facing s).grid.wf := by rw [f1]; exact hg
  have hQ : (after_push s).1.grid.wf := (handle_push_frame (set_facing s) s.grid).2.2.2.2.1 hg'
  have h1 : (after_push s).1.grid.get_index c = s.grid.get_index c
      ∨ (after_push s).1.grid.get_index c = SPACE := by
    have h := handle_push_live_grid (set_facing s) s.grid hg' c
    rw [f1] at h
    exact h
  unfold pre_scan
  simp only []
  by_cases hp : get_obj_xy (after_push s).1 (after_push s).1.agent.x (after_push s).1.agent.y
        = DIRT
      ∨ get_obj_xy (after_push s).1 (after_push s).1.agent.x (after_push s).1.agent.y = MUD
      ∨ get_obj_xy (after_push s).1 (after_push s).1.agent.x (after_push s).1.agent.y
        = DIAMOND
  · rw [(pickup_clears _ (after_push s).2 hp).1, Grid.get_index_set _ hQ]
    by_cases hc : (after_push s).1.grid.contains (after_push s).1.agent.x
          (after_push s).1.agent.y = true
        ∧ (after_push s).1.agent.y * ((after_push s).1.grid.w : Int)
            + (after_push s).1.agent.x = c
    · rw [if_pos hc]; exact Or.inr rfl
    · rw [if_neg hc]; exact h1
  · rw [(pickup_keeps _ (after_push s).2 hp).1]
    exact h1

/-- A write of a diamond by the loop body comes from a cell that holds a
diamond. -/
theorem diamond_write_source (P : MinerGame) (i : Int) (p : Int × Int)
    (hp : p ∈ cell_writes P i) (hD : get_stationary_type p.2 = DIAMOND) :
    get_stationary_type (get_obj P i) = DIAMOND := by
  obtain ⟨n1, _, n3⟩ := not_diamond_codes
  rcases cell_writes_cases P i with ⟨_, hw, _⟩ | ⟨hobj, h⟩
  · rw [hw] at hp; cases hp
  · obtain ⟨_, _, _, _, r5, r6⟩ := round_types _ hobj
    rcases h with ⟨_, _, _, ty, hty, hw⟩ | ⟨_, _, hw⟩ | ⟨_, _, hw⟩ | ⟨_, _, hw⟩ | ⟨_, hw⟩
    · rw [hw] at hp
      simp only [List.mem_cons, List.mem_singleton, List.not_mem_nil, or_false] at hp
      rcases hp with rfl | rfl
      · exact absurd hD n1
      · rcases hty with rfl | rfl
        · exact r6.1 hD
        · exact r5.1 hD
    · rw [hw] at hp
      simp only [List.mem_cons, List.mem_singleton, List.not_mem_nil, or_false] at hp
      subst hp
      exact absurd hD n3
    · rw [hw] at hp
      simp only [List.mem_cons, List.mem_singleton, List.not_mem_nil, or_false] at hp
      rcases hp with rfl | rfl
      · exact absurd hD n1
      · exact r5.1 hD
    · rw [hw] at hp
      simp only [List.mem_cons, List.mem_singleton, List.not_mem_nil, or_false] at hp
      rcases hp with rfl | rfl
      · exact absurd hD n1
      · exact r5.1 hD
    · rw [hw] at hp
      simp only [List.mem_cons, List.mem_singleton, List.not_mem_nil, or_false] at hp
      subst hp
      exact r5.1 hD

theorem diamond_target_two (i a v : Int) :
    ∃ t : Int, (∀ p ∈ [(i, SPACE), (a, v)], get_stationary_type p.2 = DIAMOND → p.1 = t)
      ∧ ((∀ p ∈ [(i, SPACE), (a, v)], get_stationary_type p.2 ≠ DIAMOND) → t = i) := by
  by_cases hv : get_stationary_type v = DIAMOND
  · refine ⟨a, ?_, ?_⟩
    · intro p hp hD
      simp only [List.mem_cons, List.mem_singleton, List.not_mem_nil, or_false] at hp
      rcases hp with rfl | rfl
      · exact absurd hD not_diamond_codes.1
      · rfl
    · intro h
      exact absurd hv (h (a, v) (by simp))
  · exact ⟨i, fun p hp hD => by
      simp only [List.mem_cons, List.mem_singleton, List.not_mem_nil, or_false] at hp
      rcases hp with rfl | rfl
      · rfl
      · exact absurd hD hv, fun _ => rfl⟩

theorem diamond_target_one (i a v : Int) :
    ∃ t : Int, (∀ p ∈ [(a, v)], get_stationary_type p.2 = DIAMOND → p.1 = t)
      ∧ ((∀ p ∈ [(a, v)], get_stationary_type p.2 ≠ DIAMOND) → t = i) := by
  by_cases hv : get_stationary_type v = DIAMOND
  · refine ⟨a, ?_, ?_⟩
    · intro p hp _
      simp only [List.mem_cons, List.mem_singleton, List.not_mem_nil, or_false] at hp
      rw [hp]
    · intro h
      exact absurd hv (h (a, v) (by simp))
  · exact ⟨i, fun p hp hD => by
      simp only [List.mem_cons, List.mem_singleton, List.not_mem_nil, or_false] at hp
      subst hp
      exact absurd hD hv, fun _ => rfl⟩

/-- The loop body at one index writes a diamond into at most one cell. -/
theorem diamond_write_target (P : MinerGame) (i : Int) :
    ∃ t : Int, (∀ p ∈ cell_writes P i, get_stationary_type p.2 = DIAMOND → p.1 = t)
      ∧ ((∀ p ∈ cell_writes P i, get_stationary_type p.2 ≠ DIAMOND) → t = i) := by
  rcases cell_writes_cases P i with ⟨_, hw, _⟩ | ⟨_, h⟩
  · rw [hw]
    exact ⟨i, ⟨fun p hp _ => absurd hp (List.not_mem_nil p), fun _ => rfl⟩⟩
  · rcases h with ⟨_, _, _, ty, _, hw⟩ | ⟨_, _, hw⟩ | ⟨_, _, hw⟩ | ⟨_, _, hw⟩ | ⟨_, hw⟩
    · rw [hw]; exact diamond_target_two _ _ _
    · rw [hw]; exact diamond_target_one _ _ _
    · rw [hw]; exact diamond_target_two _ _ _
    · rw [hw]; exact diamond_target_two _ _ _
    · rw [hw]; exact diamond_target_one _ _ _

/-- A round object that is visited by the loop and does not take the crush
branch has its own cell written. -/
theorem cell_writes_own_cell (P : MinerGame) (i : Int)
    (hobj : get_obj P i = BOULDER ∨ get_obj P i = MOVING_BOULDER ∨ get_obj P i = DIAMOND
      ∨ get_obj P i = MOVING_DIAMOND) :
    (∃ p ∈ cell_writes P i, p.1 = i)
    ∨ (∀ p ∈ cell_writes P i, get_stationary_type p.2 ≠ DIAMOND) := by
  rcases cell_writes_cases P i with ⟨hn, _, _⟩ | ⟨_, h⟩
  · exact absurd hobj hn
  · rcases h with ⟨_, _, _, ty, _, hw⟩ | ⟨_, _, hw⟩ | ⟨_, _, hw⟩ | ⟨_, _, hw⟩ | ⟨_, hw⟩
    · left; rw [hw]; exact ⟨(i, SPACE), by simp, rfl⟩
    · right; rw [hw]
      intro p hp
      simp only [List.mem_cons, List.mem_singleton, List.not_mem_nil, or_false] at hp
      rw [hp]; exact not_diamond_codes.2.2
    · left; rw [hw]; exact ⟨(i, SPACE), by simp, rfl⟩
    · left; rw [hw]; exact ⟨(i, SPACE), by simp, rfl⟩
    · left; rw [hw]; exact ⟨(i, get_stationary_type (get_obj P i)), by simp, rfl⟩

theorem diamond_is_round (v : Int) (h : get_stationary_type v = DIAMOND) :
    v = BOULDER ∨ v = MOVING_BOULDER ∨ v = DIAMOND ∨ v = MOVING_DIAMOND := by
  unfold get_stationary_type at h
  split at h
  · rename_i h1; exact Or.inr (Or.inr (Or.inr h1))
  · split at h
    · rename_i h1; exact Or.inr (Or.inl h1)
    · exact Or.inr (Or.inr (Or.inl h))

theorem countP_le_of_image (L : List Int) (hL : L.Nodup) (A B : Int → Bool) (g : Int → Int)
    (h : ∀ c ∈ L, A c = true → ∃ i ∈ L, B i = true ∧ g i = c) :
    L.countP A ≤ L.countP B := by
  rw [List.countP_eq_length_filter, List.countP_eq_length_filter]
  have hsub : L.filter A ⊆ (L.filter B).map g := by
    intro c hc
    obtain ⟨hcL, hcA⟩ := List.mem_filter.1 hc
    obtain ⟨i, hi, hB, hgi⟩ := h c hcL hcA
    exact List.mem_map.2 ⟨i, List.mem_filter.2 ⟨hi, hB⟩, hgi⟩
  have h2 := (List.subperm_of_subset (hL.filter _) hsub).length_le
  rwa [List.length_map] at h2

/-- C19: a step never creates a diamond.  For every game on a well-formed grid,
dead or alive, whatever the action and wherever the agent, the number of cells
classified DIAMOND (DIAMOND and MOVING_DIAMOND) in the grid after `game_step` is
at most the number of such cells in the grid before it. -/
theorem step_creates_no_diamond (s : MinerGame) (hg : s.grid.wf) :
    diamond_cells (game_step s) ≤ diamond_cells s := by
  by_cases hd : s.died = true
  · rw [game_step_of_died s hd]; exact le_refl _
  · have hd' : s.died = false := by simpa using hd
    obtain ⟨p1, p2, p3, p4, p5, p6, p7⟩ := pre_scan_frame s hg
    obtain ⟨e1, _⟩ := game_step_alive s hg hd'
    have hPw : (pre_scan s).1.main_width = s.main_width := by
      unfold MinerGame.main_width; rw [p5]
    have hPh : (pre_scan s).1.main_height = s.main_height := by
      unfold MinerGame.main_height; rw [p6]
    have hw : (game_step s).main_width = s.main_width := by
      unfold MinerGame.main_width; rw [e1, apply_writes_w, p3, p5]
    have hh : (game_step s).main_height = s.main_height := by
      unfold MinerGame.main_height; rw [e1, apply_writes_h, p4, p6]
    rw [hPw, hPh] at e1
    have hNGa : (pre_scan s).2.area = s.main_width * s.main_height := by
      unfold Grid.area MinerGame.main_width MinerGame.main_height; rw [p3, p4, p5, p6]
    choose g hg1 hg2 using diamond_write_target (pre_scan s).1
    have step1 : (indices (s.main_width * s.main_height)).countP
          (fun c => decide (get_stationary_type (get_obj (game_step s) c) = DIAMOND))
        ≤ (indices (s.main_width * s.main_height)).countP
          (fun c => decide (get_stationary_type (get_obj (pre_scan s).1 c) = DIAMOND)) := by
      apply countP_le_of_image _ (indices_nodup _) _ _ g
      intro c hc hA
      have hA' : get_stationary_type ((game_step s).grid.get_index c) = DIAMOND := by
        simpa [get_obj] using hA
      have hcb := (mem_indices _ _).1 hc
      rcases apply_writes_get_cases
          ((indices (s.main_width * s.main_height)).flatMap (cell_writes (pre_scan s).1))
          (pre_scan s).2 p2 c with ⟨h, hno⟩ | ⟨p, hp, ht, h⟩
      · rw [e1, h] at hA'
        have hlive : get_stationary_type (get_obj (pre_scan s).1 c) = DIAMOND := by
          rcases pre_scan_next_grid s hg c with h2 | ⟨h2, _, _⟩
          · unfold get_obj; rw [← h2]; exact hA'
          · rw [h2] at hA'; exact absurd hA' not_diamond_codes.2.1
        refine ⟨c, hc, by simpa using hlive, ?_⟩
        apply hg2
        rcases cell_writes_own_cell (pre_scan s).1 c (diamond_is_round _ hlive) with
          ⟨q, hq, hqc⟩ | hnone
        · exact absurd ⟨hcb.1, by rw [hNGa]; exact hcb.2⟩
            (hno q (List.mem_flatMap.2 ⟨c, hc, hq⟩) hqc)
        · exact hnone
      · rw [e1, h] at hA'
        obtain ⟨i, hi, hpi⟩ := List.mem_flatMap.1 hp
        refine ⟨i, hi, ?_, ?_⟩
        · simpa using diamond_write_source _ i p hpi hA'
        · rw [← ht]; exact (hg1 i p hpi hA').symm
    have step2 : (indices (s.main_width * s.main_height)).countP
          (fun c => decide (get_stationary_type (get_obj (pre_scan s).1 c) = DIAMOND))
        ≤ (indices (s.main_width * s.main_height)).countP
          (fun c => decide (get_stationary_type (get_obj s c) = DIAMOND)) := by
      apply List.countP_mono_left
      intro c _ hP
      have hP' : get_stationary_type ((pre_scan s).1.grid.get_index c) = DIAMOND := by
        simpa [get_obj] using hP
      rcases pre_scan_live_grid s hg c with h | h
      · rw [h] at hP'; simpa [get_obj] using hP'
      · rw [h] at hP'; exact absurd hP' not_diamond_codes.1
    unfold diamond_cells
    rw [hw, hh]
    exact le_trans step1 step2

/-- C19 on the 2x3 cave: the diamond that rolls into the cell under the falling
boulder is overwritten, and the count goes from one to at most one. -/
theorem step_creates_no_diamond_witness :
    cave_2x3.wf
    ∧ diamond_cells (game_step (game_on cave_2x3 0 0 1 2))
        ≤ diamond_cells (game_on cave_2x3 0 0 1 2) :=
  ⟨by decide, step_creates_no_diamond (game_on cave_2x3 0 0 1 2) (by decide)⟩

/-! ## All writes of a step are in bounds -/

/-- The push of `handle_push`, as the writes of `push_writes` on the next grid
and of `push_live_writes` on the live grid. -/
theorem handle_push_writes (t : MinerGame) (ng : Grid) :
    (handle_push t ng).2 = apply_writes (push_writes t) ng
    ∧ (handle_push t ng).1.grid = apply_writes (push_live_writes t) t.grid := by
  by_cases hR : t.action_vx = 1 ∧ t.agent.vx = 0
      ∧ Int.tmod (get_agent_index t) t.main_width < t.main_width - 2
      ∧ get_obj t (get_agent_index t + 1) = BOULDER ∧ get_obj t (get_agent_index t + 2) = SPACE
  · unfold handle_push push_writes push_live_writes
    simp only []
    rw [if_pos hR, if_pos hR, if_pos hR]
    exact ⟨rfl, rfl⟩
  · by_cases hL : t.action_vx = -1 ∧ t.agent.vx = 0
        ∧ Int.tmod (get_agent_index t) t.main_width > 1
        ∧ get_obj t (get_agent_index t - 1) = BOULDER
        ∧ get_obj t (get_agent_index t - 2) = SPACE
    · unfold handle_push push_writes push_live_writes
      simp only []
      rw [if_neg hR, if_neg hR, if_neg hR, if_pos hL, if_pos hL, if_pos hL]
      exact ⟨rfl, rfl⟩
    · unfold handle_push push_writes push_live_writes
      simp only []
      rw [if_neg hR, if_neg hR, if_neg hR, if_neg hL, if_neg hL, if_neg hL]
      exact ⟨rfl, rfl⟩

/-- An index shifted inside its row keeps its row. -/
theorem row_of_shift (a w k : Int) (hw : 0 < w) (h0 : 0 ≤ a % w + k) (h1 : a % w + k < w) :
    (a + k) / w = a / w := by
  have e := Int.emod_add_ediv a w
  exact ((Int.ediv_emod_unique hw).2 ⟨by linarith, h0, h1⟩).1

/-- The targets of the push and the agent's index after it, for an agent whose
index is not negative. -/
theorem push_writes_cases (t : MinerGame) (ha : 0 ≤ get_agent_index t) :
    (push_writes t = [] ∧ push_live_writes t = []
      ∧ get_agent_index (handle_push t t.grid).1 = get_agent_index t)
    ∨ (∃ d : Int, (d = 1 ∨ d = -1)
        ∧ push_writes t = [(get_agent_index t + d, SPACE), (get_agent_index t + 2 * d, BOULDER)]
        ∧ push_live_writes t = [(get_agent_index t + d, SPACE)]
        ∧ get_agent_index (handle_push t t.grid).1 = get_agent_index t + d
        ∧ (0 ≤ get_agent_index t + d ∧ get_agent_index t + d < t.grid.area)
        ∧ (0 ≤ get_agent_index t + 2 * d ∧ get_agent_index t + 2 * d < t.grid.area)
        ∧ (get_agent_index t + d) / t.main_width = get_agent_index t / t.main_width
        ∧ (get_agent_index t + 2 * d) / t.main_width = get_agent_index t / t.main_width) := by
  by_cases hR : t.action_vx = 1 ∧ t.agent.vx = 0
      ∧ Int.tmod (get_agent_index t) t.main_width < t.main_width - 2
      ∧ get_obj t (get_agent_index t + 1) = BOULDER ∧ get_obj t (get_agent_index t + 2) = SPACE
  · right
    have b1 := in_grid_of_get_obj_ne t (get_agent_index t + 1) (by rw [hR.2.2.2.1]; decide)
    have b2 := in_grid_of_get_obj_ne t (get_agent_index t + 2) (by rw [hR.2.2.2.2]; decide)
    have hw := main_width_pos_of_index t _ b1.1 b1.2
    have hx := hR.2.2.1
    rw [Int.tmod_eq_emod ha (by omega)] at hx
    have hx0 := Int.emod_nonneg (get_agent_index t) (show t.main_width ≠ 0 by omega)
    have e : handle_push t t.grid
        = ({ set_obj t (get_agent_index t + 1) SPACE with
              agent := { t.agent with x := t.agent.x + 1 } },
            (t.grid.set_index (get_agent_index t + 1) SPACE).set_index
              (get_agent_index t + 2) BOULDER) := by
      unfold handle_push; simp only []; rw [if_pos hR]; rfl
    have hidx : get_agent_index ({ set_obj t (get_agent_index t + 1) SPACE with
        agent := { t.agent with x := t.agent.x + 1 } } : MinerGame)
        = get_agent_index t + 1 := by
      unfold get_agent_index MinerGame.main_width set_obj
      simp only [Grid.set_index_w]
      ring
    refine ⟨1, Or.inl rfl, ?_, ?_, ?_, b1, b2, ?_, ?_⟩
    · unfold push_writes; simp only []; rw [if_pos hR]; rfl
    · unfold push_live_writes; simp only []; rw [if_pos hR]
    · rw [e]; exact hidx
    · exact row_of_shift _ _ _ (by omega) (by omega) (by omega)
    · exact row_of_shift _ _ _ (by omega) (by omega) (by omega)
  · by_cases hL : t.action_vx = -1 ∧ t.agent.vx = 0
        ∧ Int.tmod (get_agent_index t) t.main_width > 1
        ∧ get_obj t (get_agent_index t - 1) = BOULDER
        ∧ get_obj t (get_agent_index t - 2) = SPACE
    · right
      have b1 := in_grid_of_get_obj_ne t (get_agent_index t - 1) (by rw [hL.2.2.2.1]; decide)
      have b2 := in_grid_of_get_obj_ne t (get_agent_index t - 2) (by rw [hL.2.2.2.2]; decide)
      have hw := main_width_pos_of_index t _ b1.1 b1.2
      have hx := hL.2.2.1
      rw [Int.tmod_eq_emod ha (by omega)] at hx
      have hx1 := Int.emod_lt_of_pos (get_agent_index t) (show 0 < t.main_width by omega)
      have e : handle_push t t.grid
          = ({ set_obj t (get_agent_index t - 1) SPACE with
                agent := { t.agent with x := t.agent.x - 1 } },
              (t.grid.set_index (get_agent_index t - 1) SPACE).set_index
                (get_agent_index t - 2) BOULDER) := by
        unfold handle_push; simp only []; rw [if_neg hR, if_pos hL]; rfl
      have hidx : get_agent_index ({ set_obj t (get_agent_index t - 1) SPACE with
          agent := { t.agent with x := t.agent.x - 1 } } : MinerGame)
          = get_agent_index t - 1 := by
        unfold get_agent_index MinerGame.main_width set_obj
        simp only [Grid.set_index_w]
        ring
      have d1 : get_agent_index t + -1 = get_agent_index t - 1 := by ring
      have d2 : get_agent_index t + 2 * -1 = get_agent_index t - 2 := by ring
      refine ⟨-1, Or.inr rfl, ?_, ?_, ?_, ?_, ?_, ?_, ?_⟩
      · rw [d1, d2]; unfold push_writes; simp only []; rw [if_neg hR, if_pos hL]
      · rw [d1]; unfold push_live_writes; simp only []; rw [if_neg hR, if_pos hL]
      · rw [d1, e]; exact hidx
      · rw [d1]; exact b1
      · rw [d2]; exact b2
      · exact row_of_shift _ _ _ (by omega) (by omega) (by omega)
      · exact row_of_shift _ _ _ (by omega) (by omega) (by omega)
    · left
      refine ⟨?_, ?_, ?_⟩
      · unfold push_writes; simp only []; rw [if_neg hR, if_neg hL]
      · unfold push_live_writes; simp only []; rw [if_neg hR, if_neg hL]
      · have e : handle_push t t.grid = (t, t.grid) := by
          unfold handle_push; simp only []; rw [if_neg hR, if_neg hL]
        rw [e]

theorem push_writes_set_facing (s : MinerGame) :
    push_writes (set_facing s) = push_writes s
    ∧ push_live_writes (set_facing s) = push_live_writes s
    ∧ get_agent_index (set_facing s) = get_agent_index s := by
  obtain ⟨f1, _, _⟩ := set_facing_frame s
  obtain ⟨a1, a2, a3, a4⟩ := set_facing_agent s
  unfold push_writes push_live_writes get_agent_index get_obj MinerGame.main_width
  simp only []
  rw [f1, a1, a2, a3, a4]
  exact ⟨rfl, rfl, rfl⟩

/-- The branch of the loop body that is taken at an index, with what its guard
says and with its writes. -/
theorem scan_branch_cases (s : MinerGame) (i : Int) :
    (scan_branch s i = ScanBranch.skip ∧ cell_writes s i = [])
    ∨ (scan_branch s i = ScanBranch.fall ∧ get_obj s (i - s.main_width) = SPACE
        ∧ get_agent_index s ≠ i - s.main_width
        ∧ ∃ ty, cell_writes s i = [(i, SPACE), (i - s.main_width, ty)])
    ∨ (scan_branch s i = ScanBranch.crush ∧ get_agent_index s = i - s.main_width
        ∧ cell_writes s i = [(i - s.main_width, DEAD_PLAYER)])
    ∨ (scan_branch s i = ScanBranch.roll_left
        ∧ is_round (get_obj s (i - s.main_width)) = true
        ∧ Int.tmod i s.main_width > 0 ∧ free_cell s (i - 1)
        ∧ cell_writes s i = [(i, SPACE), (i - 1, get_stationary_type (get_obj s i))])
    ∨ (scan_branch s i = ScanBranch.roll_right
        ∧ is_round (get_obj s (i - s.main_width)) = true
        ∧ Int.tmod i s.main_width < s.main_width - 1 ∧ free_cell s (i + 1)
        ∧ cell_writes s i = [(i, SPACE), (i + 1, get_stationary_type (get_obj s i))])
    ∨ (scan_branch s i = ScanBranch.stay
        ∧ cell_writes s i = [(i, get_stationary_type (get_obj s i))]) := by
  by_cases hobj : get_obj s i = BOULDER ∨ get_obj s i = MOVING_BOULDER ∨ get_obj s i = DIAMOND
      ∨ get_obj s i = MOVING_DIAMOND
  · by_cases h2 : get_obj s (i - s.main_width) = SPACE
        ∧ decide (get_agent_index s = i - s.main_width) = false
    · have hne : get_agent_index s ≠ i - s.main_width := by simpa using h2.2
      refine Or.inr (Or.inl ⟨?_, h2.1, hne,
        (if get_obj s (i - s.main_width - s.main_width) = SPACE
          then get_moving_type (get_obj s i) else get_stationary_type (get_obj s i)), ?_⟩)
      · unfold scan_branch; simp only []; rw [if_pos hobj, if_pos h2]
      · unfold cell_writes; simp only []; rw [if_pos hobj, if_pos h2]
    · by_cases h3 : decide (get_agent_index s = i - s.main_width) = true
          ∧ is_moving (get_obj s i) = true
      · have he : get_agent_index s = i - s.main_width := by simpa using h3.1
        refine Or.inr (Or.inr (Or.inl ⟨?_, he, ?_⟩))
        · unfold scan_branch; simp only []; rw [if_pos hobj, if_neg h2, if_pos h3]
        · unfold cell_writes; simp only []; rw [if_pos hobj, if_neg h2, if_pos h3]
      · by_cases h4 : is_round (get_obj s (i - s.main_width)) = true
            ∧ Int.tmod i s.main_width > 0 ∧ is_free s (i - 1) = true
            ∧ is_free s (i - s.main_width - 1) = true
        · refine Or.inr (Or.inr (Or.inr (Or.inl
            ⟨?_, h4.1, h4.2.1, (free_cell_iff s _).1 h4.2.2.1, ?_⟩)))
          · unfold scan_branch; simp only []
            rw [if_pos hobj, if_neg h2, if_neg h3, if_pos h4]
          · unfold cell_writes; simp only []
            rw [if_pos hobj, if_neg h2, if_neg h3, if_pos h4]
        · by_cases h5 : is_round (get_obj s (i - s.main_width)) = true
              ∧ Int.tmod i s.main_width < s.main_width - 1 ∧ is_free s (i + 1) = true
              ∧ is_free s (i - s.main_width + 1) = true
          · refine Or.inr (Or.inr (Or.inr (Or.inr (Or.inl
              ⟨?_, h5.1, h5.2.1, (free_cell_iff s _).1 h5.2.2.1, ?_⟩))))
            · unfold scan_branch; simp only []
              rw [if_pos hobj, if_neg h2, if_neg h3, if_neg h4, if_pos h5]
            · unfold cell_writes; simp only []
              rw [if_pos hobj, if_neg h2, if_neg h3, if_neg h4, if_pos h5]
          · refine Or.inr (Or.inr (Or.inr (Or.inr (Or.inr ⟨?_, ?_⟩))))
            · unfold scan_branch; simp only []
              rw [if_pos hobj, if_neg h2, if_neg h3, if_neg h4, if_neg h5]
            · unfold cell_writes; simp only []
              rw [if_pos hobj, if_neg h2, if_neg h3, if_neg h4, if_neg h5]
  · refine Or.inl ⟨?_, ?_⟩
    · unfold scan_branch; simp only []; rw [if_neg hobj]
    · unfold cell_writes; simp only []; rw [if_neg hobj]

theorem scan_branch_fall (s : MinerGame) (i : Int) (h : scan_branch s i = ScanBranch.fall) :
    get_obj s (i - s.main_width) = SPACE := by
  rcases scan_branch_cases s i with ⟨hb, _⟩ | ⟨_, h1, _⟩ | ⟨hb, _⟩ | ⟨hb, _⟩ | ⟨hb, _⟩ | ⟨hb, _⟩
  · rw [h] at hb; cases hb
  · exact h1
  · rw [h] at hb; cases hb
  · rw [h] at hb; cases hb
  · rw [h] at hb; cases hb
  · rw [h] at hb; cases hb

theorem scan_branch_roll_left (s : MinerGame) (i : Int)
    (h : scan_branch s i = ScanBranch.roll_left) :
    is_round (get_obj s (i - s.main_width)) = true ∧ Int.tmod i s.main_width > 0
    ∧ cell_writes s i = [(i, SPACE), (i - 1, get_stationary_type (get_obj s i))] := by
  rcases scan_branch_cases s i with ⟨hb, _⟩ | ⟨hb, _⟩ | ⟨hb, _⟩ | ⟨_, h1, h2, _, h3⟩ | ⟨hb, _⟩
    | ⟨hb, _⟩
  · rw [h] at hb; cases hb
  · rw [h] at hb; cases hb
  · rw [h] at hb; cases hb
  · exact ⟨h1, h2, h3⟩
  · rw [h] at hb; cases hb
  · rw [h] at hb; cases hb

theorem scan_branch_roll_right (s : MinerGame) (i : Int)
    (h : scan_branch s i = ScanBranch.roll_right) :
    is_round (get_obj s (i - s.main_width)) = true
    ∧ Int.tmod i s.main_width < s.main_width - 1
    ∧ cell_writes s i = [(i, SPACE), (i + 1, get_stationary_type (get_obj s i))] := by
  rcases scan_branch_cases s i with ⟨hb, _⟩ | ⟨hb, _⟩ | ⟨hb, _⟩ | ⟨hb, _⟩ | ⟨_, h1, h2, _, h3⟩
    | ⟨hb, _⟩
  · rw [h] at hb; cases hb
  · rw [h] at hb; cases hb
  · rw [h] at hb; cases hb
  · rw [h] at hb; cases hb
  · exact ⟨h1, h2, h3⟩
  · rw [h] at hb; cases hb

/-- C21: all grid writes of a step are in bounds.  For a game on a well-formed
grid whose agent index lies in `[0, main_width * main_height)`, whatever the
action:
(1) the push is the sequence of writes `push_writes` on the next grid and
`push_live_writes` on the live grid, and each of their targets lies in
`[0, main_width * main_height)` and in the row of the agent's index;
(2) on a live game the committed grid is the next grid after the writes
`cell_writes` of the indices of the loop, and for every index `i` of the loop:
every target of its writes lies in `[0, main_width * main_height)`; if `i` is in
the bottom row the fall branch and the two roll branches are not taken and every
write lands on `i` itself; if `i` is in column 0 the left roll is not taken; if
`i` is in the last column the right roll is not taken; and a roll that is taken
lands in the row of `i`. -/
theorem step_writes_in_bounds (s : MinerGame) (hg : s.grid.wf)
    (ha : 0 ≤ get_agent_index s ∧ get_agent_index s < s.main_width * s.main_height) :
    ((after_push s).2 = apply_writes (push_writes s) s.grid
      ∧ (after_push s).1.grid = apply_writes (push_live_writes s) s.grid)
    ∧ (∀ p ∈ push_writes s ++ push_live_writes s,
        (0 ≤ p.1 ∧ p.1 < s.main_width * s.main_height)
        ∧ p.1 / s.main_width = get_agent_index s / s.main_width)
    ∧ (s.died = false →
        (game_step s).grid
          = apply_writes ((indices (s.main_width * s.main_height)).flatMap
              (cell_writes (pre_scan s).1)) (pre_scan s).2)
    ∧ (∀ i ∈ indices (s.main_width * s.main_height),
        (∀ p ∈ cell_writes (pre_scan s).1 i, 0 ≤ p.1 ∧ p.1 < s.main_width * s.main_height)
        ∧ (i < s.main_width →
            scan_branch (pre_scan s).1 i ≠ ScanBranch.fall
            ∧ scan_branch (pre_scan s).1 i ≠ ScanBranch.roll_left
            ∧ scan_branch (pre_scan s).1 i ≠ ScanBranch.roll_right
            ∧ ∀ p ∈ cell_writes (pre_scan s).1 i, p.1 = i)
        ∧ (Int.tmod i s.main_width = 0 →
            scan_branch (pre_scan s).1 i ≠ ScanBranch.roll_left)
        ∧ (Int.tmod i s.main_width = s.main_width - 1 →
            scan_branch (pre_scan s).1 i ≠ ScanBranch.roll_right)
        ∧ (scan_branch (pre_scan s).1 i = ScanBranch.roll_left →
            (i - 1) / s.main_width = i / s.main_width)
        ∧ (scan_branch (pre_scan s).1 i = ScanBranch.roll_right →
            (i + 1) / s.main_width = i / s.main_width)) := by
  obtain ⟨f1, _, _⟩ := set_facing_frame s
  obtain ⟨w1, w2, w3⟩ := push_writes_set_facing s
  obtain ⟨p1, p2, p3, p4, p5, p6, p7⟩ := pre_scan_frame s hg
  have hPw : (pre_scan s).1.main_width = s.main_width := by
    unfold MinerGame.main_width; rw [p5]
  have hPh : (pre_scan s).1.main_height = s.main_height := by
    unfold MinerGame.main_height; rw [p6]
  have hPa : (pre_scan s).1.grid.area = s.main_width * s.main_height := by
    unfold Grid.area MinerGame.main_width MinerGame.main_height; rw [p5, p6]
  have hsa : s.grid.area = s.main_width * s.main_height := rfl
  have hfw : (set_facing s).main_width = s.main_width := by
    unfold MinerGame.main_width; rw [f1]
  have hlink := handle_push_writes (set_facing s) s.grid
  rw [w1, w2, f1] at hlink
  have hcases := push_writes_cases (set_facing s) (by rw [w3]; exact ha.1)
  rw [w1, w2, w3, f1, hfw] at hcases
  -- the agent's index when the loop starts
  have hPidx : get_agent_index (pre_scan s).1 = get_agent_index (after_push s).1 :=
    pickup_agent_index (after_push s).1 (after_push s).2
  have hPin : 0 ≤ get_agent_index (pre_scan s).1
      ∧ get_agent_index (pre_scan s).1 < s.main_width * s.main_height := by
    rw [hPidx]
    rcases hcases with ⟨_, _, h⟩ | ⟨d, _, _, _, h, hb, _⟩
    · have h' : get_agent_index (after_push s).1 = get_agent_index s := h
      rw [h']; exact ha
    · have h' : get_agent_index (after_push s).1 = get_agent_index s + d := h
      rw [h']; exact hb
  refine ⟨hlink, ?_, ?_, ?_⟩
  · intro p hp
    rcases hcases with ⟨h1, h2, _⟩ | ⟨d, _, h1, h2, _, hb1, hb2, hr1, hr2⟩
    · rw [h1, h2] at hp; exact absurd hp (List.not_mem_nil p)
    · rw [h1, h2] at hp
      simp only [List.cons_append, List.nil_append, List.mem_cons, List.mem_singleton,
        List.not_mem_nil, or_false] at hp
      rcases hp with rfl | rfl | rfl
      · exact ⟨hb1, hr1⟩
      · exact ⟨hb2, hr2⟩
      · exact ⟨hb1, hr1⟩
  · intro hd
    have e1 := (game_step_alive s hg hd).1
    rw [hPw, hPh] at e1
    exact e1
  · intro i hi
    obtain ⟨hi0, hi1⟩ := (mem_indices _ _).1 hi
    have hw : 1 ≤ s.main_width := by
      have := main_width_pos_of_index s i hi0 hi1
      exact this
    have hmod : Int.tmod i s.main_width = i % s.main_width :=
      Int.tmod_eq_emod hi0 (by omega)
    have hm0 := Int.emod_nonneg i (show s.main_width ≠ 0 by omega)
    have hm1 := Int.emod_lt_of_pos i (show 0 < s.main_width by omega)
    refine ⟨?_, ?_, ?_, ?_, ?_, ?_⟩
    · intro p hp
      rcases cell_writes_target (pre_scan s).1 i p hp with h | ⟨_, h, _⟩ | ⟨_, h⟩ | ⟨_, h, _⟩
        | ⟨_, h, _⟩
      · rw [h]; exact ⟨hi0, hi1⟩
      · have := in_grid_of_get_obj_ne (pre_scan s).1 p.1 (by rw [h]; decide)
        rw [hPa] at this; exact this
      · rw [← h]; exact hPin
      · have := in_grid_of_get_obj_ne (pre_scan s).1 p.1 (by rw [h]; decide)
        rw [hPa] at this; exact this
      · have := in_grid_of_get_obj_ne (pre_scan s).1 p.1 (by rw [h]; decide)
        rw [hPa] at this; exact this
    · intro hrow
      have hbelow : get_obj (pre_scan s).1 (i - (pre_scan s).1.main_width) = OOB_WALL := by
        unfold get_obj
        exact Grid.get_index_of_not_contains _ _ (by rw [hPw]; intro c; omega)
      have hnr : is_round OOB_WALL = false := by decide
      have hns : OOB_WALL ≠ SPACE := by decide
      refine ⟨?_, ?_, ?_, ?_⟩
      · intro hb
        have := scan_branch_fall _ _ hb
        rw [hbelow] at this
        exact hns this
      · intro hb
        have := (scan_branch_roll_left _ _ hb).1
        rw [hbelow, hnr] at this
        cases this
      · intro hb
        have := (scan_branch_roll_right _ _ hb).1
        rw [hbelow, hnr] at this
        cases this
      · intro p hp
        rcases scan_branch_cases (pre_scan s).1 i with ⟨_, hws⟩ | ⟨_, h1, _⟩ | ⟨_, h1, _⟩
          | ⟨_, h1, _⟩ | ⟨_, h1, _⟩ | ⟨_, hws⟩
        · rw [hws] at hp; exact absurd hp (List.not_mem_nil p)
        · rw [hbelow] at h1; exact absurd h1 hns
        · rw [hPw] at h1; omega
        · rw [hbelow, hnr] at h1; cases h1
        · rw [hbelow, hnr] at h1; cases h1
        · rw [hws] at hp
          rw [List.mem_singleton.1 hp]
    · intro hcol hb
      have := (scan_branch_roll_left _ _ hb).2.1
      rw [hPw, hcol] at this
      omega
    · intro hcol hb
      have := (scan_branch_roll_right _ _ hb).2.1
      rw [hPw, hcol] at this
      omega
    · intro hb
      have := (scan_branch_roll_left _ _ hb).2.1
      rw [hPw, hmod] at this
      have e : i - 1 = i + -1 := by ring
      rw [e]
      exact row_of_shift _ _ _ (by omega) (by omega) (by omega)
    · intro hb
      have := (scan_branch_roll_right _ _ hb).2.1
      rw [hPw, hmod] at this
      exact row_of_shift _ _ _ (by omega) (by omega) (by omega)

/-- C21 on the 4x1 corridor: the agent in cell 0 pushes the boulder of cell 1
to the right; the three writes of the push land on cells 1 and 2 of the
corridor's only row. -/
theorem step_writes_in_bounds_witness :
    (corridor_4x1.wf
      ∧ (0 ≤ get_agent_index { game_on corridor_4x1 0 0 3 0 with action_vx := 1 }
        ∧ get_agent_index { game_on corridor_4x1 0 0 3 0 with action_vx := 1 } < 4 * 1))
    ∧ push_writes { game_on corridor_4x1 0 0 3 0 with action_vx := 1 }
        = [(1, SPACE), (2, BOULDER)]
    ∧ (∀ p ∈ push_writes { game_on corridor_4x1 0 0 3 0 with action_vx := 1 }
          ++ push_live_writes { game_on corridor_4x1 0 0 3 0 with action_vx := 1 },
        (0 ≤ p.1 ∧ p.1 < 4 * 1) ∧ p.1 / 4 = 0 / 4) :=
  ⟨⟨by decide, by decide⟩, by decide,
    (step_writes_in_bounds { game_on corridor_4x1 0 0 3 0 with action_vx := 1 }
      (by decide) (by decide)).2.1⟩

/-! ## Diamond count against the committed grid -/

theorem countP_le_of_inj (L : List Int) (hL : L.Nodup) (A B : Int → Bool) (g : Int → Int)
    (hmap : ∀ i ∈ L, B i = true → g i ∈ L ∧ A (g i) = true)
    (hinj : ∀ i ∈ L, B i = true → ∀ j ∈ L, B j = true → g i = g j → i = j) :
    L.countP B ≤ L.countP A := by
  rw [List.countP_eq_length_filter, List.countP_eq_length_filter]
  have hnd : ((L.filter B).map g).Nodup := by
    apply List.Nodup.map_on _ (hL.filter _)
    intro x hx y hy hxy
    obtain ⟨hx1, hx2⟩ := List.mem_filter.1 hx
    obtain ⟨hy1, hy2⟩ := List.mem_filter.1 hy
    exact hinj x hx1 hx2 y hy1 hy2 hxy
  have hsub : (L.filter B).map g ⊆ L.filter A := by
    intro c hc
    obtain ⟨i, hi, rfl⟩ := List.mem_map.1 hc
    obtain ⟨hi1, hi2⟩ := List.mem_filter.1 hi
    exact List.mem_filter.2 (hmap i hi1 hi2)
  have h2 := (List.subperm_of_subset hnd hsub).length_le
  rwa [List.length_map] at h2

/-- What the loop body does with a diamond: it writes the diamond into one cell,
its own or one that reads SPACE, and nothing else into that cell; or it takes
the crush branch and writes DEAD_PLAYER on the agent's cell below. -/
theorem live_diamond_target (P : MinerGame) (i : Int) (hw : 1 ≤ P.main_width)
    (hdia : get_stationary_type (get_obj P i) = DIAMOND) :
    (∃ c v, get_stationary_type v = DIAMOND ∧ (c, v) ∈ cell_writes P i
        ∧ (∀ q ∈ cell_writes P i, q.1 = c → q.2 = v) ∧ (c = i ∨ get_obj P c = SPACE))
    ∨ (get_agent_index P = i - P.main_width
        ∧ cell_writes P i = [(i - P.main_width, DEAD_PLAYER)]) := by
  have hround := diamond_is_round _ hdia
  obtain ⟨_, _, _, _, r5, r6⟩ := round_types _ hround
  rcases cell_writes_cases P i with ⟨hn, _, _⟩ | ⟨_, h⟩
  · exact absurd hround hn
  · rcases h with ⟨hb, _, _, ty, hty, hcw⟩ | ⟨hag, _, hcw⟩ | ⟨hf, _, hcw⟩ | ⟨hf, _, hcw⟩
      | ⟨_, hcw⟩
    · left
      have hv : get_stationary_type ty = DIAMOND := by
        rcases hty with rfl | rfl
        · exact r6.2 hdia
        · exact r5.2 hdia
      refine ⟨i - P.main_width, ty, hv, by rw [hcw]; simp, ?_, Or.inr hb⟩
      intro q hq hq1
      rw [hcw] at hq
      simp only [List.mem_cons, List.mem_singleton, List.not_mem_nil, or_false] at hq
      rcases hq with rfl | rfl
      · have : i = i - P.main_width := hq1
        omega
      · rfl
    · exact Or.inr ⟨hag, hcw⟩
    · left
      refine ⟨i - 1, get_stationary_type (get_obj P i), r5.2 hdia, by rw [hcw]; simp, ?_,
        Or.inr hf.1⟩
      intro q hq hq1
      rw [hcw] at hq
      simp only [List.mem_cons, List.mem_singleton, List.not_mem_nil, or_false] at hq
      rcases hq with rfl | rfl
      · have : i = i - 1 := hq1
        omega
      · rfl
    · left
      refine ⟨i + 1, get_stationary_type (get_obj P i), r5.2 hdia, by rw [hcw]; simp, ?_,
        Or.inr hf.1⟩
      intro q hq hq1
      rw [hcw] at hq
      simp only [List.mem_cons, List.mem_singleton, List.not_mem_nil, or_false] at hq
      rcases hq with rfl | rfl
      · have : i = i + 1 := hq1
        omega
      · rfl
    · left
      refine ⟨i, get_stationary_type (get_obj P i), r5.2 hdia, by rw [hcw]; simp, ?_,
        Or.inl rfl⟩
      intro q hq _
      rw [hcw] at hq
      rw [List.mem_singleton.1 hq]

/-- The committed value of a cell that one index writes and no other index
targets. -/
theorem committed_value_of_write (P : MinerGame) (NG : Grid) (hNG : NG.wf) (L : List Int)
    (i c v : Int) (hi : i ∈ L) (hmem : (c, v) ∈ cell_writes P i)
    (huniq : ∀ q ∈ cell_writes P i, q.1 = c → q.2 = v)
    (hothers : ∀ j ∈ L, j ≠ i → ∀ q ∈ cell_writes P j, q.1 ≠ c)
    (hc : 0 ≤ c ∧ c < NG.area) :
    (apply_writes (L.flatMap (cell_writes P)) NG).get_index c = v := by
  rcases apply_writes_get_cases (L.flatMap (cell_writes P)) NG hNG c with ⟨_, hno⟩
    | ⟨p, hp, ht, h⟩
  · exact absurd hc (hno (c, v) (List.mem_flatMap.2 ⟨i, hi, hmem⟩) rfl)
  · obtain ⟨j, hj, hpj⟩ := List.mem_flatMap.1 hp
    rw [h]
    by_cases hji : j = i
    · subst hji; exact huniq p hpj ht
    · exact absurd ht (hothers j hj hji p hpj)

/-- The committed grid holds at most as many diamonds as the live grid read by
the loop. -/
theorem scan_diamonds_le (P : MinerGame) (NG : Grid) (hNG : NG.wf)
    (ha : NG.area = P.main_width * P.main_height)
    (hrel : ∀ c, NG.get_index c = get_obj P c
      ∨ (NG.get_index c = BOULDER ∧ get_obj P c = SPACE)) :
    (indices (P.main_width * P.main_height)).countP
        (fun c => decide (get_stationary_type
          ((apply_writes ((indices (P.main_width * P.main_height)).flatMap (cell_writes P))
            NG).get_index c) = DIAMOND))
      ≤ (indices (P.main_width * P.main_height)).countP
        (fun c => decide (get_stationary_type (get_obj P c) = DIAMOND)) := by
  choose g hg1 hg2 using diamond_write_target P
  apply countP_le_of_image _ (indices_nodup _) _ _ g
  intro c hc hA
  have hA' : get_stationary_type
      ((apply_writes ((indices (P.main_width * P.main_height)).flatMap (cell_writes P))
        NG).get_index c) = DIAMOND := by simpa using hA
  have hcb := (mem_indices _ _).1 hc
  rcases apply_writes_get_cases
      ((indices (P.main_width * P.main_height)).flatMap (cell_writes P)) NG hNG c with
    ⟨h, hno⟩ | ⟨p, hp, ht, h⟩
  · rw [h] at hA'
    have hlive : get_stationary_type (get_obj P c) = DIAMOND := by
      rcases hrel c with h2 | ⟨h2, _⟩
      · rw [← h2]; exact hA'
      · rw [h2] at hA'; exact absurd hA' not_diamond_codes.2.1
    refine ⟨c, hc, by simpa using hlive, ?_⟩
    apply hg2
    rcases cell_writes_own_cell P c (diamond_is_round _ hlive) with ⟨q, hq, hqc⟩ | hnone
    · exact absurd ⟨hcb.1, by rw [ha]; exact hcb.2⟩
        (hno q (List.mem_flatMap.2 ⟨c, hc, hq⟩) hqc)
    · exact hnone
  · rw [h] at hA'
    obtain ⟨i, hi, hpi⟩ := List.mem_flatMap.1 hp
    refine ⟨i, hi, ?_, ?_⟩
    · simpa using diamond_write_source _ i p hpi hA'
    · rw [← ht]; exact (hg1 i p hpi hA').symm

/-- When no diamond write shares its cell with a write of another index, the
committed grid holds at least as many diamonds as the live grid read by the
loop. -/
theorem scan_diamonds_ge (P : MinerGame) (NG : Grid) (hNG : NG.wf)
    (ha : NG.area = P.main_width * P.main_height)
    (hrel : ∀ c, NG.get_index c = get_obj P c
      ∨ (NG.get_index c = BOULDER ∧ get_obj P c = SPACE))
    (H : diamond_writes_alone P) :
    (indices (P.main_width * P.main_height)).countP
        (fun c => decide (get_stationary_type (get_obj P c) = DIAMOND))
      ≤ (indices (P.main_width * P.main_height)).countP
        (fun c => decide (get_stationary_type
          ((apply_writes ((indices (P.main_width * P.main_height)).flatMap (cell_writes P))
            NG).get_index c) = DIAMOND)) := by
  choose g hg1 hg2 using diamond_write_target P
  obtain ⟨n1, n2, n3⟩ := not_diamond_codes
  have hlive : ∀ i ∈ indices (P.main_width * P.main_height),
      get_stationary_type (get_obj P i) = DIAMOND →
      (∃ v, get_stationary_type v = DIAMOND ∧ (g i, v) ∈ cell_writes P i
          ∧ (∀ q ∈ cell_writes P i, q.1 = g i → q.2 = v)
          ∧ (g i = i ∨ get_obj P (g i) = SPACE))
      ∨ (g i = i ∧ get_agent_index P = i - P.main_width ∧ 1 ≤ P.main_width
          ∧ cell_writes P i = [(i - P.main_width, DEAD_PLAYER)]) := by
    intro i hi hdia
    obtain ⟨hi0, hi1⟩ := (mem_indices _ _).1 hi
    have hw := main_width_pos_of_index P i hi0 hi1
    rcases live_diamond_target P i hw hdia with ⟨c, v, hv, hmem, huniq, hc⟩ | ⟨hag, hcw⟩
    · have hgc : c = g i := hg1 i (c, v) hmem hv
      subst hgc
      exact Or.inl ⟨v, hv, hmem, huniq, hc⟩
    · refine Or.inr ⟨hg2 i ?_, hag, hw, hcw⟩
      intro p hp
      rw [hcw] at hp
      rw [List.mem_singleton.1 hp]
      exact n3
  -- no write of another index lands on a diamond that takes the crush branch
  have hcrush : ∀ i, get_stationary_type (get_obj P i) = DIAMOND →
      get_agent_index P = i - P.main_width → 1 ≤ P.main_width →
      ∀ j, j ≠ i → ∀ q ∈ cell_writes P j, q.1 ≠ i := by
    intro i hdia hag hw j hji q hq hqi
    rcases cell_writes_target P j q hq with h | ⟨_, h, _⟩ | ⟨_, h⟩ | ⟨_, h, _⟩ | ⟨_, h, _⟩
    · exact hji (h.symm.trans hqi)
    · rw [hqi] at h; rw [h] at hdia; exact n1 hdia
    · rw [hqi] at h; omega
    · rw [hqi] at h; rw [h] at hdia; exact n1 hdia
    · rw [hqi] at h; rw [h] at hdia; exact n1 hdia
  apply countP_le_of_inj _ (indices_nodup _) _ _ g
  · intro i hi hB
    have hdia : get_stationary_type (get_obj P i) = DIAMOND := by simpa using hB
    obtain ⟨hi0, hi1⟩ := (mem_indices _ _).1 hi
    rcases hlive i hi hdia with ⟨v, hv, hmem, huniq, hc⟩ | ⟨hgi, hag, hw, hcw⟩
    · have hcb : 0 ≤ g i ∧ g i < P.main_width * P.main_height := by
        rcases hc with h | h
        · rw [h]; exact ⟨hi0, hi1⟩
        · exact in_grid_of_get_obj_ne P (g i) (by rw [h]; decide)
      refine ⟨(mem_indices _ _).2 hcb, ?_⟩
      have hval := committed_value_of_write P NG hNG _ i (g i) v hi hmem huniq
        (fun j hj hji q hq hq1 => H i hi j hj (fun e => hji e.symm) (g i, v) hmem q hq hv
          hq1.symm)
        ⟨hcb.1, by rw [ha]; exact hcb.2⟩
      rw [hval]
      simpa using hv
    · rw [hgi]
      refine ⟨hi, ?_⟩
      have hnot : ∀ p ∈ (indices (P.main_width * P.main_height)).flatMap (cell_writes P),
          p.1 ≠ i := by
        intro p hp hpi
        obtain ⟨j, _, hpj⟩ := List.mem_flatMap.1 hp
        by_cases hji : j = i
        · subst hji
          rw [hcw] at hpj
          rw [List.mem_singleton.1 hpj] at hpi
          have : j - P.main_width = j := hpi
          omega
        · exact hcrush i hdia hag hw j hji p hpj hpi
      rw [apply_writes_get_of_not_target _ _ hNG i hnot]
      rcases hrel i with h | ⟨_, h⟩
      · rw [h]; simpa using hdia
      · rw [h] at hdia; exact absurd hdia n1
  · intro i hi hBi j hj hBj hgij
    have hdi : get_stationary_type (get_obj P i) = DIAMOND := by simpa using hBi
    have hdj : get_stationary_type (get_obj P j) = DIAMOND := by simpa using hBj
    by_contra hne
    rcases hlive i hi hdi with ⟨v, hv, hmem, _, hc⟩ | ⟨hgi, hag, hw, hcw⟩
    · rcases hlive j hj hdj with ⟨v2, _, hmem2, _, _⟩ | ⟨hgj, hag2, hw2, _⟩
      · exact H i hi j hj hne (g i, v) hmem (g j, v2) hmem2 hv hgij
      · exact hcrush j hdj hag2 hw2 i hne (g i, v) hmem (hgij.trans hgj)
    · rcases hlive j hj hdj with ⟨v2, _, hmem2, _, _⟩ | ⟨hgj, _, _, _⟩
      · exact hcrush i hdi hag hw j (fun e => hne e.symm) (g j, v2) hmem2
          (hgij.symm.trans hgi)
      · exact hne (hgi.symm.trans (hgij.trans hgj))

/-- C3, amended: on a live game, after `game_step` the value of
`diamonds_remaining` is the number of cells classified DIAMOND (DIAMOND or
MOVING_DIAMOND) in the live grid that the physics loop reads; it is never less
than the number of such cells in the grid committed by that step; and it equals
the number of such cells in the committed grid whenever no cell into which one
index of the loop writes a diamond is written by another index, in particular
whenever no two indices of the loop write the same cell. -/
theorem diamonds_remaining_counts_committed_grid (s : MinerGame) (hg : s.grid.wf)
    (hd : s.died = false) :
    (game_step s).diamonds_remaining = (diamond_cells (pre_scan s).1 : Int)
    ∧ (diamond_cells (game_step s) : Int) ≤ (game_step s).diamonds_remaining
    ∧ (diamond_writes_alone (pre_scan s).1 →
        (game_step s).diamonds_remaining = (diamond_cells (game_step s) : Int))
    ∧ ((∀ i ∈ indices ((pre_scan s).1.main_width * (pre_scan s).1.main_height),
          ∀ j ∈ indices ((pre_scan s).1.main_width * (pre_scan s).1.main_height), i ≠ j →
            ∀ p ∈ cell_writes (pre_scan s).1 i, ∀ q ∈ cell_writes (pre_scan s).1 j,
              p.1 ≠ q.1) →
        (game_step s).diamonds_remaining = (diamond_cells (game_step s) : Int)) := by
  obtain ⟨p1, p2, p3, p4, p5, p6, p7⟩ := pre_scan_frame s hg
  obtain ⟨e1, _, e3, _, _⟩ := game_step_alive s hg hd
  have hPw : (game_step s).main_width = (pre_scan s).1.main_width := by
    unfold MinerGame.main_width; rw [e1, apply_writes_w, p3]
  have hPh : (game_step s).main_height = (pre_scan s).1.main_height := by
    unfold MinerGame.main_height; rw [e1, apply_writes_h, p4]
  have hNGa : (pre_scan s).2.area = (pre_scan s).1.main_width * (pre_scan s).1.main_height := by
    unfold Grid.area MinerGame.main_width MinerGame.main_height; rw [p3, p4]
  have hrel : ∀ c, (pre_scan s).2.get_index c = get_obj (pre_scan s).1 c
      ∨ ((pre_scan s).2.get_index c = BOULDER ∧ get_obj (pre_scan s).1 c = SPACE) :=
    fun c => (pre_scan_next_grid s hg c).imp id (fun h => ⟨h.1, h.2.1⟩)
  have hcommitted : diamond_cells (game_step s)
      = (indices ((pre_scan s).1.main_width * (pre_scan s).1.main_height)).countP
          (fun c => decide (get_stationary_type
            ((apply_writes ((indices ((pre_scan s).1.main_width
                * (pre_scan s).1.main_height)).flatMap (cell_writes (pre_scan s).1))
              (pre_scan s).2).get_index c) = DIAMOND)) := by
    unfold diamond_cells get_obj
    rw [hPw, hPh, e1]
  have hscanned : (game_step s).diamonds_remaining = (diamond_cells (pre_scan s).1 : Int) := e3
  have hle := scan_diamonds_le (pre_scan s).1 (pre_scan s).2 p2 hNGa hrel
  have hge := scan_diamonds_ge (pre_scan s).1 (pre_scan s).2 p2 hNGa hrel
  have hle' : diamond_cells (game_step s) ≤ diamond_cells (pre_scan s).1 := by
    rw [hcommitted]; exact hle
  have heq : diamond_writes_alone (pre_scan s).1 →
      (game_step s).diamonds_remaining = (diamond_cells (game_step s) : Int) := by
    intro H
    have h2 : diamond_cells (pre_scan s).1 ≤ diamond_cells (game_step s) := by
      rw [hcommitted]; exact hge H
    rw [hscanned]
    exact_mod_cast le_antisymm h2 hle'
  refine ⟨hscanned, ?_, heq, ?_⟩
  · rw [hscanned]; exact_mod_cast hle'
  · intro hnc
    exact heq (fun i hi j hj hne p hp q hq _ => hnc i hi j hj hne p hp q hq)

/-- C3, amended, on the 3x3 cave: the diamond of cell 4 rolls into cell 3, no
other index writes cell 3, and the step reports one remaining diamond, which is
the number of diamonds of the committed grid. -/
theorem diamonds_remaining_counts_committed_grid_witness :
    (cave_3x3.wf ∧ (game_on cave_3x3 0 2 2 2).died = false
      ∧ diamond_writes_alone (pre_scan (game_on cave_3x3 0 2 2 2)).1)
    ∧ cell_writes (pre_scan (game_on cave_3x3 0 2 2 2)).1 4 = [(4, SPACE), (3, DIAMOND)]
    ∧ diamond_cells (game_step (game_on cave_3x3 0 2 2 2)) = 1
    ∧ (game_step (game_on cave_3x3 0 2 2 2)).diamonds_remaining
        = (diamond_cells (game_step (game_on cave_3x3 0 2 2 2)) : Int) :=
  ⟨⟨by decide, rfl, by decide⟩, by decide, by decide,
    (diamonds_remaining_counts_committed_grid (game_on cave_3x3 0 2 2 2) (by decide) rfl).2.2.1
      (by decide)⟩

end Miner
